import Mathlib

/-!
# ereader: decoding EViews workfiles (.wf1)

A shallow embedding of `read_wf1` (src/ereader.c) together with the packed record
layouts of src/wf1.h, followed by theorems about it.

Conventions of the embedding.

* A file is the list of its bytes (naturals below 256); a stream is a file with a
  position.  `fread` past the end of the file is a short read: the bytes that exist are
  copied to the front of the destination and the rest of the destination keeps what it
  held before.
* Objects that C leaves uninitialised (the locals `word`, `vh`, `vi`, `db`, the fields of
  `outstruct`, the memory returned by `malloc`) start with arbitrary contents, supplied
  by the environment `Env`; so is the answer of each `malloc` and of `fopen`, and the
  value of the global `flag` on entry.
* `int` is 32 bits, `long` and `size_t` are 64 bits, `short` is 16 bits, little endian
  (the layout the packed records are written for).  Unsigned arithmetic wraps modulo
  `2 ^ 64`; narrowing conversions wrap; an overflowing signed `int` operation, a store
  outside an allocated block or through a null pointer, a `strcmp` on a null pointer and
  a `strlen` that runs off the end of the record `vi` are undefined behaviour: the
  function then yields no result (`none`).
* A `double` is represented by its 64-bit IEEE-754 pattern.
* Everything written to `stderr` and every operation on the stream is recorded, in order,
  in a log.
-/

namespace Ereader

/-! ## Machine integers -/

/-- Value of a byte string read as an unsigned little-endian integer. -/
def leNat : List Nat → Nat
  | [] => 0
  | b :: bs => b + 256 * leNat bs

/-- The `n` little-endian bytes of a value. -/
def leBytes : Nat → Nat → List Nat
  | 0, _ => []
  | n + 1, v => v % 256 :: leBytes n (v / 256)

/-- Two's-complement reading of the low `w` bits of a pattern. -/
def toSigned (w : Nat) (n : Nat) : Int :=
  if n % 2 ^ w < 2 ^ (w - 1) then ((n % 2 ^ w : Nat) : Int)
  else ((n % 2 ^ w : Nat) : Int) - ((2 ^ w : Nat) : Int)

/-- Signed integer stored in `w` little-endian bytes. -/
def leInt (w : Nat) (bytes : List Nat) : Int := toSigned (8 * w) (leNat bytes)

/-- Conversion of an integer to a signed type of `w` bits (wraps). -/
def wrapInt (w : Nat) (x : Int) : Int := toSigned w (x % ((2 ^ w : Nat) : Int)).toNat

/-- Conversion of an integer to `size_t` (wraps modulo `2 ^ 64`). -/
def toSizeT (x : Int) : Nat := (x % ((2 ^ 64 : Nat) : Int)).toNat

def INT_MIN : Int := -2147483648

def INT_MAX : Int := 2147483647

/-- Result of a signed `int` operation whose mathematical value is `x`: undefined on
overflow. -/
def i32 (x : Int) : Option Int :=
  if INT_MIN ≤ x ∧ x ≤ INT_MAX then some x else none

/-! ## Doubles, as bit patterns -/

/-- Not-a-number: all exponent bits set and a non-zero fraction. -/
def isNaN (bits : Nat) : Bool :=
  decide ((bits / 2 ^ 52) % 2 ^ 11 = 2047 ∧ bits % 2 ^ 52 ≠ 0)

/-- The C comparison `a == b` on doubles: false when either side is NaN, and the two
zeros are equal. -/
def dEq (a b : Nat) : Bool :=
  !isNaN a && !isNaN b && (decide (a % 2 ^ 64 = b % 2 ^ 64) || decide (a % 2 ^ 63 = 0 ∧ b % 2 ^ 63 = 0))

/-- Bit pattern of the double literal `1e-37`, the missing-value encoding. -/
def MISSING : Nat := 4053525113571281807

/-- Bit pattern of `-99999.0`, the sentinel of a skipped variable. -/
def STRUCTURAL : Nat := 13904980329019473920

/-- Bit pattern of `-100000.0`, the sentinel of a missing or NaN observation. -/
def NODATA : Nat := 13904980397738950656

/-! ## C strings -/

/-- Bytes of a string literal, without its terminator. -/
def cstr (s : String) : List Nat := s.toList.map Char.toNat

/-- Library `strlen` on the bytes of an object: `none` when no terminator is found
inside the object. -/
def strlen : List Nat → Option Nat
  | [] => none
  | b :: bs => if b = 0 then some 0 else (strlen bs).map (· + 1)

/-- Library `strcmp`: zero exactly when the two strings are equal.  The end of a list
counts as the terminator. -/
def strcmp : List Nat → List Nat → Int
  | [], [] => 0
  | [], b :: _ => -(b : Int)
  | a :: _, [] => (a : Int)
  | a :: as, b :: bs =>
    if a ≠ b then (a : Int) - (b : Int) else if a = 0 then 0 else strcmp as bs

/-- Library `strncmp`: compares at most `n` characters. -/
def strncmp : List Nat → List Nat → Nat → Int
  | _, _, 0 => 0
  | [], [], _ + 1 => 0
  | [], b :: _, _ + 1 => -(b : Int)
  | a :: _, [], _ + 1 => (a : Int)
  | a :: as, b :: bs, n + 1 =>
    if a ≠ b then (a : Int) - (b : Int) else if a = 0 then 0 else strncmp as bs n

/-- Library `strrchr` for a non-zero character: the suffix starting at its last
occurrence, `none` (the null pointer) when there is none. -/
def strrchr : List Nat → Nat → Option (List Nat)
  | [], _ => none
  | x :: xs, c =>
    match strrchr xs c with
    | some r => some r
    | none => if x = c then some (x :: xs) else none

/-! ## Streams -/

/-- An open stream: the bytes of the file and the current position. -/
structure FILE where
  data : List Nat
  pos : Nat

/-- Messages written to `stderr`. -/
inductive Msg
  | cannotHandle
  | unableToOpen
  | notCompatible
  | noMemVarNames
  | noMemVarLengths
  | noMemDataArray
  | inconsistentObs
  deriving DecidableEq, Repr

/-- Observable operations, in the order they happen. -/
inductive Event
  | fopen (ok : Bool)
  | fgets (pos got : Nat)
  | rewind
  | fseek (offset : Int)
  | fread (pos size got : Nat)
  | fclose
  | stderr (m : Msg)
  deriving DecidableEq, Repr

/-- The bytes `[off, off + len)` of a buffer or file (fewer when it ends before). -/
def field (buf : List Nat) (off len : Nat) : List Nat := (buf.drop off).take len

/-- Library `fseek(fp, offset, SEEK_SET)`: fails, leaving the position alone, on a
negative offset. -/
def fseek (fp : FILE) (offset : Int) : FILE :=
  if offset < 0 then fp else { fp with pos := offset.toNat }

def rewind (fp : FILE) : FILE := { fp with pos := 0 }

/-- Library `fread(buf, size, 1, fp)`: the new contents of `buf` and the stream. -/
def fread (buf : List Nat) (size : Nat) (fp : FILE) : List Nat × FILE :=
  let got := field fp.data fp.pos size
  (got ++ buf.drop got.length, { fp with pos := fp.pos + got.length })

/-- Characters `fgets` takes from the input: at most `n`, up to and including the first
newline. -/
def fgetsChars : Nat → List Nat → List Nat
  | 0, _ => []
  | _ + 1, [] => []
  | n + 1, b :: bs => if b = 10 then [b] else b :: fgetsChars n bs

/-- Library `fgets(buf, size, fp)`: when nothing can be read the buffer is unchanged,
otherwise the characters read are stored followed by a terminator. -/
def fgets (buf : List Nat) (size : Nat) (fp : FILE) : List Nat × FILE :=
  let got := fgetsChars (size - 1) (fp.data.drop fp.pos)
  if got.isEmpty then (buf, fp)
  else (got ++ 0 :: buf.drop (got.length + 1), { fp with pos := fp.pos + got.length })

/-! ## Allocated blocks -/

/-- A pointer returned by `malloc` with the block behind it: whether it is non-null, the
number of elements allocated, and the contents by element index. -/
structure Buf (α : Type) where
  ok : Bool
  cap : Nat
  mem : Nat → α

/-- Store through `p[idx]`: undefined through a null pointer or outside the block. -/
def Buf.store {α : Type} (p : Buf α) (idx : Int) (v : α) : Option (Buf α) :=
  if p.ok = true ∧ 0 ≤ idx ∧ idx < (p.cap : Int) then
    some { p with mem := fun k => if k = idx.toNat then v else p.mem k }
  else none

/-- Load of `p[idx]`: undefined through a null pointer or outside the block. -/
def Buf.load {α : Type} (p : Buf α) (idx : Int) : Option α :=
  if p.ok = true ∧ 0 ≤ idx ∧ idx < (p.cap : Int) then some (p.mem idx.toNat) else none

/-! ## Records of wf1.h -/

/-- Size of the packed `EVIEWSHEADER`: 80+8+26+4+4+2+2+2+4+8+4+2. -/
def sizeofHeader : Nat := 146

/-- Size of the packed `EVIEWSVARIABLEINFO`: 6+4+4+8+32+8+2+6. -/
def sizeofVarInfo : Nat := 70

/-- Size of the packed `EVIEWSDATABLOCK`: 4+4+8+4+2. -/
def sizeofDataBlock : Nat := 22

/-- Size of `EVIEWSDATAOBS`, a double. -/
def sizeofDataObs : Nat := 8

/-- Field `HeaderSize` (a `long` after `Unknown0[80]`). -/
def hdrHeaderSize (vh : List Nat) : Int := leInt 8 (field vh 80 8)

/-- Field `NumVarPlusOne` (an `int` after `Unknown1[26]`). -/
def hdrNumVarPlusOne (vh : List Nat) : Int := leInt 4 (field vh 114 4)

/-- Field `NumObs` of the header. -/
def hdrNumObs (vh : List Nat) : Int := leInt 4 (field vh 140 4)

/-- Field `DataPos` (a `long` after `Unknown0[6]`, `RecSize`, `BlockSize`). -/
def viDataPos (vi : List Nat) : Int := leInt 8 (field vi 14 8)

/-- Memory from the start of `VarName[32]` to the end of the record, as seen by the
string functions. -/
def viVarName (vi : List Nat) : List Nat := field vi 22 48

/-- Element `VarName[j]`, for `j < 32`. -/
def viVarNameAt (vi : List Nat) (j : Nat) : Nat := (field vi 22 32).getD j 0

/-- Field `ObjNat` (a `short` after `PtrToHist`). -/
def viObjNat (vi : List Nat) : Int := leInt 2 (field vi 62 2)

/-- Field `NumObs` of a data block. -/
def dbNumObs (db : List Nat) : Int := leInt 4 (field db 0 4)

/-! ## The result and the environment -/

/-- Return type of `read_wf1`. -/
structure EVIEWSINFO where
  success : Bool
  GlobNumVars : Int
  NumVars : Int
  NumObs : Int
  VarNames : Buf Nat
  VarLengths : Buf Int
  DataArray : Buf Nat

/-- What a call depends on besides its argument. -/
structure Env where
  /-- answer of `fopen(path, "r")`: the bytes of the file, or `none` -/
  fopen : String → Option (List Nat)
  /-- value of the global `flag` on entry -/
  flag : Bool
  /-- initial contents of the locals -/
  word : List Nat
  vh : List Nat
  vi : List Nat
  db : List Nat
  outstruct : EVIEWSINFO
  /-- whether each `malloc` returns a non-null pointer, and the contents of its block -/
  mallocVarNames : Bool
  mallocVarLengths : Bool
  mallocDataArray : Bool
  heapVarNames : Nat → Nat
  heapVarLengths : Nat → Int
  heapDataArray : Nat → Nat

/-- State of the function while the stream is open. -/
structure State where
  inptr : FILE
  vi : List Nat
  db : List Nat
  flag : Bool
  outstruct : EVIEWSINFO
  log : List Event

/-- What a call that returns leaves behind: the returned structure, the global `flag`
and the log. -/
structure Run where
  ret : EVIEWSINFO
  flag : Bool
  log : List Event

/-! ## read_wf1 -/

/-- The loop `for (int k = start; k < start + n; k++) body`. -/
def forLoop {σ : Type} (body : Nat → σ → Option σ) : Nat → Nat → σ → Option σ
  | 0, _, s => some s
  | n + 1, k, s => (body k s).bind (forLoop body n (k + 1))

/-- Line 144: `outstruct.VarNames[32 * i + j] = (j < l) ? vi.VarName[j] : 0`. -/
def storeNameChar (i : Nat) (l : Int) (j : Nat) (s : State) : Option State :=
  (i32 (32 * (i : Int))).bind fun a =>
  (i32 (a + (j : Int))).bind fun idx =>
  (s.outstruct.VarNames.store idx (if (j : Int) < l then viVarNameAt s.vi j else 0)).bind fun names =>
  some { s with outstruct := { s.outstruct with VarNames := names } }

/-- Line 156: `outstruct.DataArray[i * outstruct.NumObs + j] = -99999`. -/
def storeStructural (i : Nat) (j : Nat) (s : State) : Option State :=
  (i32 ((i : Int) * s.outstruct.NumObs)).bind fun a =>
  (i32 (a + (j : Int))).bind fun idx =>
  (s.outstruct.DataArray.store idx STRUCTURAL).bind fun arr =>
  some { s with outstruct := { s.outstruct with DataArray := arr } }

/-- Lines 183-190: read one observation into its cell and replace a missing or NaN
value by the sentinel. -/
def readObs (i : Nat) (j : Nat) (s : State) : Option State :=
  (i32 ((i : Int) * s.outstruct.NumObs)).bind fun a =>
  (i32 (a + (j : Int))).bind fun idx =>
  (s.outstruct.DataArray.load idx).bind fun old =>
  let r := fread (leBytes 8 old) sizeofDataObs s.inptr
  (s.outstruct.DataArray.store idx (leNat r.1)).bind fun arr =>
  (arr.load idx).bind fun x =>
  (if dEq x MISSING || !dEq x x then arr.store idx NODATA else some arr).bind fun arr2 =>
  some { s with
    inptr := r.2
    outstruct := { s.outstruct with DataArray := arr2 }
    log := s.log ++ [Event.fread s.inptr.pos sizeofDataObs (r.2.pos - s.inptr.pos)] }

/-- Line 148: the variable is structural or unknown. -/
def isStructural (vi : List Nat) : Bool :=
  decide (viObjNat vi ≠ 44) || decide (strcmp (viVarName vi) (cstr "RESID") = 0)
    || decide (strncmp (viVarName vi) (cstr "SERIES") 6 = 0)

/-- Offset passed to `fseek` at line 130: `hlen + 26` is an `int` sum, the product and
the outer sum are `size_t`, and the result is converted to `long`. -/
def dirOffset (hlen : Int) (i : Nat) : Option Int :=
  (i32 (hlen + 26)).map fun h26 =>
    wrapInt 64 ((toSizeT h26 + toSizeT (i : Int) * sizeofVarInfo : Nat) : Int)

/-- Lines 129-191: the body of the loop over the variables. -/
def varBody (hlen : Int) (i : Nat) (s : State) : Option State :=
  (dirOffset hlen i).bind fun off =>
  let fp := fseek s.inptr off
  let r := fread s.vi sizeofVarInfo fp
  let vi := r.1
  let log1 := s.log ++ [Event.fseek off, Event.fread fp.pos sizeofVarInfo (r.2.pos - fp.pos)]
  (strlen (viVarName vi)).bind fun len =>
  let l : Int := (len : Int)
  (s.outstruct.VarLengths.store (i : Int) l).bind fun lengths =>
  let s1 : State := { s with
    inptr := r.2, vi := vi, log := log1
    outstruct := { s.outstruct with VarLengths := lengths } }
  (forLoop (storeNameChar i l) 32 0 s1).bind fun s2 =>
  if isStructural vi then
    (i32 (s2.outstruct.NumVars - 1)).bind fun nv =>
    let s3 : State := { s2 with outstruct := { s2.outstruct with NumVars := nv } }
    forLoop (storeStructural i) s3.outstruct.NumObs.toNat 0 s3
  else
    let fp2 := fseek s2.inptr (viDataPos vi)
    let r2 := fread s2.db sizeofDataBlock fp2
    let db := r2.1
    let log2 := s2.log ++ [Event.fseek (viDataPos vi),
      Event.fread fp2.pos sizeofDataBlock (r2.2.pos - fp2.pos)]
    let warn : Bool := decide (dbNumObs db ≠ s2.outstruct.NumObs) && !s2.flag
    let s3 : State := { s2 with
      inptr := r2.2, db := db
      flag := if warn then true else s2.flag
      log := if warn then log2 ++ [Event.stderr Msg.inconsistentObs] else log2 }
    forLoop (readObs i) s3.outstruct.NumObs.toNat 0 s3

/-- Lines 72-200: the function after the signature check. -/
def readBody (env : Env) (outstruct : EVIEWSINFO) (inptr0 : FILE) (log0 : List Event) :
    Option Run :=
  let inptr1 := rewind inptr0
  let r := fread env.vh sizeofHeader inptr1
  let vh := r.1
  let log1 := log0 ++ [Event.rewind, Event.fread 0 sizeofHeader r.2.pos]
  let hlen : Int := wrapInt 32 (hdrHeaderSize vh)
  (i32 (hdrNumVarPlusOne vh - 1)).bind fun G =>
  let M : Int := hdrNumObs vh
  let out1 : EVIEWSINFO := { outstruct with GlobNumVars := G, NumVars := G, NumObs := M }
  (i32 (hlen + 26)).bind fun h26 =>
  let inptr2 := fseek r.2 h26
  let log2 := log1 ++ [Event.fseek h26]
  let out2 : EVIEWSINFO := { out1 with
    VarNames := ⟨env.mallocVarNames, (1 * toSizeT G % 2 ^ 64 * 32) % 2 ^ 64, env.heapVarNames⟩ }
  if !out2.VarNames.ok then
    some ⟨out2, env.flag, log2 ++ [Event.stderr Msg.noMemVarNames]⟩
  else
    let out3 : EVIEWSINFO := { out2 with
      VarLengths := ⟨env.mallocVarLengths, (4 * toSizeT G % 2 ^ 64) / 4, env.heapVarLengths⟩ }
    if !out3.VarNames.ok then
      some ⟨out3, env.flag, log2 ++ [Event.stderr Msg.noMemVarLengths]⟩
    else
      let out4 : EVIEWSINFO := { out3 with
        DataArray := ⟨env.mallocDataArray,
          ((8 * toSizeT G % 2 ^ 64) * toSizeT M % 2 ^ 64) / 8, env.heapDataArray⟩ }
      if !out4.VarNames.ok then
        some ⟨out4, env.flag, log2 ++ [Event.stderr Msg.noMemDataArray]⟩
      else
        let s0 : State := ⟨inptr2, env.vi, env.db, env.flag, out4, log2⟩
        (forLoop (varBody hlen) G.toNat 0 s0).map fun s =>
          ⟨{ s.outstruct with success := true }, s.flag, s.log ++ [Event.fclose]⟩

/-- The function `read_wf1(infile)`: `none` when its behaviour is undefined. -/
def read_wf1 (env : Env) (infile : String) : Option Run :=
  let outstruct : EVIEWSINFO := { env.outstruct with success := false }
  match strrchr (cstr infile) 46 with
  | none => none
  | some infile_ext =>
    if strcmp infile_ext (cstr ".wf1") ≠ 0 then
      some ⟨outstruct, env.flag, [Event.stderr Msg.cannotHandle]⟩
    else
      match env.fopen infile with
      | none => some ⟨outstruct, env.flag, [Event.fopen false, Event.stderr Msg.unableToOpen]⟩
      | some data =>
        let r := fgets (env.word.take 21 ++ [0]) 22 ⟨data, 0⟩
        let log0 := [Event.fopen true, Event.fgets 0 r.2.pos]
        if strcmp r.1 (cstr "New MicroTSP Workfile") ≠ 0 then
          some ⟨outstruct, env.flag, log0 ++ [Event.stderr Msg.notCompatible]⟩
        else readBody env outstruct r.2 log0

/-! ## Vocabulary of the statements and of their proofs -/

/-- Proof device: the state with the contents of the name table replaced. -/
def State.setNames (s : State) (m : Nat → Nat) : State :=
  { s with outstruct := { s.outstruct with VarNames := { s.outstruct.VarNames with mem := m } } }

/-- Proof device: the state with the contents of the matrix replaced. -/
def State.setData (s : State) (m : Nat → Nat) : State :=
  { s with outstruct := { s.outstruct with DataArray := { s.outstruct.DataArray with mem := m } } }

/-- Value left in a cell by lines 183-190 when the bytes read form the pattern `x`. -/
def cellValue (x : Nat) : Nat := if dEq x MISSING || !dEq x x then NODATA else x

/-- What no step of the function changes: the bytes of the file, the counts taken from
the header, and the three pointers with the sizes of their blocks. -/
structure Keeps (s t : State) : Prop where
  data : t.inptr.data = s.inptr.data
  success : t.outstruct.success = s.outstruct.success
  glob : t.outstruct.GlobNumVars = s.outstruct.GlobNumVars
  obs : t.outstruct.NumObs = s.outstruct.NumObs
  namesOk : t.outstruct.VarNames.ok = s.outstruct.VarNames.ok
  namesCap : t.outstruct.VarNames.cap = s.outstruct.VarNames.cap
  lengthsOk : t.outstruct.VarLengths.ok = s.outstruct.VarLengths.ok
  lengthsCap : t.outstruct.VarLengths.cap = s.outstruct.VarLengths.cap
  arrayOk : t.outstruct.DataArray.ok = s.outstruct.DataArray.ok
  arrayCap : t.outstruct.DataArray.cap = s.outstruct.DataArray.cap

/-- Contents of the name table after the loop of lines 142-145 has run `n` times. -/
def namesAfter (i : Nat) (l : Int) (s : State) (n : Nat) : Nat → Nat :=
  fun k => if 32 * i ≤ k ∧ k < 32 * i + n
    then (if ((k - 32 * i : Nat) : Int) < l then viVarNameAt s.vi (k - 32 * i) else 0)
    else s.outstruct.VarNames.mem k

/-- Contents of the matrix after the loop of lines 154-157 has run `n` times. -/
def structuralAfter (i : Nat) (s : State) (n : Nat) : Nat → Nat :=
  fun k => if i * s.outstruct.NumObs.toNat ≤ k ∧ k < i * s.outstruct.NumObs.toNat + n
    then STRUCTURAL else s.outstruct.DataArray.mem k

/-- An event that is the read of one observation. -/
def Event.isObsRead : Event → Prop
  | Event.fread _ size _ => size = sizeofDataObs
  | _ => False

/-- Relation between the state `s` in which the loop of lines 180-191 starts for
variable `i` and the state `t` after `n` of its iterations. -/
structure ObsLoop (i : Nat) (s t : State) (n : Nat) : Prop where
  keeps : Keeps s t
  vi : t.vi = s.vi
  db : t.db = s.db
  flag : t.flag = s.flag
  numVars : t.outstruct.NumVars = s.outstruct.NumVars
  names : t.outstruct.VarNames = s.outstruct.VarNames
  lengths : t.outstruct.VarLengths = s.outstruct.VarLengths
  frame : ∀ k, ¬ (i * s.outstruct.NumObs.toNat ≤ k ∧ k < i * s.outstruct.NumObs.toNat + n) →
    t.outstruct.DataArray.mem k = s.outstruct.DataArray.mem k
  cells : ∀ j, j < n → s.inptr.pos + 8 * (j + 1) ≤ s.inptr.data.length →
    t.outstruct.DataArray.mem (i * s.outstruct.NumObs.toNat + j)
      = cellValue (leNat (field s.inptr.data (s.inptr.pos + 8 * j) 8))
  pos : s.inptr.pos + 8 * n ≤ s.inptr.data.length → t.inptr.pos = s.inptr.pos + 8 * n
  log : ∃ evs : List Event, t.log = s.log ++ evs ∧ evs.length = n ∧ ∀ e ∈ evs, e.isObsRead

/-- The stream after the `fseek` of line 130. -/
def seekVar (s : State) (off : Int) : FILE := fseek s.inptr off

/-- The record `vi` after the `fread` of line 133. -/
def viAfter (s : State) (off : Int) : List Nat := (fread s.vi sizeofVarInfo (seekVar s off)).1

/-- The stream after the `fread` of line 133. -/
def inptrAfterVar (s : State) (off : Int) : FILE := (fread s.vi sizeofVarInfo (seekVar s off)).2

/-- The two log entries of lines 130-133. -/
def logVar (s : State) (off : Int) : List Event :=
  [Event.fseek off, Event.fread (seekVar s off).pos sizeofVarInfo
    ((inptrAfterVar s off).pos - (seekVar s off).pos)]

/-- The stream after the `fseek` of line 164. -/
def seekData (s : State) (off : Int) : FILE := fseek (inptrAfterVar s off) (viDataPos (viAfter s off))

/-- The record `db` after the `fread` of line 167. -/
def dbAfter (s : State) (off : Int) : List Nat := (fread s.db sizeofDataBlock (seekData s off)).1

/-- The stream after the `fread` of line 167. -/
def inptrAfterData (s : State) (off : Int) : FILE := (fread s.db sizeofDataBlock (seekData s off)).2

/-- The two log entries of lines 164-167. -/
def logData (s : State) (off : Int) : List Event :=
  [Event.fseek (viDataPos (viAfter s off)), Event.fread (seekData s off).pos sizeofDataBlock
    ((inptrAfterData s off).pos - (seekData s off).pos)]

/-- The condition of line 171 without the flag: the data block declares another number
of observations than the header. -/
def mismatch (s : State) (off : Int) : Bool :=
  decide (dbNumObs (dbAfter s off) ≠ s.outstruct.NumObs)

/-- Everything one successful iteration `i` does, from the state `s` before it to the
state `t` after it; `off` is the offset of the seek and `len` the length found for the
name. -/
structure VarStep (i : Nat) (s t : State) (off : Int) (len : Nat) : Prop where
  keeps : Keeps s t
  vi : t.vi = viAfter s off
  nameLen : strlen (viVarName (viAfter s off)) = some len
  lengthAt : t.outstruct.VarLengths.mem i = (len : Int)
  lengthFrame : ∀ k, k ≠ i → t.outstruct.VarLengths.mem k = s.outstruct.VarLengths.mem k
  names : ∀ k, t.outstruct.VarNames.mem k =
    if 32 * i ≤ k ∧ k < 32 * i + 32
    then (if k - 32 * i < len then viVarNameAt (viAfter s off) (k - 32 * i) else 0)
    else s.outstruct.VarNames.mem k
  frame : ∀ k, ¬ (i * s.outstruct.NumObs.toNat ≤ k ∧
      k < i * s.outstruct.NumObs.toNat + s.outstruct.NumObs.toNat) →
    t.outstruct.DataArray.mem k = s.outstruct.DataArray.mem k
  skipped : isStructural (viAfter s off) = true →
    t.outstruct.NumVars = s.outstruct.NumVars - 1 ∧ t.flag = s.flag ∧ t.db = s.db ∧
    t.inptr = inptrAfterVar s off ∧ t.log = s.log ++ logVar s off ∧
    ∀ j, j < s.outstruct.NumObs.toNat →
      t.outstruct.DataArray.mem (i * s.outstruct.NumObs.toNat + j) = STRUCTURAL
  decoded : isStructural (viAfter s off) = false →
    t.outstruct.NumVars = s.outstruct.NumVars ∧ t.flag = (s.flag || mismatch s off) ∧
    t.db = dbAfter s off ∧
    (∃ evs : List Event, t.log = s.log ++ logVar s off ++ logData s off ++
        (if mismatch s off && !s.flag then [Event.stderr Msg.inconsistentObs] else []) ++ evs ∧
      evs.length = s.outstruct.NumObs.toNat ∧ ∀ e ∈ evs, e.isObsRead) ∧
    ∀ j, j < s.outstruct.NumObs.toNat →
      (inptrAfterData s off).pos + 8 * (j + 1) ≤ s.inptr.data.length →
      t.outstruct.DataArray.mem (i * s.outstruct.NumObs.toNat + j)
        = cellValue (leNat (field s.inptr.data ((inptrAfterData s off).pos + 8 * j) 8))

/-- The literal the first bytes of the file are compared with. -/
def signature : List Nat := cstr "New MicroTSP Workfile"

/-- The buffer `word` after the `fgets` of line 63. -/
def wordOf (env : Env) (f : List Nat) : List Nat := (fgets (env.word.take 21 ++ [0]) 22 ⟨f, 0⟩).1

/-- The record `vh` after the `fread` of line 79: the first 146 bytes of the file,
completed from the previous contents of `vh` when the file is shorter. -/
def headerOf (env : Env) (f : List Nat) : List Nat := (fread env.vh sizeofHeader ⟨f, 0⟩).1

/-- The local `hlen`: the stored header size narrowed to `int`. -/
def hlenOf (env : Env) (f : List Nat) : Int := wrapInt 32 (hdrHeaderSize (headerOf env f))

/-- The mathematical value of `vh.NumVarPlusOne - 1`. -/
def globOf (env : Env) (f : List Nat) : Int := hdrNumVarPlusOne (headerOf env f) - 1

/-- The value of `vh.NumObs`. -/
def obsOf (env : Env) (f : List Nat) : Int := hdrNumObs (headerOf env f)

/-- The log when the loop over the variables starts. -/
def startLog (env : Env) (f : List Nat) : List Event :=
  [Event.fopen true, Event.fgets 0 (fgets (env.word.take 21 ++ [0]) 22 ⟨f, 0⟩).2.pos,
    Event.rewind, Event.fread 0 sizeofHeader (fread env.vh sizeofHeader ⟨f, 0⟩).2.pos,
    Event.fseek (hlenOf env f + 26)]

/-- The structure `outstruct` when the loop over the variables starts. -/
def startOut (env : Env) (f : List Nat) : EVIEWSINFO :=
  { success := false
    GlobNumVars := globOf env f
    NumVars := globOf env f
    NumObs := obsOf env f
    VarNames := ⟨env.mallocVarNames, (1 * toSizeT (globOf env f) % 2 ^ 64 * 32) % 2 ^ 64,
      env.heapVarNames⟩
    VarLengths := ⟨env.mallocVarLengths, (4 * toSizeT (globOf env f) % 2 ^ 64) / 4,
      env.heapVarLengths⟩
    DataArray := ⟨env.mallocDataArray,
      ((8 * toSizeT (globOf env f) % 2 ^ 64) * toSizeT (obsOf env f) % 2 ^ 64) / 8,
      env.heapDataArray⟩ }

/-- The state in which the loop over the variables starts. -/
def startState (env : Env) (f : List Nat) : State :=
  { inptr := fseek (fread env.vh sizeofHeader ⟨f, 0⟩).2 (hlenOf env f + 26)
    vi := env.vi
    db := env.db
    flag := env.flag
    outstruct := startOut env f
    log := startLog env f }

/-- The path passes the test of line 44. -/
def extensionOk (infile : String) : Prop :=
  ∃ ext, strrchr (cstr infile) 46 = some ext ∧ strcmp ext (cstr ".wf1") = 0

/-- The file passes the test of line 66. -/
def signatureOk (env : Env) (f : List Nat) : Prop := strcmp (wordOf env f) signature = 0

/-- The call gets past both checks and opens the file `f`. -/
structure PassesChecks (env : Env) (infile : String) (f : List Nat) : Prop where
  ext : extensionOk infile
  opened : env.fopen infile = some f
  sig : signatureOk env f

/-- The rows `0 .. i` of the three tables are the same in `s` as in `u`; `m` is the
number of cells of a row of the matrix. -/
structure RowsKept (i m : Nat) (u s : State) : Prop where
  lengths : ∀ k, k ≤ i → s.outstruct.VarLengths.mem k = u.outstruct.VarLengths.mem k
  names : ∀ k, k < 32 * (i + 1) → s.outstruct.VarNames.mem k = u.outstruct.VarNames.mem k
  cells : ∀ k, k < (i + 1) * m → s.outstruct.DataArray.mem k = u.outstruct.DataArray.mem k

/-- File offset of directory entry `i`: `hlen + 26 + 70 * i`. -/
def entryPos (env : Env) (f : List Nat) (i : Nat) : Nat :=
  (hlenOf env f + 26 + 70 * (i : Int)).toNat

/-- The 70 bytes of directory entry `i`. -/
def entry (env : Env) (f : List Nat) (i : Nat) : List Nat :=
  field f (entryPos env f i) sizeofVarInfo

/-- Directory entry `i` lies inside the file. -/
structure HasEntry (env : Env) (f : List Nat) (i : Nat) : Prop where
  base : 0 ≤ hlenOf env f + 26
  inside : entryPos env f i + sizeofVarInfo ≤ f.length

/-- File offset of observation `j` in the data block at offset `pos`: after the 22-byte
block header. -/
def obsPos (pos : Int) (j : Nat) : Nat := pos.toNat + sizeofDataBlock + sizeofDataObs * j

/-- The name of an entry as the string functions see it: the bytes from `VarName` up
to the first zero. -/
def entryName (e : List Nat) : List Nat := (viVarName e).takeWhile (· ≠ 0)

/-- The entry is excluded from the variables of interest: its nature code is not 44, or
its name is "RESID", or its name begins with "SERIES". -/
def Excluded (e : List Nat) : Prop :=
  viObjNat e ≠ 44 ∨ entryName e = cstr "RESID" ∨ (entryName e).take 6 = cstr "SERIES"

/-- The 64-bit pattern stored in the file as observation `j` of the data block at
offset `pos`. -/
def obsAt (f : List Nat) (pos : Int) (j : Nat) : Nat :=
  leNat (field f (obsPos pos j) sizeofDataObs)

/-! ### Sample files -/

def zeros (n : Nat) : List Nat := List.replicate n 0

/-- A 146-byte header with the given stored header size, variable count plus one and
observation count. -/
def sampleHeader (hsize g1 m : Nat) : List Nat :=
  signature ++ zeros 59 ++ leBytes 8 hsize ++ zeros 26 ++ leBytes 4 g1 ++ zeros 22 ++
    leBytes 4 m ++ zeros 2

/-- A 70-byte directory entry; `name` has at most 32 bytes. -/
def sampleEntry (dataPos : Nat) (name : List Nat) (hist objNat : Nat) : List Nat :=
  zeros 14 ++ leBytes 8 dataPos ++ name ++ zeros (32 - name.length) ++ leBytes 8 hist ++
    leBytes 2 objNat ++ zeros 6

/-- A data block declaring `n` observations, followed by the given observations. -/
def sampleBlock (n : Nat) (obs : List Nat) : List Nat :=
  leBytes 4 n ++ zeros 18 ++ obs.flatMap (leBytes 8)

/-- Contents of `outstruct` before the function assigns to it. -/
def junkInfo : EVIEWSINFO :=
  ⟨true, 7, 7, 7, ⟨false, 0, fun _ => 7⟩, ⟨false, 0, fun _ => 7⟩, ⟨false, 0, fun _ => 7⟩⟩

/-- An environment in which every path opens the file `f`, every allocation succeeds and
the uninitialised objects hold sevens. -/
def sampleEnv (flag : Bool) (f : List Nat) : Env :=
  { fopen := fun _ => some f
    flag := flag
    word := List.replicate 22 7
    vh := List.replicate 146 7
    vi := List.replicate 70 7
    db := List.replicate 22 7
    outstruct := junkInfo
    mallocVarNames := true
    mallocVarLengths := true
    mallocDataArray := true
    heapVarNames := fun _ => 7
    heapVarLengths := fun _ => 7
    heapDataArray := fun _ => 7 }

/-- Two variables and two observations: "X" is a series whose block (declaring five
observations) holds the missing value and 1.0; "RESID" is excluded. -/
def fileTwoVars : List Nat :=
  sampleHeader 120 3 2 ++ sampleEntry 286 (cstr "X") 0 44 ++ sampleEntry 0 (cstr "RESID") 0 44 ++
    sampleBlock 5 [MISSING, 4607182418800017408]

/-- The result of a call that returns; used with concrete inputs. -/
def resultOf (env : Env) (infile : String) : Run :=
  (read_wf1 env infile).getD ⟨junkInfo, false, []⟩

instance : DecidablePred Excluded := fun e =>
  inferInstanceAs (Decidable (viObjNat e ≠ 44 ∨ entryName e = cstr "RESID" ∨
    (entryName e).take 6 = cstr "SERIES"))

/-- Number of excluded entries among the directory entries `0 .. n - 1`. -/
def excludedCount (env : Env) (f : List Nat) (n : Nat) : Nat :=
  ((List.range n).filter fun i => decide (Excluded (entry env f i))).length

/-- One series whose name fills all 32 bytes of the name field ("A" 32 times) and whose
history pointer is 1; one observation, 1.0. -/
def fileLongName : List Nat :=
  sampleHeader 120 2 1 ++ sampleEntry 216 (List.replicate 32 65) 1 44 ++
    sampleBlock 1 [4607182418800017408]

/-- The environment of a call on an empty file made right after a call on a workfile
without variables: the locals `word` and `vh` still hold what the earlier call read. -/
def staleEnv : Env :=
  { sampleEnv false [] with
    word := signature ++ [0]
    vh := sampleHeader 120 1 0 }

/-- File positions of the reads of one directory entry (70 bytes), in log order. -/
def descriptorReads (log : List Event) : List Nat :=
  log.filterMap fun e =>
    match e with
    | Event.fread pos size _ => if size = sizeofVarInfo then some pos else none
    | _ => none

/-- Number of "Inconsistent number of observation" diagnostics in a log. -/
def warnings (log : List Event) : Nat := log.count (Event.stderr Msg.inconsistentObs)

/-- What iteration `i` appends to the log before the observation reads. -/
def stepLog (s : State) (off : Int) : List Event :=
  logVar s off ++
    (if isStructural (viAfter s off) then []
     else logData s off ++
       (if mismatch s off && !s.flag then [Event.stderr Msg.inconsistentObs] else []))

/-- Stored header size 2^32 + 120, one series "X", no observation. -/
def fileWideHeader : List Nat :=
  sampleHeader (4294967296 + 120) 2 0 ++ sampleEntry 216 (cstr "X") 0 44

/-- One series "X" and an observation count of zero. -/
def fileNoObs : List Nat :=
  sampleHeader 120 2 0 ++ sampleEntry 216 (cstr "X") 0 44

/-- A header declaring no variable. -/
def fileNoVars : List Nat := sampleHeader 120 1 3

/-- Proof device: the state with the bytes of the open file replaced. -/
def State.withData (s : State) (g : List Nat) : State :=
  { s with inptr := { s.inptr with data := g } }

/-- The environment in which every path opens the file `g` instead. -/
def Env.withFile (env : Env) (g : List Nat) : Env :=
  { env with fopen := fun _ => some g }

/-- The file `g` holds the same bytes as `f` wherever a parse of `f` reads: in the
header, in the directory entries, and in the data block (block header and `NumObs`
observations) of every variable of interest. -/
structure AgreeOnRead (env : Env) (f g : List Nat) : Prop where
  header : field f 0 sizeofHeader = field g 0 sizeofHeader
  entries : ∀ k : Nat, (k : Int) < globOf env f →
    field f (entryPos env f k) sizeofVarInfo = field g (entryPos env f k) sizeofVarInfo
  blocks : ∀ k : Nat, (k : Int) < globOf env f → ¬ Excluded (entry env f k) →
    field f (viDataPos (entry env f k)).toNat
        (sizeofDataBlock + sizeofDataObs * (obsOf env f).toNat)
      = field g (viDataPos (entry env f k)).toNat
        (sizeofDataBlock + sizeofDataObs * (obsOf env f).toNat)

/-- The directory of `f` lies inside the file and the data offset of every variable of
interest is non-negative. -/
structure WellPlaced (env : Env) (f : List Nat) : Prop where
  entries : ∀ k : Nat, (k : Int) < globOf env f → HasEntry env f k
  blocks : ∀ k : Nat, (k : Int) < globOf env f → ¬ Excluded (entry env f k) →
    0 ≤ viDataPos (entry env f k)

/-- The file `g` holds the same byte as `f` at every offset outside `[lo, hi)`. -/
def DiffersOnlyIn (f g : List Nat) (lo hi : Nat) : Prop :=
  ∀ p : Nat, p < lo ∨ hi ≤ p → g[p]? = f[p]?

/-- The byte range `[p, p + n)` does not meet `[lo, hi)`. -/
def Apart (lo hi p n : Nat) : Prop := p + n ≤ lo ∨ hi ≤ p

/-- First offset of the data block of entry `i`. -/
def blockLo (env : Env) (f : List Nat) (i : Nat) : Nat := (viDataPos (entry env f i)).toNat

/-- End of the data block of entry `i`: block header and `NumObs` observations. -/
def blockHi (env : Env) (f : List Nat) (i : Nat) : Nat :=
  blockLo env f i + (sizeofDataBlock + sizeofDataObs * (obsOf env f).toNat)

/-- One excluded entry whose declared data offset, 140, points at the observation count
of the header; the header declares one observation. -/
def fileAlias : List Nat := sampleHeader 120 2 1 ++ sampleEntry 140 (cstr "X") 0 0

/-- The same file with the byte at offset 140 changed from 1 to 2. -/
def fileAliasTwo : List Nat := sampleHeader 120 2 2 ++ sampleEntry 140 (cstr "X") 0 0

/-- A series "X" with its block at 286 and an excluded "RESID" with its block at 324. -/
def fileSkipped : List Nat :=
  sampleHeader 120 3 2 ++ sampleEntry 286 (cstr "X") 0 44 ++ sampleEntry 324 (cstr "RESID") 0 44 ++
    sampleBlock 2 [MISSING, 4607182418800017408] ++ sampleBlock 2 [1, 2]

/-- The same file with other bytes in the block of "RESID". -/
def fileSkippedTwo : List Nat :=
  sampleHeader 120 3 2 ++ sampleEntry 286 (cstr "X") 0 44 ++ sampleEntry 324 (cstr "RESID") 0 44 ++
    sampleBlock 2 [MISSING, 4607182418800017408] ++ sampleBlock 9 [MISSING, 77]

/-- Sign bit of a 64-bit pattern. -/
def signBit (bits : Nat) : Nat := bits / 2 ^ 63 % 2

/-- Biased exponent of a 64-bit pattern. -/
def expField (bits : Nat) : Nat := bits / 2 ^ 52 % 2 ^ 11

/-- Fraction bits of a 64-bit pattern: a normal double has the magnitude
`(2 ^ 52 + fracField) * 2 ^ (expField - 1075)`. -/
def fracField (bits : Nat) : Nat := bits % 2 ^ 52

/-- The index expression `i * outstruct.NumObs + j` of lines 156 and 183-189, evaluated
in `int` arithmetic: undefined when the product or the sum overflows. -/
def cellIndex (M : Int) (i j : Nat) : Option Int :=
  (i32 ((i : Int) * M)).bind fun a => i32 (a + (j : Int))

/-! ### Sample files: truncation, failed allocations, extreme counts -/

/-- One series "X"; the header and the data block declare two observations, and the file
ends after the first one (246 bytes; the second observation would end at 254). -/
def fileShortData : List Nat :=
  sampleHeader 120 2 2 ++ sampleEntry 216 (cstr "X") 0 44 ++ sampleBlock 2 [4607182418800017408]

/-- The header declares two variables and one observation; the file ends after the first
directory entry, an excluded entry "X" (216 bytes; the second entry would end at 286). -/
def fileShortDir : List Nat :=
  sampleHeader 120 3 1 ++ sampleEntry 0 (cstr "X") 0 0

/-- The environment `sampleEnv false f` with the given answers of the three `malloc`
calls (name table, length table, matrix): `false` is the null pointer. -/
def mallocEnv (names lengths array : Bool) (f : List Nat) : Env :=
  { sampleEnv false f with
    mallocVarNames := names
    mallocVarLengths := lengths
    mallocDataArray := array }

/-- Two excluded variables and `2 ^ 31 - 1` observations declared in the header. -/
def fileBigMatrix : List Nat :=
  sampleHeader 120 3 2147483647 ++ sampleEntry 0 (cstr "X") 0 0 ++ sampleEntry 0 (cstr "Y") 0 0

/-- One series "X"; the header and the data block of the series store the observation
count -1 (bytes FF FF FF FF), and no observation follows. -/
def fileNegObs : List Nat :=
  sampleHeader 120 2 4294967295 ++ sampleEntry 216 (cstr "X") 0 44 ++ sampleBlock 4294967295 []

/-- A header that stores 0 as the variable count plus one. -/
def fileMinusOneVars : List Nat := sampleHeader 120 0 3

/-! ## Lemmas -/

set_option maxRecDepth 100000

/-! ## Loops -/

theorem forLoop_add {σ : Type} (body : Nat → σ → Option σ) (a b k : Nat) (s : σ) :
    forLoop body (a + b) k s = (forLoop body a k s).bind (forLoop body b (k + a)) := by
  induction a generalizing k s with
  | zero => simp [forLoop]
  | succ a ih =>
    have e : a + 1 + b = (a + b) + 1 := by omega
    rw [e]
    simp only [forLoop]
    cases hb : body k s with
    | none => simp
    | some t =>
      simp only [Option.some_bind]
      rw [ih]
      have e2 : k + 1 + a = k + (a + 1) := by omega
      rw [e2]

theorem forLoop_inv {σ : Type} (body : Nat → σ → Option σ) (P : Nat → σ → Prop) :
    ∀ (n k0 : Nat) (s s' : σ),
      (∀ k t t', k0 ≤ k → k < k0 + n → P k t → body k t = some t' → P (k + 1) t') →
      P k0 s → forLoop body n k0 s = some s' → P (k0 + n) s' := by
  intro n
  induction n with
  | zero =>
    intro k0 s s' _ h0 h
    simp [forLoop] at h
    subst h
    simpa using h0
  | succ n ih =>
    intro k0 s s' hstep h0 h
    simp only [forLoop] at h
    cases hb : body k0 s with
    | none => simp [hb] at h
    | some t =>
      simp only [hb, Option.some_bind] at h
      have h1 : P (k0 + 1) t := hstep k0 s t (le_refl _) (by omega) h0 hb
      have := ih (k0 + 1) t s' (fun k u u' hk1 hk2 => hstep k u u' (by omega) (by omega)) h1 h
      have e : k0 + 1 + n = k0 + (n + 1) := by omega
      rwa [e] at this

theorem forLoop_split {σ : Type} (body : Nat → σ → Option σ) (n k0 k : Nat) (s s' : σ)
    (h : forLoop body n k0 s = some s') (hk0 : k0 ≤ k) (hk : k < k0 + n) :
    ∃ t u, forLoop body (k - k0) k0 s = some t ∧ body k t = some u ∧
      forLoop body (k0 + n - (k + 1)) (k + 1) u = some s' := by
  have e : n = (k - k0) + (1 + (k0 + n - (k + 1))) := by omega
  rw [e, forLoop_add] at h
  cases h1 : forLoop body (k - k0) k0 s with
  | none => simp [h1] at h
  | some t =>
    simp only [h1, Option.some_bind] at h
    rw [forLoop_add] at h
    have e2 : k0 + (k - k0) = k := by omega
    rw [e2] at h
    cases h2 : forLoop body 1 k t with
    | none => simp [h2] at h
    | some u =>
      simp only [h2, Option.some_bind] at h
      refine ⟨t, u, rfl, ?_, ?_⟩
      · simp only [forLoop] at h2
        cases hb : body k t with
        | none => simp [hb] at h2
        | some u' => simpa [hb] using h2
      · simpa using h

/-- A relation that every iteration establishes, and that is reflexive and transitive,
holds between the two ends of the loop. -/
theorem forLoop_rel {σ : Type} (body : Nat → σ → Option σ) (R : σ → σ → Prop)
    (hrefl : ∀ s, R s s) (htrans : ∀ a b c, R a b → R b c → R a c)
    (n k0 : Nat) (s s' : σ)
    (hstep : ∀ k t t', k0 ≤ k → k < k0 + n → body k t = some t' → R t t')
    (h : forLoop body n k0 s = some s') : R s s' :=
  forLoop_inv body (fun _ t => R s t) n k0 s s'
    (fun k t t' h1 h2 hP hb => htrans _ _ _ hP (hstep k t t' h1 h2 hb)) (hrefl s) h

/-! ## Single steps -/

theorem i32_eq_some {x y : Int} (h : i32 x = some y) : y = x ∧ INT_MIN ≤ x ∧ x ≤ INT_MAX := by
  unfold i32 at h
  split at h
  · next hc => exact ⟨by simpa using h.symm, hc⟩
  · simp at h

theorem i32_of_range {x : Int} (h1 : INT_MIN ≤ x) (h2 : x ≤ INT_MAX) : i32 x = some x := by
  unfold i32
  simp [h1, h2]

theorem Buf.store_eq_some {α : Type} {p q : Buf α} {idx : Int} {v : α}
    (h : p.store idx v = some q) :
    p.ok = true ∧ 0 ≤ idx ∧ idx < (p.cap : Int) ∧
      q = { p with mem := fun k => if k = idx.toNat then v else p.mem k } := by
  unfold Buf.store at h
  split at h
  · next hc => exact ⟨hc.1, hc.2.1, hc.2.2, by simpa using h.symm⟩
  · simp at h

theorem Buf.load_eq_some {α : Type} {p : Buf α} {idx : Int} {v : α}
    (h : p.load idx = some v) :
    p.ok = true ∧ 0 ≤ idx ∧ idx < (p.cap : Int) ∧ v = p.mem idx.toNat := by
  unfold Buf.load at h
  split at h
  · next hc => exact ⟨hc.1, hc.2.1, hc.2.2, by simpa using h.symm⟩
  · simp at h

theorem storeNameChar_some {i j : Nat} {l : Int} {s s' : State}
    (h : storeNameChar i l j s = some s') :
    s' = s.setNames (fun k => if k = 32 * i + j
        then (if (j : Int) < l then viVarNameAt s.vi j else 0)
        else s.outstruct.VarNames.mem k) ∧
      s.outstruct.VarNames.ok = true ∧ 32 * i + j < s.outstruct.VarNames.cap ∧
      32 * (i : Int) + j ≤ INT_MAX := by
  simp only [storeNameChar, Option.bind_eq_some] at h
  obtain ⟨a, ha, idx, hidx, names, hn, hs⟩ := h
  obtain ⟨rfl, -, -⟩ := i32_eq_some ha
  obtain ⟨rfl, -, hmax⟩ := i32_eq_some hidx
  obtain ⟨hok, -, hcap, rfl⟩ := Buf.store_eq_some hn
  have e : (32 * (i : Int) + (j : Int)).toNat = 32 * i + j := by omega
  refine ⟨?_, hok, by omega, hmax⟩
  simp only [Option.some.injEq] at hs
  rw [← hs, e]
  rfl

theorem storeStructural_some {i j : Nat} {s s' : State}
    (h : storeStructural i j s = some s') (hM : 0 ≤ s.outstruct.NumObs) :
    s' = s.setData (fun k => if k = i * s.outstruct.NumObs.toNat + j then STRUCTURAL
        else s.outstruct.DataArray.mem k) ∧
      s.outstruct.DataArray.ok = true ∧
      i * s.outstruct.NumObs.toNat + j < s.outstruct.DataArray.cap ∧
      (i : Int) * s.outstruct.NumObs + j ≤ INT_MAX := by
  simp only [storeStructural, Option.bind_eq_some] at h
  obtain ⟨a, ha, idx, hidx, arr, hn, hs⟩ := h
  obtain ⟨rfl, -, -⟩ := i32_eq_some ha
  obtain ⟨rfl, -, hmax⟩ := i32_eq_some hidx
  obtain ⟨hok, h0, hcap, rfl⟩ := Buf.store_eq_some hn
  have e : ((i : Int) * s.outstruct.NumObs + (j : Int)).toNat
      = i * s.outstruct.NumObs.toNat + j := by
    obtain ⟨m, hm⟩ := Int.eq_ofNat_of_zero_le hM
    rw [hm]
    simp only [Int.toNat_ofNat]
    exact_mod_cast Int.toNat_ofNat (i * m + j)
  refine ⟨?_, hok, ?_, hmax⟩
  · simp only [Option.some.injEq] at hs
    rw [← hs, e]
    rfl
  · rw [← e]
    omega

theorem readObs_some {i j : Nat} {s s' : State}
    (h : readObs i j s = some s') (hM : 0 ≤ s.outstruct.NumObs) :
    ∃ old : Nat,
      s' = { s.setData (fun k => if k = i * s.outstruct.NumObs.toNat + j
          then cellValue (leNat (fread (leBytes 8 old) sizeofDataObs s.inptr).1)
          else s.outstruct.DataArray.mem k) with
        inptr := (fread (leBytes 8 old) sizeofDataObs s.inptr).2
        log := s.log ++ [Event.fread s.inptr.pos sizeofDataObs
          ((fread (leBytes 8 old) sizeofDataObs s.inptr).2.pos - s.inptr.pos)] } ∧
      s.outstruct.DataArray.ok = true ∧
      i * s.outstruct.NumObs.toNat + j < s.outstruct.DataArray.cap ∧
      (i : Int) * s.outstruct.NumObs + j ≤ INT_MAX := by
  simp only [readObs, Option.bind_eq_some] at h
  obtain ⟨a, ha, idx, hidx, old, hold, arr, hst, x, hx, arr2, h2, hs⟩ := h
  obtain ⟨rfl, -, -⟩ := i32_eq_some ha
  obtain ⟨rfl, -, hmax⟩ := i32_eq_some hidx
  obtain ⟨hok, h0, hcap, rfl⟩ := Buf.store_eq_some hst
  obtain ⟨-, -, -, rfl⟩ := Buf.load_eq_some hx
  have e : ((i : Int) * s.outstruct.NumObs + (j : Int)).toNat
      = i * s.outstruct.NumObs.toNat + j := by
    obtain ⟨m, hm⟩ := Int.eq_ofNat_of_zero_le hM
    rw [hm]
    simp only [Int.toNat_ofNat]
    exact_mod_cast Int.toNat_ofNat (i * m + j)
  refine ⟨old, ?_, hok, ?_, hmax⟩
  · simp only [Option.some.injEq] at hs
    rw [← hs]
    simp only [if_true] at h2 ⊢
    split at h2
    · next hc =>
      obtain ⟨-, -, -, rfl⟩ := Buf.store_eq_some h2
      simp only [State.setData, cellValue, hc, if_true, e]
      congr 3
      funext k
      by_cases hk : k = i * s.outstruct.NumObs.toNat + j <;> simp [hk]
    · next hc =>
      simp only [Option.some.injEq] at h2
      subst h2
      simp only [State.setData, cellValue, hc, e]
      simp
  · rw [← e]
    omega

/-! ## Buffers and reads -/

theorem field_length (buf : List Nat) (off len : Nat) :
    (field buf off len).length = min len (buf.length - off) := by
  simp [field]

theorem field_length_of_le {buf : List Nat} {off len : Nat} (h : off + len ≤ buf.length) :
    (field buf off len).length = len := by
  rw [field_length]; omega

theorem leBytes_length (n v : Nat) : (leBytes n v).length = n := by
  induction n generalizing v with
  | zero => rfl
  | succ n ih => simp [leBytes, ih]

/-- A read that lies inside the file replaces the whole destination. -/
theorem fread_full {buf : List Nat} {size : Nat} {fp : FILE}
    (hb : buf.length ≤ size) (h : fp.pos + size ≤ fp.data.length) :
    fread buf size fp = (field fp.data fp.pos size, { fp with pos := fp.pos + size }) := by
  have hl := field_length_of_le h
  simp only [fread, hl]
  rw [List.drop_eq_nil_of_le hb]
  simp

theorem fread_data (buf : List Nat) (size : Nat) (fp : FILE) :
    (fread buf size fp).2.data = fp.data := rfl

theorem fseek_data (fp : FILE) (off : Int) : (fseek fp off).data = fp.data := by
  unfold fseek; split <;> rfl

theorem fseek_pos_of_nonneg {fp : FILE} {off : Int} (h : 0 ≤ off) :
    (fseek fp off).pos = off.toNat := by
  unfold fseek
  rw [if_neg (by omega)]

/-! ## The inner loops -/

theorem Keeps.refl (s : State) : Keeps s s :=
  ⟨rfl, rfl, rfl, rfl, rfl, rfl, rfl, rfl, rfl, rfl⟩

theorem Keeps.trans {a b c : State} (h1 : Keeps a b) (h2 : Keeps b c) : Keeps a c :=
  ⟨h2.data.trans h1.data, h2.success.trans h1.success, h2.glob.trans h1.glob,
    h2.obs.trans h1.obs, h2.namesOk.trans h1.namesOk, h2.namesCap.trans h1.namesCap,
    h2.lengthsOk.trans h1.lengthsOk, h2.lengthsCap.trans h1.lengthsCap,
    h2.arrayOk.trans h1.arrayOk, h2.arrayCap.trans h1.arrayCap⟩

theorem namesLoop_some {i : Nat} {l : Int} {s s' : State} (n : Nat)
    (h : forLoop (storeNameChar i l) n 0 s = some s') :
    s' = s.setNames (namesAfter i l s n) := by
  have key := forLoop_inv (storeNameChar i l)
    (fun j t => t = s.setNames (namesAfter i l s j)) n 0 s s' ?_ ?_ h
  · simpa using key
  · intro j t t' _ _ hP hb
    obtain ⟨ht, -, -, -⟩ := storeNameChar_some hb
    rw [ht, hP]
    simp only [State.setNames]
    congr 3
    funext k
    simp only [namesAfter]
    by_cases hk : k = 32 * i + j
    · subst hk
      simp
    · have : (32 * i ≤ k ∧ k < 32 * i + (j + 1)) ↔ (32 * i ≤ k ∧ k < 32 * i + j) := by omega
      simp only [hk, if_false, this]
  · have e : namesAfter i l s 0 = s.outstruct.VarNames.mem := by
      funext k
      have : ¬ (32 * i ≤ k ∧ k < 32 * i + 0) := by omega
      simp [namesAfter, this]
    show s = s.setNames (namesAfter i l s 0)
    rw [e]
    rfl

theorem structuralLoop_some {i : Nat} {s s' : State} (n : Nat)
    (h : forLoop (storeStructural i) n 0 s = some s') (hn : n ≤ s.outstruct.NumObs.toNat) :
    s' = s.setData (structuralAfter i s n) := by
  have key := forLoop_inv (storeStructural i)
    (fun j t => t = s.setData (structuralAfter i s j)) n 0 s s' ?_ ?_ h
  · simpa using key
  · intro j t t' _ hj hP hb
    have hM : 0 ≤ t.outstruct.NumObs := by
      rw [hP]
      simp only [State.setData]
      omega
    obtain ⟨ht, -, -, -⟩ := storeStructural_some hb hM
    rw [ht, hP]
    simp only [State.setData]
    congr 3
    funext k
    simp only [structuralAfter]
    by_cases hk : k = i * s.outstruct.NumObs.toNat + j
    · subst hk
      simp
    · have : (i * s.outstruct.NumObs.toNat ≤ k ∧ k < i * s.outstruct.NumObs.toNat + (j + 1)) ↔
          (i * s.outstruct.NumObs.toNat ≤ k ∧ k < i * s.outstruct.NumObs.toNat + j) := by omega
      simp only [hk, if_false, this]
  · have e : structuralAfter i s 0 = s.outstruct.DataArray.mem := by
      funext k
      have : ¬ (i * s.outstruct.NumObs.toNat ≤ k ∧ k < i * s.outstruct.NumObs.toNat + 0) := by
        omega
      simp [structuralAfter, this]
    show s = s.setData (structuralAfter i s 0)
    rw [e]
    rfl

theorem obsLoop_some {i : Nat} {s s' : State} (n : Nat)
    (h : forLoop (readObs i) n 0 s = some s') (hn : n ≤ s.outstruct.NumObs.toNat) :
    ObsLoop i s s' n := by
  have key := forLoop_inv (readObs i) (fun j t => ObsLoop i s t j) n 0 s s' ?_ ?_ h
  · simpa using key
  · intro j t t' _ hj hP hb
    have hM : 0 ≤ t.outstruct.NumObs := by
      rw [hP.keeps.obs]; omega
    obtain ⟨old, ht, -, -, -⟩ := readObs_some hb hM
    have hobs : t.outstruct.NumObs.toNat = s.outstruct.NumObs.toNat := by rw [hP.keeps.obs]
    subst ht
    refine ⟨?_, hP.vi, hP.db, hP.flag, hP.numVars, hP.names, hP.lengths, ?_, ?_, ?_, ?_⟩
    · exact ⟨hP.keeps.data, hP.keeps.success, hP.keeps.glob, hP.keeps.obs, hP.keeps.namesOk,
        hP.keeps.namesCap, hP.keeps.lengthsOk, hP.keeps.lengthsCap, hP.keeps.arrayOk,
        hP.keeps.arrayCap⟩
    · intro k hk
      simp only [State.setData, hobs]
      have hne : k ≠ i * s.outstruct.NumObs.toNat + j := by omega
      rw [if_neg hne]
      exact hP.frame k (by omega)
    · intro j' hj' hlen
      simp only [State.setData, hobs]
      by_cases hjj : j' = j
      · subst hjj
        simp only [if_true]
        have hpos : t.inptr.pos = s.inptr.pos + 8 * j' := hP.pos (by omega)
        have hfull : t.inptr.pos + sizeofDataObs ≤ t.inptr.data.length := by
          rw [hpos, hP.keeps.data]; simp only [sizeofDataObs]; omega
        rw [fread_full (by rw [leBytes_length]; simp [sizeofDataObs]) hfull]
        simp only [hpos, hP.keeps.data, sizeofDataObs]
      · have hne : i * s.outstruct.NumObs.toNat + j' ≠ i * s.outstruct.NumObs.toNat + j := by
          omega
        rw [if_neg hne]
        exact hP.cells j' (by omega) hlen
    · intro hlen
      have hpos : t.inptr.pos = s.inptr.pos + 8 * j := hP.pos (by omega)
      have hfull : t.inptr.pos + sizeofDataObs ≤ t.inptr.data.length := by
        rw [hpos, hP.keeps.data]; simp only [sizeofDataObs]; omega
      rw [fread_full (by rw [leBytes_length]; simp [sizeofDataObs]) hfull]
      simp only [hpos, sizeofDataObs]
      omega
    · obtain ⟨evs, h1, h2, h3⟩ := hP.log
      refine ⟨evs ++ [Event.fread t.inptr.pos sizeofDataObs
        ((fread (leBytes 8 old) sizeofDataObs t.inptr).2.pos - t.inptr.pos)], ?_, ?_, ?_⟩
      · simp only [State.setData, h1, List.append_assoc]
      · simp [h2]
      · intro e he
        rcases List.mem_append.1 he with he | he
        · exact h3 e he
        · simp only [List.mem_singleton] at he
          subst he
          simp [Event.isObsRead]
  · exact ⟨Keeps.refl s, rfl, rfl, rfl, rfl, rfl, rfl, fun _ _ => rfl,
      fun j hj => absurd hj (by omega), fun _ => rfl, ⟨[], by simp, rfl, by simp⟩⟩

/-! ## One iteration of the loop over the variables -/

theorem varBody_some {hlen : Int} {i : Nat} {s t : State} (h : varBody hlen i s = some t) :
    ∃ off len, dirOffset hlen i = some off ∧ VarStep i s t off len := by
  simp only [varBody, Option.bind_eq_some] at h
  obtain ⟨off, hoff, len, hlen', lengths, hst, s2, hs2, hrest⟩ := h
  refine ⟨off, len, hoff, ?_⟩
  obtain ⟨hok, h0, hcap, rfl⟩ := Buf.store_eq_some hst
  have hs2' := namesLoop_some 32 hs2
  have hnames : ∀ k, s2.outstruct.VarNames.mem k =
      if 32 * i ≤ k ∧ k < 32 * i + 32
      then (if k - 32 * i < len then viVarNameAt (viAfter s off) (k - 32 * i) else 0)
      else s.outstruct.VarNames.mem k := by
    intro k
    rw [hs2']
    simp only [State.setNames, namesAfter, Nat.cast_lt]
    rfl
  have hlenAt : s2.outstruct.VarLengths.mem i = (len : Int) := by
    rw [hs2']
    simp [State.setNames]
  have hlenFr : ∀ k, k ≠ i → s2.outstruct.VarLengths.mem k = s.outstruct.VarLengths.mem k := by
    intro k hk
    rw [hs2']
    simp [State.setNames, hk]
  have hk2 : Keeps s s2 := by
    rw [hs2']
    exact ⟨by simp only [State.setNames]; exact (fread_data _ _ _).trans (fseek_data _ _),
      rfl, rfl, rfl, rfl, rfl, rfl, rfl, rfl, rfl⟩
  have hvi2 : s2.vi = viAfter s off := by rw [hs2']; rfl
  have hdata2 : s2.outstruct.DataArray = s.outstruct.DataArray := by rw [hs2']; rfl
  have hobs2 : s2.outstruct.NumObs = s.outstruct.NumObs := hk2.obs
  have hnv2 : s2.outstruct.NumVars = s.outstruct.NumVars := by rw [hs2']; rfl
  have hflag2 : s2.flag = s.flag := by rw [hs2']; rfl
  have hdb2 : s2.db = s.db := by rw [hs2']; rfl
  have hin2 : s2.inptr = inptrAfterVar s off := by rw [hs2']; rfl
  have hlog2 : s2.log = s.log ++ logVar s off := by rw [hs2']; rfl
  split at hrest
  · next hstr =>
    simp only [Option.bind_eq_some] at hrest
    obtain ⟨nv, hnv, hloop⟩ := hrest
    obtain ⟨rfl, -, -⟩ := i32_eq_some hnv
    have hl := structuralLoop_some _ hloop (le_refl _)
    simp only at hl
    have hstr' : isStructural (viAfter s off) = true := hstr
    refine ⟨?_, ?_, hlen', ?_, ?_, ?_, ?_, ?_, ?_⟩
    · rw [hl]
      exact ⟨hk2.data, hk2.success, hk2.glob, hk2.obs, hk2.namesOk, hk2.namesCap,
        hk2.lengthsOk, hk2.lengthsCap, hk2.arrayOk, hk2.arrayCap⟩
    · rw [hl]; exact hvi2
    · rw [hl]; exact hlenAt
    · intro k hk; rw [hl]; exact hlenFr k hk
    · intro k; rw [hl]; exact hnames k
    · intro k hk
      rw [hl]
      simp only [State.setData, structuralAfter, hobs2]
      rw [if_neg hk, hdata2]
    · intro _
      refine ⟨by rw [hl]; simp only [State.setData]; rw [hnv2], by rw [hl]; exact hflag2,
        by rw [hl]; exact hdb2, by rw [hl]; exact hin2, by rw [hl]; exact hlog2, ?_⟩
      intro j hj
      rw [hl]
      simp only [State.setData, structuralAfter, hobs2]
      rw [if_pos (by omega)]
    · intro hc
      rw [hstr'] at hc
      exact absurd hc (by simp)
  · next hstr =>
    have hstr' : isStructural (viAfter s off) = false := by
      simpa using hstr
    have hl := obsLoop_some _ hrest (le_refl _)
    simp only at hl
    have e1 : fseek s2.inptr (viDataPos (fread s.vi sizeofVarInfo (fseek s.inptr off)).1)
        = seekData s off := by rw [hin2]; rfl
    have e2 : fread s2.db sizeofDataBlock (seekData s off)
        = (dbAfter s off, inptrAfterData s off) := by rw [hdb2]; rfl
    refine ⟨?_, ?_, hlen', ?_, ?_, ?_, ?_, ?_, ?_⟩
    · refine Keeps.trans hk2 (Keeps.trans ?_ hl.keeps)
      exact ⟨by simp only [fread_data, fseek_data], rfl, rfl, rfl, rfl, rfl, rfl, rfl, rfl, rfl⟩
    · rw [hl.vi]; exact hvi2
    · rw [hl.lengths]; exact hlenAt
    · intro k hk; rw [hl.lengths]; exact hlenFr k hk
    · intro k; rw [hl.names]; exact hnames k
    · intro k hk
      rw [hl.frame k (by simpa only [hobs2] using hk)]
      simp only [hdata2]
    · intro hc
      rw [hstr'] at hc
      exact absurd hc (by simp)
    · intro _
      refine ⟨by rw [hl.numVars]; exact hnv2, ?_, ?_, ?_, ?_⟩
      · rw [hl.flag]
        simp only [e1, e2, hobs2, hflag2]
        have hw : decide (dbNumObs (dbAfter s off) ≠ s.outstruct.NumObs) = mismatch s off := rfl
        rw [hw]
        cases s.flag <;> cases mismatch s off <;> rfl
      · rw [hl.db]
        simp only [e1, e2]
      · obtain ⟨evs, h1, h2, h3⟩ := hl.log
        refine ⟨evs, ?_, by simpa only [hobs2] using h2, h3⟩
        rw [h1]
        simp only [e1, e2, hobs2, hflag2, hlog2]
        have hw : decide (dbNumObs (dbAfter s off) ≠ s.outstruct.NumObs) = mismatch s off := rfl
        rw [hw]
        cases s.flag <;> cases mismatch s off <;> simp [logData] <;> rfl
      · intro j hj hlen2
        have := hl.cells j (by simpa only [hobs2] using hj)
        simp only [e1, e2, hobs2, hdata2, fread_data, fseek_data] at this
        have hd : (inptrAfterData s off).data = s.inptr.data := by
          simp only [inptrAfterData, seekData, inptrAfterVar, seekVar, fread_data, fseek_data]
        rw [hd] at this
        exact this hlen2

/-! ## The whole function -/

theorem read_wf1_of_passes {env : Env} {infile : String} {f : List Nat}
    (h : PassesChecks env infile f) :
    read_wf1 env infile =
      readBody env { env.outstruct with success := false } (fgets (env.word.take 21 ++ [0]) 22 ⟨f, 0⟩).2
        [Event.fopen true, Event.fgets 0 (fgets (env.word.take 21 ++ [0]) 22 ⟨f, 0⟩).2.pos] := by
  obtain ⟨ext, he1, he2⟩ := h.ext
  have hs : strcmp (fgets (env.word.take 21 ++ [0]) 22 ⟨f, 0⟩).1 (cstr "New MicroTSP Workfile") = 0 :=
    h.sig
  simp only [read_wf1, he1, he2, h.opened, hs, ne_eq, not_true_eq_false, if_false]

theorem fgets_data (buf : List Nat) (size : Nat) (fp : FILE) :
    (fgets buf size fp).2.data = fp.data := by
  simp only [fgets]
  split <;> rfl

/-- A call that returns `success = true` passed both checks, got the name table, and ran
the loop over the variables to its end. -/
theorem read_wf1_success {env : Env} {infile : String} {r : Run}
    (h : read_wf1 env infile = some r) (hs : r.ret.success = true) :
    ∃ f s, PassesChecks env infile f ∧
      INT_MIN ≤ globOf env f ∧ globOf env f ≤ INT_MAX ∧
      INT_MIN ≤ hlenOf env f + 26 ∧ hlenOf env f + 26 ≤ INT_MAX ∧
      env.mallocVarNames = true ∧
      forLoop (varBody (hlenOf env f)) (globOf env f).toNat 0 (startState env f) = some s ∧
      r = ⟨{ s.outstruct with success := true }, s.flag, s.log ++ [Event.fclose]⟩ := by
  unfold read_wf1 at h
  simp only at h
  split at h
  · simp at h
  · next ext he1 =>
    split at h
    · simp only [Option.some.injEq] at h
      subst h
      simp at hs
    · next he2 =>
      split at h
      · simp only [Option.some.injEq] at h
        subst h
        simp at hs
      · next f hf =>
        split at h
        · simp only [Option.some.injEq] at h
          subst h
          simp at hs
        · next hsig =>
          have hp : PassesChecks env infile f :=
            ⟨⟨ext, he1, by simpa using he2⟩, hf, by simpa using hsig⟩
          refine ⟨f, ?_⟩
          simp only [readBody, Option.bind_eq_some] at h
          obtain ⟨G, hG, h26, hh26, hrest⟩ := h
          obtain ⟨rfl, hG1, hG2⟩ := i32_eq_some hG
          obtain ⟨rfl, hh1, hh2⟩ := i32_eq_some hh26
          have hdat : (rewind (fgets (List.take 21 env.word ++ [0]) 22 ⟨f, 0⟩).2) = ⟨f, 0⟩ := by
            have := fgets_data (List.take 21 env.word ++ [0]) 22 ⟨f, 0⟩
            simp only [rewind]
            rw [this]
          rw [hdat] at hrest hG1 hG2 hh1 hh2
          split at hrest
          · simp only [Option.some.injEq] at hrest
            subst hrest
            simp at hs
          · next hm =>
            simp only [Option.map_eq_some'] at hrest
            obtain ⟨s, hloop, hr⟩ := hrest
            refine ⟨s, hp, hG1, hG2, hh1, hh2, by simpa using hm, ?_, hr.symm⟩
            exact hloop

/-! ## Rows of the result -/

theorem varLoop_keeps {hlen : Int} {n k0 : Nat} {s0 s : State}
    (h : forLoop (varBody hlen) n k0 s0 = some s) : Keeps s0 s :=
  forLoop_rel (varBody hlen) Keeps Keeps.refl (fun _ _ _ => Keeps.trans) n k0 s0 s
    (fun _ _ _ _ _ hb => by
      obtain ⟨off, len, -, hv⟩ := varBody_some hb
      exact hv.keeps) h

theorem varLoop_rowsKept {hlen : Int} {n k0 i : Nat} {u s : State} (hk : i < k0)
    (h : forLoop (varBody hlen) n k0 u = some s) :
    RowsKept i u.outstruct.NumObs.toNat u s := by
  have key := forLoop_inv (varBody hlen)
    (fun _ x => RowsKept i u.outstruct.NumObs.toNat u x ∧ Keeps u x) n k0 u s ?_ ?_ h
  · exact key.1
  · intro k x x' hk1 _ hP hb
    obtain ⟨off, len, -, hv⟩ := varBody_some hb
    obtain ⟨hR, hK⟩ := hP
    have hobs : x.outstruct.NumObs.toNat = u.outstruct.NumObs.toNat := by rw [hK.obs]
    refine ⟨⟨?_, ?_, ?_⟩, Keeps.trans hK hv.keeps⟩
    · intro j hj
      rw [hv.lengthFrame j (by omega)]
      exact hR.lengths j hj
    · intro j hj
      rw [hv.names j, if_neg (by omega)]
      exact hR.names j hj
    · intro j hj
      have hlt : (i + 1) * u.outstruct.NumObs.toNat ≤ k * u.outstruct.NumObs.toNat :=
        Nat.mul_le_mul_right _ (by omega)
      rw [hv.frame j (by rw [hobs]; omega)]
      exact hR.cells j hj
  · exact ⟨⟨fun _ _ => rfl, fun _ _ => rfl, fun _ _ => rfl⟩, Keeps.refl u⟩

/-- Iteration `i` of a completed loop: the state `t` before it, the state `u` after it,
and what the later iterations leave alone. -/
theorem varLoop_row {hlen : Int} {n i : Nat} {s0 s : State}
    (h : forLoop (varBody hlen) n 0 s0 = some s) (hi : i < n) :
    ∃ t u off len, forLoop (varBody hlen) i 0 s0 = some t ∧ Keeps s0 t ∧
      dirOffset hlen i = some off ∧
      VarStep i t u off len ∧ Keeps u s ∧ RowsKept i s0.outstruct.NumObs.toNat u s := by
  obtain ⟨t, u, h1, h2, h3⟩ := forLoop_split (varBody hlen) n 0 i s0 s h (by omega) (by omega)
  obtain ⟨off, len, hoff, hv⟩ := varBody_some h2
  have hK1 := varLoop_keeps h1
  have hR := varLoop_rowsKept (Nat.lt_succ_self i) h3
  rw [hv.keeps.obs, hK1.obs] at hR
  exact ⟨t, u, off, len, h1, hK1, hoff, hv, varLoop_keeps h3, hR⟩

/-! ## Directory entries inside the file -/

theorem field_append_left {a b : List Nat} {off len : Nat} (h : off + len ≤ a.length) :
    field (a ++ b) off len = field a off len := by
  unfold field
  rw [List.drop_append_of_le_length (by omega)]
  rw [List.take_append_of_le_length (by rw [List.length_drop]; omega)]

theorem viVarName_append {a b : List Nat} (h : a.length = 70) :
    viVarName (a ++ b) = viVarName a := field_append_left (by omega)

theorem viVarNameAt_append {a b : List Nat} (h : a.length = 70) (j : Nat) :
    viVarNameAt (a ++ b) j = viVarNameAt a j := by
  unfold viVarNameAt
  rw [field_append_left (by omega)]

theorem viObjNat_append {a b : List Nat} (h : a.length = 70) :
    viObjNat (a ++ b) = viObjNat a := by
  unfold viObjNat
  rw [field_append_left (by omega)]

theorem viDataPos_append {a b : List Nat} (h : a.length = 70) :
    viDataPos (a ++ b) = viDataPos a := by
  unfold viDataPos
  rw [field_append_left (by omega)]

theorem isStructural_append {a b : List Nat} (h : a.length = 70) :
    isStructural (a ++ b) = isStructural a := by
  unfold isStructural
  rw [viObjNat_append h, viVarName_append h]

theorem dbNumObs_append {a b : List Nat} (h : a.length = 22) :
    dbNumObs (a ++ b) = dbNumObs a := by
  unfold dbNumObs
  rw [field_append_left (by omega)]

/-- A read that lies inside the file puts the bytes read at the front of the
destination. -/
theorem fread_inside {buf : List Nat} {size : Nat} {fp : FILE}
    (h : fp.pos + size ≤ fp.data.length) :
    fread buf size fp = (field fp.data fp.pos size ++ buf.drop size,
      { fp with pos := fp.pos + size }) := by
  have hl := field_length_of_le h
  simp only [fread, hl]

theorem toSigned_of_lt {w n : Nat} (hw : 0 < w) (h : n < 2 ^ (w - 1)) : toSigned w n = (n : Int) := by
  have h2 : 2 ^ (w - 1) ≤ 2 ^ w := Nat.pow_le_pow_right (by omega) (by omega)
  have hm : n % 2 ^ w = n := Nat.mod_eq_of_lt (by omega)
  unfold toSigned
  rw [hm, if_pos h]

theorem dirOffset_eq {hlen : Int} {i : Nat} (h0 : 0 ≤ hlen + 26) (h1 : hlen + 26 ≤ INT_MAX)
    (hi : (i : Int) ≤ INT_MAX) :
    dirOffset hlen i = some (hlen + 26 + 70 * (i : Int)) := by
  unfold dirOffset
  have hmin : INT_MIN ≤ hlen + 26 := by unfold INT_MIN; omega
  rw [i32_of_range hmin h1]
  simp only [Option.map_some', Option.some.injEq]
  unfold INT_MAX at h1 hi
  obtain ⟨a, ha⟩ := Int.eq_ofNat_of_zero_le h0
  have e1 : toSizeT (hlen + 26) = a := by
    unfold toSizeT
    rw [ha]
    omega
  have e2 : toSizeT (i : Int) = i := by
    unfold toSizeT
    omega
  rw [e1, e2, ha]
  unfold wrapInt sizeofVarInfo
  have e3 : ((((a + i * 70 : Nat) : Int)) % ((2 ^ 64 : Nat) : Int)).toNat = a + i * 70 := by omega
  rw [e3, toSigned_of_lt (by omega) (by omega)]
  omega

/-- A successful call, seen from the file it opened. -/
theorem read_wf1_success_of {env : Env} {infile : String} {r : Run} {f : List Nat}
    (h : read_wf1 env infile = some r) (hs : r.ret.success = true)
    (hf : env.fopen infile = some f) :
    ∃ s, PassesChecks env infile f ∧
      INT_MIN ≤ globOf env f ∧ globOf env f ≤ INT_MAX ∧
      INT_MIN ≤ hlenOf env f + 26 ∧ hlenOf env f + 26 ≤ INT_MAX ∧
      env.mallocVarNames = true ∧
      forLoop (varBody (hlenOf env f)) (globOf env f).toNat 0 (startState env f) = some s ∧
      r = ⟨{ s.outstruct with success := true }, s.flag, s.log ++ [Event.fclose]⟩ := by
  obtain ⟨f', s, hp, h1, h2, h3, h4, h5, h6, h7⟩ := read_wf1_success h hs
  have : f' = f := by
    have := hp.opened
    rw [hf] at this
    exact (Option.some.inj this).symm
  subst this
  exact ⟨s, hp, h1, h2, h3, h4, h5, h6, h7⟩

theorem startState_data (env : Env) (f : List Nat) : (startState env f).inptr.data = f := by
  simp only [startState, fseek_data, fread_data]

/-- The counts of a successful result are those decoded from the header. -/
theorem success_counts {env : Env} {infile : String} {r : Run} {f : List Nat}
    (h : read_wf1 env infile = some r) (hs : r.ret.success = true)
    (hf : env.fopen infile = some f) :
    r.ret.GlobNumVars = globOf env f ∧ r.ret.NumObs = obsOf env f := by
  obtain ⟨s, -, -, -, -, -, -, hloop, rfl⟩ := read_wf1_success_of h hs hf
  have hK := varLoop_keeps hloop
  exact ⟨hK.glob, hK.obs⟩

/-- Row `i` of a successful result, for a directory entry that lies inside the file:
the length and the bytes of the name, and the cells of the matrix. -/
theorem success_row {env : Env} {infile : String} {r : Run} {f : List Nat}
    (h : read_wf1 env infile = some r) (hs : r.ret.success = true)
    (hf : env.fopen infile = some f) {i : Nat} (hi : (i : Int) < r.ret.GlobNumVars)
    (he : HasEntry env f i) :
    ∃ len : Nat, strlen (viVarName (entry env f i)) = some len ∧
      r.ret.VarLengths.mem i = (len : Int) ∧
      (∀ j, j < 32 → r.ret.VarNames.mem (32 * i + j) =
        if j < len then viVarNameAt (entry env f i) j else 0) ∧
      (isStructural (entry env f i) = true → ∀ j : Nat, (j : Int) < r.ret.NumObs →
        r.ret.DataArray.mem (i * r.ret.NumObs.toNat + j) = STRUCTURAL) ∧
      (isStructural (entry env f i) = false → 0 ≤ viDataPos (entry env f i) →
        ∀ j : Nat, (j : Int) < r.ret.NumObs →
          obsPos (viDataPos (entry env f i)) j + sizeofDataObs ≤ f.length →
          r.ret.DataArray.mem (i * r.ret.NumObs.toNat + j) =
            cellValue (leNat (field f (obsPos (viDataPos (entry env f i)) j) sizeofDataObs))) := by
  obtain ⟨hG, hM⟩ := success_counts h hs hf
  obtain ⟨s, -, -, hG2, -, h26, -, hloop, rfl⟩ := read_wf1_success_of h hs hf
  simp only at hi hG hM ⊢
  have hin : i < (globOf env f).toNat := by omega
  obtain ⟨t, u, off, len, -, hK0, hoff, hv, hK2, hR⟩ := varLoop_row hloop hin
  have hobs0 : (startState env f).outstruct.NumObs = obsOf env f := rfl
  have hobsS : s.outstruct.NumObs.toNat = (obsOf env f).toNat := by rw [hM]
  have hobsT : t.outstruct.NumObs.toNat = (obsOf env f).toNat := by rw [hK0.obs, hobs0]
  rw [hobs0] at hR
  have hdataT : t.inptr.data = f := by rw [hK0.data, startState_data]
  have hiMax : (i : Int) ≤ INT_MAX := by omega
  rw [dirOffset_eq he.base h26 hiMax] at hoff
  have hoff' : off = hlenOf env f + 26 + 70 * (i : Int) := (Option.some.inj hoff).symm
  have hoff0 : 0 ≤ off := by have := he.base; omega
  have hpos : (seekVar t off).pos = entryPos env f i := by
    unfold seekVar
    rw [fseek_pos_of_nonneg hoff0, hoff']
    rfl
  have hsdata : (seekVar t off).data = f := by
    unfold seekVar
    rw [fseek_data, hdataT]
  have hinside : (seekVar t off).pos + sizeofVarInfo ≤ (seekVar t off).data.length := by
    rw [hpos, hsdata]; exact he.inside
  have hread : fread t.vi sizeofVarInfo (seekVar t off) = _ := fread_inside hinside
  have hvi : viAfter t off = entry env f i ++ t.vi.drop sizeofVarInfo := by
    unfold viAfter
    rw [hread, hpos, hsdata]
    rfl
  have hlen70 : (entry env f i).length = 70 := field_length_of_le he.inside
  have hstr : isStructural (viAfter t off) = isStructural (entry env f i) := by
    rw [hvi, isStructural_append hlen70]
  refine ⟨len, ?_, ?_, ?_, ?_, ?_⟩
  · have := hv.nameLen
    rwa [hvi, viVarName_append hlen70] at this
  · rw [hR.lengths i (le_refl _)]
    exact hv.lengthAt
  · intro j hj
    rw [hR.names _ (by omega), hv.names, if_pos (by omega)]
    have e : 32 * i + j - 32 * i = j := by omega
    rw [e, hvi, viVarNameAt_append hlen70]
  · intro hst j hj
    have hj' : j < (obsOf env f).toNat := by omega
    have hlt : i * (obsOf env f).toNat + j < (i + 1) * (obsOf env f).toNat := by
      rw [Nat.add_mul]; omega
    rw [hobsS, hR.cells _ hlt]
    have := (hv.skipped (by rw [hstr]; exact hst)).2.2.2.2.2 j (by rw [hobsT]; exact hj')
    rwa [hobsT] at this
  · intro hst hdp j hj hfile
    have hj' : j < (obsOf env f).toNat := by omega
    have hlt : i * (obsOf env f).toNat + j < (i + 1) * (obsOf env f).toNat := by
      rw [Nat.add_mul]; omega
    rw [hobsS, hR.cells _ hlt]
    have hdp' : viDataPos (viAfter t off) = viDataPos (entry env f i) := by
      rw [hvi, viDataPos_append hlen70]
    have hsd : (seekData t off).pos = (viDataPos (entry env f i)).toNat := by
      unfold seekData
      rw [fseek_pos_of_nonneg (by rw [hdp']; exact hdp), hdp']
    have hsdd : (seekData t off).data = f := by
      unfold seekData inptrAfterVar
      rw [fseek_data, fread_data, hsdata]
    unfold obsPos sizeofDataBlock sizeofDataObs at hfile
    have hin2 : (seekData t off).pos + sizeofDataBlock ≤ (seekData t off).data.length := by
      rw [hsd, hsdd]; unfold sizeofDataBlock; omega
    have hpd : (inptrAfterData t off).pos = (viDataPos (entry env f i)).toNat + 22 := by
      unfold inptrAfterData
      rw [fread_inside hin2, hsd]
      rfl
    have := (hv.decoded (by rw [hstr]; exact hst)).2.2.2.2 j (by rw [hobsT]; exact hj')
      (by rw [hpd, hdataT]; omega)
    rw [hobsT, hpd, hdataT] at this
    exact this

/-! ## The string functions -/

theorem strcmp_eq_zero_iff (a b : List Nat) :
    strcmp a b = 0 ↔ a.takeWhile (· ≠ 0) = b.takeWhile (· ≠ 0) := by
  induction a generalizing b with
  | nil =>
    cases b with
    | nil => simp [strcmp]
    | cons y ys =>
      by_cases hy : y = 0
      · simp [strcmp, hy, List.takeWhile]
      · simp [strcmp, hy, List.takeWhile]
  | cons x xs ih =>
    cases b with
    | nil =>
      by_cases hx : x = 0
      · simp [strcmp, hx, List.takeWhile]
      · simp [strcmp, hx, List.takeWhile]
    | cons y ys =>
      by_cases hxy : x = y
      · subst hxy
        by_cases hx : x = 0
        · simp [strcmp, hx, List.takeWhile]
        · simp [strcmp, hx, List.takeWhile, ih]
      · have hne : (x : Int) - (y : Int) ≠ 0 := by omega
        by_cases hx : x = 0 <;> by_cases hy : y = 0
        · omega
        · subst hx
          simp [strcmp, hxy, hy, List.takeWhile]
        · subst hy
          simp [strcmp, hxy, hx, List.takeWhile]
        · simp [strcmp, hxy, hne, hx, hy, List.takeWhile]

theorem strncmp_eq_zero_iff (a b : List Nat) (n : Nat) :
    strncmp a b n = 0 ↔ (a.takeWhile (· ≠ 0)).take n = (b.takeWhile (· ≠ 0)).take n := by
  induction n generalizing a b with
  | zero => simp [strncmp]
  | succ n ih =>
    cases a with
    | nil =>
      cases b with
      | nil => simp [strncmp]
      | cons y ys =>
        by_cases hy : y = 0
        · simp [strncmp, hy, List.takeWhile]
        · simp [strncmp, hy, List.takeWhile]
    | cons x xs =>
      cases b with
      | nil =>
        by_cases hx : x = 0
        · simp [strncmp, hx, List.takeWhile]
        · simp [strncmp, hx, List.takeWhile]
      | cons y ys =>
        by_cases hxy : x = y
        · subst hxy
          by_cases hx : x = 0
          · simp [strncmp, hx, List.takeWhile]
          · simp [strncmp, hx, List.takeWhile, ih]
        · have hne : (x : Int) - (y : Int) ≠ 0 := by omega
          by_cases hx : x = 0 <;> by_cases hy : y = 0
          · omega
          · subst hx
            simp [strncmp, hxy, hy, List.takeWhile]
          · subst hy
            simp [strncmp, hxy, hx, List.takeWhile]
          · simp [strncmp, hxy, hne, hx, hy, List.takeWhile]

/-- The test of line 148 says what the exclusion rule says. -/
theorem isStructural_iff (e : List Nat) : isStructural e = true ↔ Excluded e := by
  have h1 : (cstr "RESID").takeWhile (· ≠ 0) = cstr "RESID" := by decide
  have h2 : ((cstr "SERIES").takeWhile (· ≠ 0)).take 6 = cstr "SERIES" := by decide
  unfold isStructural Excluded entryName
  simp only [Bool.or_eq_true, decide_eq_true_eq, strcmp_eq_zero_iff, strncmp_eq_zero_iff, h1, h2]
  tauto

theorem isStructural_eq_false_iff (e : List Nat) : isStructural e = false ↔ ¬ Excluded e := by
  rw [← isStructural_iff]
  simp

/-! ## Doubles -/

theorem dEq_self (x : Nat) : dEq x x = !isNaN x := by
  unfold dEq
  cases isNaN x <;> simp

/-- The value a cell receives, in the words of the sentinel rule. -/
theorem cellValue_eq (x : Nat) :
    cellValue x = if isNaN x || dEq x MISSING then NODATA else x := by
  unfold cellValue
  rw [dEq_self]
  cases h1 : isNaN x <;> cases h2 : dEq x MISSING <;> simp

theorem leNat_lt (bs : List Nat) (h : ∀ b ∈ bs, b < 256) : leNat bs < 256 ^ bs.length := by
  induction bs with
  | nil => simp [leNat]
  | cons b bs ih =>
    have h1 : b < 256 := h b (List.mem_cons_self _ _)
    have h2 := ih (fun x hx => h x (List.mem_cons_of_mem _ hx))
    simp only [leNat, List.length_cons, pow_succ]
    omega

/-- On 64-bit patterns, `x == 1e-37` holds exactly for the pattern of `1e-37`. -/
theorem dEq_MISSING_iff {x : Nat} (hx : x < 2 ^ 64) : dEq x MISSING = true ↔ x = MISSING := by
  have hm : isNaN MISSING = false := by decide
  have hm2 : MISSING % 2 ^ 64 = MISSING := by decide
  have hm3 : ¬ (MISSING % 2 ^ 63 = 0) := by decide
  have hx2 : x % 2 ^ 64 = x := Nat.mod_eq_of_lt hx
  unfold dEq
  rw [hm, hm2, hx2]
  constructor
  · intro h
    simp only [Bool.not_false, Bool.and_true, Bool.and_eq_true, Bool.not_eq_true',
      Bool.or_eq_true, decide_eq_true_eq] at h
    rcases h.2 with h | h
    · exact h
    · exact absurd h.2 hm3
  · intro h
    subst h
    simp [hm]

theorem resultOf_eq {env : Env} {infile : String} (h : (read_wf1 env infile).isSome = true) :
    read_wf1 env infile = some (resultOf env infile) := by
  unfold resultOf
  cases hr : read_wf1 env infile with
  | none => rw [hr] at h; simp at h
  | some r => rfl

/-! ## More on entries and on the header -/

theorem field_field {f : List Nat} {p n a b : Nat} (h : a + b ≤ n) :
    field (field f p n) a b = field f (p + a) b := by
  unfold field
  rw [List.drop_take, List.take_take, List.drop_drop]
  congr 1
  omega

/-- What the read of line 133 finds when entry `k` lies inside the file. -/
theorem viAfter_entry {env : Env} {f : List Nat} {t : State} {k : Nat} {off : Int}
    (hdata : t.inptr.data = f) (he : HasEntry env f k) (h26 : hlenOf env f + 26 ≤ INT_MAX)
    (hk : (k : Int) ≤ INT_MAX) (hoff : dirOffset (hlenOf env f) k = some off) :
    off = hlenOf env f + 26 + 70 * (k : Int) ∧ (seekVar t off).pos = entryPos env f k ∧
      viAfter t off = entry env f k ++ t.vi.drop sizeofVarInfo ∧
      (entry env f k).length = 70 ∧
      (inptrAfterVar t off).pos = entryPos env f k + sizeofVarInfo := by
  rw [dirOffset_eq he.base h26 hk] at hoff
  have hoff' : off = hlenOf env f + 26 + 70 * (k : Int) := (Option.some.inj hoff).symm
  have hoff0 : 0 ≤ off := by have := he.base; omega
  have hpos : (seekVar t off).pos = entryPos env f k := by
    unfold seekVar
    rw [fseek_pos_of_nonneg hoff0, hoff']
    rfl
  have hsdata : (seekVar t off).data = f := by
    unfold seekVar
    rw [fseek_data, hdata]
  have hinside : (seekVar t off).pos + sizeofVarInfo ≤ (seekVar t off).data.length := by
    rw [hpos, hsdata]; exact he.inside
  have hread : fread t.vi sizeofVarInfo (seekVar t off) = _ := fread_inside hinside
  refine ⟨hoff', hpos, ?_, field_length_of_le he.inside, ?_⟩
  · unfold viAfter
    rw [hread, hpos, hsdata]
    rfl
  · unfold inptrAfterVar
    rw [hread, hpos]

/-- A file that holds the whole header determines the record `vh`. -/
theorem headerOf_field {env : Env} {f : List Nat} (hlen : sizeofHeader ≤ f.length)
    {a b : Nat} (h : a + b ≤ sizeofHeader) :
    field (headerOf env f) a b = field f a b := by
  have hin : (⟨f, 0⟩ : FILE).pos + sizeofHeader ≤ (⟨f, 0⟩ : FILE).data.length := by
    simpa using hlen
  have hread : fread env.vh sizeofHeader ⟨f, 0⟩ = _ := fread_inside hin
  unfold headerOf
  rw [hread]
  simp only
  have hl : (field f 0 sizeofHeader).length = sizeofHeader :=
    field_length_of_le (by simpa using hlen)
  rw [field_append_left (by rw [hl]; exact h), field_field h]
  simp

theorem excludedCount_succ (env : Env) (f : List Nat) (k : Nat) :
    excludedCount env f (k + 1) =
      excludedCount env f k + (if Excluded (entry env f k) then 1 else 0) := by
  unfold excludedCount
  rw [List.range_succ, List.filter_append, List.length_append]
  by_cases hx : Excluded (entry env f k)
  · simp [hx]
  · simp [hx]

/-- The counter of the variables of interest after `k` iterations. -/
theorem varLoop_numVars {env : Env} {f : List Nat} {n : Nat} {s : State}
    (h26 : hlenOf env f + 26 ≤ INT_MAX) (hn : (n : Int) ≤ INT_MAX + 1)
    (hall : ∀ i, i < n → HasEntry env f i)
    (h : forLoop (varBody (hlenOf env f)) n 0 (startState env f) = some s) :
    s.outstruct.NumVars = globOf env f - (excludedCount env f n : Int) := by
  have key := forLoop_inv (varBody (hlenOf env f))
    (fun k t => Keeps (startState env f) t ∧
      t.outstruct.NumVars = globOf env f - (excludedCount env f k : Int))
    n 0 (startState env f) s ?_ ?_ h
  · simpa using key.2
  · intro k t t' _ hk hP hb
    obtain ⟨hK, hN⟩ := hP
    obtain ⟨off, len, hoff, hv⟩ := varBody_some hb
    have hdata : t.inptr.data = f := by rw [hK.data, startState_data]
    obtain ⟨-, -, hvi, hl70, -⟩ :=
      viAfter_entry hdata (hall k (by omega)) h26 (by omega) hoff
    have hstr : isStructural (viAfter t off) = isStructural (entry env f k) := by
      rw [hvi, isStructural_append hl70]
    refine ⟨Keeps.trans hK hv.keeps, ?_⟩
    rw [excludedCount_succ]
    by_cases hx : Excluded (entry env f k)
    · have hst : isStructural (viAfter t off) = true := by
        rw [hstr, isStructural_iff]; exact hx
      rw [(hv.skipped hst).1, hN, if_pos hx]
      push_cast
      omega
    · have hst : isStructural (viAfter t off) = false := by
        rw [hstr, isStructural_eq_false_iff]; exact hx
      rw [(hv.decoded hst).1, hN, if_neg hx]
      simp
  · refine ⟨Keeps.refl _, ?_⟩
    simp [excludedCount, startState, startOut]

theorem excludedCount_eq_zero {env : Env} {f : List Nat} {n : Nat}
    (h : ∀ i, i < n → ¬ Excluded (entry env f i)) : excludedCount env f n = 0 := by
  unfold excludedCount
  rw [List.length_eq_zero, List.filter_eq_nil_iff]
  intro i hi
  simpa using h i (List.mem_range.1 hi)

/-! ## Every way the function returns after the checks -/

/-- The log only grows along the loop over the variables. -/
theorem varLoop_log {hlen : Int} {n k0 : Nat} {s0 s : State}
    (h : forLoop (varBody hlen) n k0 s0 = some s) : ∃ evs, s.log = s0.log ++ evs := by
  refine forLoop_rel (varBody hlen) (fun a b => ∃ evs, b.log = a.log ++ evs)
    (fun a => ⟨[], by simp⟩) ?_ n k0 s0 s ?_ h
  · rintro a b c ⟨e1, h1⟩ ⟨e2, h2⟩
    exact ⟨e1 ++ e2, by rw [h2, h1, List.append_assoc]⟩
  · intro k t t' _ _ hb
    obtain ⟨off, len, -, hv⟩ := varBody_some hb
    cases hst : isStructural (viAfter t off) with
    | true => exact ⟨_, (hv.skipped hst).2.2.2.2.1⟩
    | false =>
      obtain ⟨evs, h1, -, -⟩ := (hv.decoded hst).2.2.2.1
      exact ⟨logVar t off ++ (logData t off ++
        ((if (mismatch t off && !t.flag) = true then [Event.stderr Msg.inconsistentObs] else [])
          ++ evs)), by rw [h1]; simp only [List.append_assoc]⟩

/-- A call that got past the checks either stops at the allocation test, or runs the
loop over the variables. -/
theorem read_wf1_after_checks {env : Env} {infile : String} {r : Run} {f : List Nat}
    (hp : PassesChecks env infile f) (h : read_wf1 env infile = some r) :
    INT_MIN ≤ globOf env f ∧ globOf env f ≤ INT_MAX ∧
      INT_MIN ≤ hlenOf env f + 26 ∧ hlenOf env f + 26 ≤ INT_MAX ∧
      ((env.mallocVarNames = false ∧ r.ret.success = false ∧
          r.ret.GlobNumVars = globOf env f ∧ r.ret.NumObs = obsOf env f ∧
          r.flag = env.flag ∧
          r.log = startLog env f ++ [Event.stderr Msg.noMemVarNames]) ∨
        (env.mallocVarNames = true ∧ ∃ s,
          forLoop (varBody (hlenOf env f)) (globOf env f).toNat 0 (startState env f) = some s ∧
          r = ⟨{ s.outstruct with success := true }, s.flag, s.log ++ [Event.fclose]⟩)) := by
  rw [read_wf1_of_passes hp] at h
  simp only [readBody, Option.bind_eq_some] at h
  obtain ⟨G, hG, h26, hh26, hrest⟩ := h
  obtain ⟨rfl, hG1, hG2⟩ := i32_eq_some hG
  obtain ⟨rfl, hh1, hh2⟩ := i32_eq_some hh26
  have hdat : (rewind (fgets (List.take 21 env.word ++ [0]) 22 ⟨f, 0⟩).2) = ⟨f, 0⟩ := by
    have := fgets_data (List.take 21 env.word ++ [0]) 22 ⟨f, 0⟩
    simp only [rewind]
    rw [this]
  rw [hdat] at hrest hG1 hG2 hh1 hh2
  refine ⟨hG1, hG2, hh1, hh2, ?_⟩
  split at hrest
  · next hm =>
    simp only [Option.some.injEq] at hrest
    subst hrest
    left
    exact ⟨by simpa using hm, rfl, rfl, rfl, rfl, rfl⟩
  · next hm =>
    simp only [Option.map_eq_some'] at hrest
    obtain ⟨s, hloop, hr⟩ := hrest
    right
    exact ⟨by simpa using hm, s, hloop, hr.symm⟩

/-- The counts and the start of the log of every result returned after the checks. -/
theorem after_checks_counts {env : Env} {infile : String} {r : Run} {f : List Nat}
    (hp : PassesChecks env infile f) (h : read_wf1 env infile = some r) :
    r.ret.GlobNumVars = globOf env f ∧ r.ret.NumObs = obsOf env f ∧
      ∃ evs, r.log = startLog env f ++ evs := by
  obtain ⟨-, -, -, -, hc⟩ := read_wf1_after_checks hp h
  rcases hc with ⟨-, -, h1, h2, -, h3⟩ | ⟨-, s, hloop, rfl⟩
  · exact ⟨h1, h2, _, h3⟩
  · have hK := varLoop_keeps hloop
    obtain ⟨evs, he⟩ := varLoop_log hloop
    refine ⟨hK.glob, hK.obs, evs ++ [Event.fclose], ?_⟩
    simp only [he, List.append_assoc]
    rfl

theorem passesChecks_of_eval {env : Env} {infile : String} {f : List Nat}
    (h1 : (strrchr (cstr infile) 46).map (fun ext => decide (strcmp ext (cstr ".wf1") = 0))
      = some true)
    (h2 : env.fopen infile = some f) (h3 : strcmp (wordOf env f) signature = 0) :
    PassesChecks env infile f := by
  refine ⟨?_, h2, h3⟩
  cases hx : strrchr (cstr infile) 46 with
  | none => rw [hx] at h1; simp at h1
  | some ext =>
    rw [hx] at h1
    exact ⟨ext, hx, by simpa using h1⟩

/-! ## The log of the loop over the variables -/

theorem VarStep.log_eq {i : Nat} {s t : State} {off : Int} {len : Nat}
    (hv : VarStep i s t off len) :
    ∃ evs : List Event, t.log = s.log ++ stepLog s off ++ evs ∧
      (∀ e ∈ evs, e.isObsRead) ∧ evs.length ≤ s.outstruct.NumObs.toNat := by
  cases hst : isStructural (viAfter s off) with
  | true =>
    refine ⟨[], ?_, by simp, by simp⟩
    rw [(hv.skipped hst).2.2.2.2.1]
    simp [stepLog, hst]
  | false =>
    obtain ⟨evs, h1, h2, h3⟩ := (hv.decoded hst).2.2.2.1
    refine ⟨evs, ?_, h3, by omega⟩
    rw [h1]
    simp [stepLog, hst]

theorem descriptorReads_append (a b : List Event) :
    descriptorReads (a ++ b) = descriptorReads a ++ descriptorReads b := by
  simp [descriptorReads, List.filterMap_append]

theorem descriptorReads_obs {evs : List Event} (h : ∀ e ∈ evs, e.isObsRead) :
    descriptorReads evs = [] := by
  unfold descriptorReads
  rw [List.filterMap_eq_nil_iff]
  intro e he
  have := h e he
  cases e with
  | fread pos size got =>
    simp only [Event.isObsRead] at this
    subst this
    simp [sizeofDataObs, sizeofVarInfo]
  | _ => simp [Event.isObsRead] at this

theorem descriptorReads_stepLog (s : State) (off : Int) :
    descriptorReads (stepLog s off) = [(seekVar s off).pos] := by
  unfold stepLog logVar logData
  cases isStructural (viAfter s off) <;> cases (mismatch s off && !s.flag) <;>
    simp [descriptorReads, sizeofVarInfo, sizeofDataBlock]

theorem descriptorReads_startLog (env : Env) (f : List Nat) :
    descriptorReads (startLog env f) = [] := by
  simp [descriptorReads, startLog, sizeofVarInfo, sizeofHeader]

/-- The reads of directory entries made by the first `n` iterations, when the directory
does not start at a negative offset. -/
theorem varLoop_descriptorReads {env : Env} {f : List Nat} {n : Nat} {s : State}
    (h0 : 0 ≤ hlenOf env f + 26) (h26 : hlenOf env f + 26 ≤ INT_MAX)
    (hn : (n : Int) ≤ INT_MAX + 1)
    (h : forLoop (varBody (hlenOf env f)) n 0 (startState env f) = some s) :
    descriptorReads s.log = (List.range n).map (entryPos env f) := by
  have key := forLoop_inv (varBody (hlenOf env f))
    (fun k t => descriptorReads t.log = (List.range k).map (entryPos env f))
    n 0 (startState env f) s ?_ ?_ h
  · simpa using key
  · intro k t t' _ hk hP hb
    obtain ⟨off, len, hoff, hv⟩ := varBody_some hb
    obtain ⟨evs, h1, h2, -⟩ := hv.log_eq
    rw [dirOffset_eq h0 h26 (by omega)] at hoff
    have hoff' : off = hlenOf env f + 26 + 70 * (k : Int) := (Option.some.inj hoff).symm
    have hpos : (seekVar t off).pos = entryPos env f k := by
      unfold seekVar
      rw [fseek_pos_of_nonneg (by omega), hoff']
      rfl
    rw [h1, descriptorReads_append, descriptorReads_append, hP, descriptorReads_stepLog,
      descriptorReads_obs h2, hpos, List.range_succ, List.map_append]
    simp
  · exact descriptorReads_startLog env f

/-! ## The diagnostic of line 173 -/

theorem warnings_append (a b : List Event) : warnings (a ++ b) = warnings a + warnings b := by
  simp [warnings, List.count_append]

theorem warnings_obs {evs : List Event} (h : ∀ e ∈ evs, e.isObsRead) : warnings evs = 0 := by
  unfold warnings
  rw [List.count_eq_zero]
  intro hm
  have := h _ hm
  simp [Event.isObsRead] at this

theorem warnings_stepLog (s : State) (off : Int) :
    warnings (stepLog s off) =
      if isStructural (viAfter s off) = false ∧ mismatch s off = true ∧ s.flag = false
      then 1 else 0 := by
  unfold stepLog logVar logData
  cases isStructural (viAfter s off) <;> cases mismatch s off <;> cases s.flag <;>
    simp [warnings]

theorem warnings_startLog (env : Env) (f : List Nat) : warnings (startLog env f) = 0 := by
  simp [warnings, startLog]

/-- The flag after one iteration. -/
theorem VarStep.flag_eq {i : Nat} {s t : State} {off : Int} {len : Nat}
    (hv : VarStep i s t off len) :
    t.flag = (s.flag || (!isStructural (viAfter s off) && mismatch s off)) := by
  cases hst : isStructural (viAfter s off) with
  | true => rw [(hv.skipped hst).2.1]; simp
  | false => rw [(hv.decoded hst).2.1]; simp

/-- Once set, the flag stays set. -/
theorem varLoop_flag {hlen : Int} {n k0 : Nat} {u s : State}
    (h : forLoop (varBody hlen) n k0 u = some s) (hu : u.flag = true) : s.flag = true := by
  have key := forLoop_inv (varBody hlen) (fun _ t => t.flag = true) n k0 u s ?_ hu h
  · exact key
  · intro k t t' _ _ hP hb
    obtain ⟨off, len, -, hv⟩ := varBody_some hb
    rw [hv.flag_eq, hP]
    rfl

/-- The number of diagnostics in the log is one exactly when the flag was clear at the
start and is set now, and zero otherwise. -/
theorem varLoop_warnings {hlen : Int} {n : Nat} {s0 s : State}
    (h0 : warnings s0.log = 0)
    (h : forLoop (varBody hlen) n 0 s0 = some s) :
    warnings s.log = (if s.flag = true ∧ s0.flag = false then 1 else 0) ∧
      (s0.flag = true → s.flag = true) := by
  have key := forLoop_inv (varBody hlen)
    (fun _ t => warnings t.log = (if t.flag = true ∧ s0.flag = false then 1 else 0) ∧
      (s0.flag = true → t.flag = true)) n 0 s0 s ?_ ?_ h
  · exact key
  · intro k t t' _ _ hP hb
    obtain ⟨off, len, -, hv⟩ := varBody_some hb
    obtain ⟨evs, h1, h2, -⟩ := hv.log_eq
    obtain ⟨hw, hm⟩ := hP
    have hf := hv.flag_eq
    rw [h1, warnings_append, warnings_append, warnings_obs h2, warnings_stepLog, hw, hf]
    cases h3 : s0.flag <;> cases h4 : t.flag <;> cases h5 : isStructural (viAfter t off) <;>
      cases h6 : mismatch t off <;> simp_all
  · show warnings s0.log = (if s0.flag = true ∧ s0.flag = false then 1 else 0) ∧
      (s0.flag = true → s0.flag = true)
    rw [h0]
    cases h3 : s0.flag <;> simp

/-- What the read of line 167 finds when the block header lies inside the file. -/
theorem dbAfter_block {env : Env} {f : List Nat} {t : State} {k : Nat} {off : Int}
    (hdata : t.inptr.data = f) (he : HasEntry env f k) (h26 : hlenOf env f + 26 ≤ INT_MAX)
    (hk : (k : Int) ≤ INT_MAX) (hoff : dirOffset (hlenOf env f) k = some off)
    (hpos : 0 ≤ viDataPos (entry env f k))
    (hblk : (viDataPos (entry env f k)).toNat + sizeofDataBlock ≤ f.length) :
    dbNumObs (dbAfter t off)
      = dbNumObs (field f (viDataPos (entry env f k)).toNat sizeofDataBlock) := by
  obtain ⟨-, hsp, hvi, hl70, -⟩ := viAfter_entry hdata he h26 hk hoff
  have hdp : viDataPos (viAfter t off) = viDataPos (entry env f k) := by
    rw [hvi, viDataPos_append hl70]
  have hsd : (seekData t off).pos = (viDataPos (entry env f k)).toNat := by
    unfold seekData
    rw [fseek_pos_of_nonneg (by rw [hdp]; exact hpos), hdp]
  have hsdd : (seekData t off).data = f := by
    unfold seekData inptrAfterVar seekVar
    rw [fseek_data, fread_data, fseek_data, hdata]
  have hin : (seekData t off).pos + sizeofDataBlock ≤ (seekData t off).data.length := by
    rw [hsd, hsdd]; exact hblk
  have hread : fread t.db sizeofDataBlock (seekData t off) = _ := fread_inside hin
  unfold dbAfter
  rw [hread, hsd, hsdd]
  exact dbNumObs_append (field_length_of_le hblk)

/-! ## Empty tables -/

theorem toSigned32_range (n : Nat) : INT_MIN ≤ toSigned 32 n ∧ toSigned 32 n ≤ INT_MAX := by
  unfold toSigned INT_MIN INT_MAX
  have h : n % 2 ^ 32 < 2 ^ 32 := Nat.mod_lt _ (by norm_num)
  norm_num at h ⊢
  split <;> omega

theorem hlenOf_range (env : Env) (f : List Nat) :
    INT_MIN ≤ hlenOf env f ∧ hlenOf env f ≤ INT_MAX :=
  toSigned32_range _

/-- A call that passes the checks, decodes counts in range and gets the name table is
the loop over the variables. -/
theorem read_wf1_eq_loop {env : Env} {infile : String} {f : List Nat}
    (hp : PassesChecks env infile f)
    (hG1 : INT_MIN ≤ globOf env f) (hG2 : globOf env f ≤ INT_MAX)
    (h26 : hlenOf env f + 26 ≤ INT_MAX) (hm : env.mallocVarNames = true) :
    read_wf1 env infile =
      (forLoop (varBody (hlenOf env f)) (globOf env f).toNat 0 (startState env f)).map
        fun s => ⟨{ s.outstruct with success := true }, s.flag, s.log ++ [Event.fclose]⟩ := by
  rw [read_wf1_of_passes hp]
  have hdat : (rewind (fgets (List.take 21 env.word ++ [0]) 22 ⟨f, 0⟩).2) = ⟨f, 0⟩ := by
    have := fgets_data (List.take 21 env.word ++ [0]) 22 ⟨f, 0⟩
    simp only [rewind]
    rw [this]
  have h1 : i32 (hdrNumVarPlusOne (fread env.vh sizeofHeader ⟨f, 0⟩).1 - 1)
      = some (globOf env f) := i32_of_range hG1 hG2
  have h2 : i32 (wrapInt 32 (hdrHeaderSize (fread env.vh sizeofHeader ⟨f, 0⟩).1) + 26)
      = some (hlenOf env f + 26) :=
    i32_of_range (by
      show INT_MIN ≤ hlenOf env f + 26
      have := (hlenOf_range env f).1
      unfold INT_MIN at this ⊢
      omega) h26
  simp only [readBody, hdat, h1, h2, Option.some_bind, hm, Bool.not_true, Bool.false_eq_true,
    if_false, startState, startOut, startLog]
  rfl

theorem stepLog_not_obs (s : State) (off : Int) : ∀ e ∈ stepLog s off, ¬ e.isObsRead := by
  intro e he
  unfold stepLog at he
  rw [List.mem_append] at he
  rcases he with he | he
  · unfold logVar at he
    simp only [List.mem_cons, List.mem_singleton, List.not_mem_nil, or_false] at he
    rcases he with rfl | rfl <;> simp [Event.isObsRead, sizeofVarInfo, sizeofDataObs]
  · split at he
    · simp only [List.not_mem_nil] at he
    · rw [List.mem_append] at he
      rcases he with he | he
      · unfold logData at he
        simp only [List.mem_cons, List.mem_singleton, List.not_mem_nil, or_false] at he
        rcases he with rfl | rfl <;> simp [Event.isObsRead, sizeofDataBlock, sizeofDataObs]
      · split at he
        · simp only [List.mem_singleton] at he
          subst he
          simp [Event.isObsRead]
        · simp only [List.not_mem_nil] at he

/-- With no observation per variable the loop leaves the matrix alone, reads no
observation, and still reads one directory entry per variable. -/
theorem varLoop_noObs {hlen : Int} {n : Nat} {s0 s : State}
    (hM : s0.outstruct.NumObs.toNat = 0)
    (h : forLoop (varBody hlen) n 0 s0 = some s) :
    s.outstruct.DataArray.mem = s0.outstruct.DataArray.mem ∧
      ((∀ e ∈ s0.log, ¬ e.isObsRead) → ∀ e ∈ s.log, ¬ e.isObsRead) ∧
      (descriptorReads s.log).length = (descriptorReads s0.log).length + n := by
  have key := forLoop_inv (varBody hlen)
    (fun k t => Keeps s0 t ∧ t.outstruct.DataArray.mem = s0.outstruct.DataArray.mem ∧
      ((∀ e ∈ s0.log, ¬ e.isObsRead) → ∀ e ∈ t.log, ¬ e.isObsRead) ∧
      (descriptorReads t.log).length = (descriptorReads s0.log).length + k)
    n 0 s0 s ?_ ?_ h
  · simpa using key.2
  · intro k t t' _ _ hP hb
    obtain ⟨hK, hD, hL, hR⟩ := hP
    obtain ⟨off, len, -, hv⟩ := varBody_some hb
    obtain ⟨evs, h1, h2, h3⟩ := hv.log_eq
    have hMt : t.outstruct.NumObs.toNat = 0 := by rw [hK.obs]; exact hM
    have hevs : evs = [] := List.length_eq_zero.1 (by omega)
    subst hevs
    refine ⟨Keeps.trans hK hv.keeps, ?_, ?_, ?_⟩
    · rw [← hD]
      funext j
      exact hv.frame j (by rw [hMt]; omega)
    · intro h0 e he
      rw [h1] at he
      simp only [List.append_nil, List.mem_append] at he
      rcases he with he | he
      · exact hL h0 e he
      · exact stepLog_not_obs t off e he
    · rw [h1, descriptorReads_append, descriptorReads_append, descriptorReads_stepLog]
      simp only [descriptorReads, List.filterMap_nil, List.append_nil, List.length_append,
        List.length_singleton] at hR ⊢
      omega
  · exact ⟨Keeps.refl _, rfl, fun h0 => h0, rfl⟩

/-! ## Two files that agree on what is read -/

theorem forLoop_map {σ : Type} (body : Nat → σ → Option σ) (w : σ → σ)
    (hw : ∀ j s, body j (w s) = (body j s).map w) (n k : Nat) (s : σ) :
    forLoop body n k (w s) = (forLoop body n k s).map w := by
  induction n generalizing k s with
  | zero => simp [forLoop]
  | succ n ih =>
    simp only [forLoop, hw]
    cases body k s with
    | none => simp
    | some t => simp [ih]

/-- Two runs of a loop that start in related states and whose iterations keep the
states related end in related states. -/
theorem forLoop_sim {σ : Type} (body : Nat → σ → Option σ) (R : Nat → σ → σ → Prop) :
    ∀ (n k0 : Nat) (s s' t : σ),
      (∀ j a a' b, k0 ≤ j → j < k0 + n → R j a a' → body j a = some b →
        ∃ b', body j a' = some b' ∧ R (j + 1) b b') →
      R k0 s s' → forLoop body n k0 s = some t →
      ∃ t', forLoop body n k0 s' = some t' ∧ R (k0 + n) t t' := by
  intro n
  induction n with
  | zero =>
    intro k0 s s' t _ h0 h
    simp only [forLoop, Option.some.injEq] at h
    subst h
    exact ⟨s', rfl, by simpa using h0⟩
  | succ n ih =>
    intro k0 s s' t hstep h0 h
    simp only [forLoop] at h
    cases hb : body k0 s with
    | none => simp [hb] at h
    | some b =>
      simp only [hb, Option.some_bind] at h
      obtain ⟨b', hb', hR⟩ := hstep k0 s s' b (le_refl _) (by omega) h0 hb
      obtain ⟨t', ht', hR'⟩ := ih (k0 + 1) b b' t
        (fun j a a' c h1 h2 => hstep j a a' c (by omega) (by omega)) hR h
      refine ⟨t', ?_, ?_⟩
      · simp only [forLoop, hb', Option.some_bind]
        exact ht'
      · have e : k0 + 1 + n = k0 + (n + 1) := by omega
        rwa [e] at hR'

theorem storeNameChar_withData (i : Nat) (l : Int) (g : List Nat) (j : Nat) (s : State) :
    storeNameChar i l j (s.withData g) = (storeNameChar i l j s).map (·.withData g) := by
  simp only [storeNameChar, State.withData]
  cases i32 (32 * (i : Int)) with
  | none => rfl
  | some a =>
    simp only [Option.some_bind]
    cases i32 (a + (j : Int)) with
    | none => rfl
    | some idx =>
      simp only [Option.some_bind]
      cases Buf.store s.outstruct.VarNames idx
          (if (j : Int) < l then viVarNameAt s.vi j else 0) with
      | none => rfl
      | some names => rfl

theorem storeStructural_withData (i : Nat) (g : List Nat) (j : Nat) (s : State) :
    storeStructural i j (s.withData g) = (storeStructural i j s).map (·.withData g) := by
  simp only [storeStructural, State.withData]
  cases i32 ((i : Int) * s.outstruct.NumObs) with
  | none => rfl
  | some a =>
    simp only [Option.some_bind]
    cases i32 (a + (j : Int)) with
    | none => rfl
    | some idx =>
      simp only [Option.some_bind]
      cases Buf.store s.outstruct.DataArray idx STRUCTURAL with
      | none => rfl
      | some arr => rfl

/-- A read sees only the bytes at its position. -/
theorem fread_congr {buf : List Nat} {size : Nat} {fp : FILE} {g : List Nat}
    (h : field fp.data fp.pos size = field g fp.pos size) :
    fread buf size ⟨g, fp.pos⟩ =
      ((fread buf size fp).1, ⟨g, (fread buf size fp).2.pos⟩) := by
  simp only [fread, h]

theorem fseek_withData (fp : FILE) (g : List Nat) (off : Int) :
    fseek ⟨g, fp.pos⟩ off = ⟨g, (fseek fp off).pos⟩ := by
  unfold fseek
  split <;> rfl

theorem fread_pos_le (buf : List Nat) (size : Nat) (fp : FILE) :
    fp.pos ≤ (fread buf size fp).2.pos ∧ (fread buf size fp).2.pos ≤ fp.pos + size := by
  simp only [fread, field_length]
  omega

/-- One observation read gives the same result on a file that holds the same bytes at
the position of the read. -/
theorem readObs_sim {i j : Nat} {a b : State} {g : List Nat}
    (hg : field a.inptr.data a.inptr.pos sizeofDataObs = field g a.inptr.pos sizeofDataObs)
    (h : readObs i j a = some b) :
    readObs i j (a.withData g) = some (b.withData g) ∧ b.inptr.data = a.inptr.data ∧
      a.inptr.pos ≤ b.inptr.pos ∧ b.inptr.pos ≤ a.inptr.pos + sizeofDataObs := by
  simp only [readObs, Option.bind_eq_some] at h
  obtain ⟨x, hx, idx, hidx, old, hold, arr, hst, y, hy, arr2, h2, hb⟩ := h
  simp only [Option.some.injEq] at hb
  subst hb
  refine ⟨?_, rfl, (fread_pos_le (leBytes 8 old) sizeofDataObs a.inptr).1,
    (fread_pos_le (leBytes 8 old) sizeofDataObs a.inptr).2⟩
  have hfr : fread (leBytes 8 old) sizeofDataObs (a.withData g).inptr =
      ((fread (leBytes 8 old) sizeofDataObs a.inptr).1,
        ⟨g, (fread (leBytes 8 old) sizeofDataObs a.inptr).2.pos⟩) := fread_congr hg
  simp only [readObs, Option.bind_eq_some]
  refine ⟨x, hx, idx, hidx, old, hold, arr, ?_, y, hy, arr2, h2, ?_⟩
  · rw [hfr]
    exact hst
  · rw [hfr]
    rfl

theorem field_sub_congr {f g : List Nat} {p n a b : Nat}
    (h : field f p n = field g p n) (hab : a + b ≤ n) :
    field f (p + a) b = field g (p + a) b := by
  rw [← field_field hab, ← field_field hab, h]

/-- The loop of lines 180-191 gives the same result on a file that holds the same bytes
in the data block it reads. -/
theorem obsLoop_sim {i n m dp c0 : Nat} {s t : State} {g : List Nat}
    (hpos : s.inptr.pos = dp + c0) (hc0 : c0 ≤ sizeofDataBlock) (hn : n ≤ m)
    (hblk : field s.inptr.data dp (sizeofDataBlock + sizeofDataObs * m)
      = field g dp (sizeofDataBlock + sizeofDataObs * m))
    (h : forLoop (readObs i) n 0 s = some t) :
    forLoop (readObs i) n 0 (s.withData g) = some (t.withData g) := by
  have hstep : ∀ j a a' b, 0 ≤ j → j < 0 + n →
      (a' = a.withData g ∧ a.inptr.data = s.inptr.data ∧
        ∃ c, a.inptr.pos = dp + c ∧ c ≤ sizeofDataBlock + sizeofDataObs * j) →
      readObs i j a = some b →
      ∃ b', readObs i j a' = some b' ∧ (b' = b.withData g ∧ b.inptr.data = s.inptr.data ∧
        ∃ c, b.inptr.pos = dp + c ∧ c ≤ sizeofDataBlock + sizeofDataObs * (j + 1)) := by
    intro j a a' b _ hj hRa hb
    obtain ⟨rfl, hd, c, hc1, hc2⟩ := hRa
    have hg : field a.inptr.data a.inptr.pos sizeofDataObs
        = field g a.inptr.pos sizeofDataObs := by
      rw [hd, hc1]
      refine field_sub_congr hblk ?_
      have : sizeofDataObs * (j + 1) ≤ sizeofDataObs * m := Nat.mul_le_mul_left _ (by omega)
      rw [Nat.mul_add] at this
      omega
    obtain ⟨h1, h2, h3, h4⟩ := readObs_sim hg hb
    refine ⟨b.withData g, h1, rfl, h2.trans hd, b.inptr.pos - dp, by omega, ?_⟩
    rw [Nat.mul_add]
    omega
  obtain ⟨t', ht', hR, -, -⟩ := forLoop_sim (readObs i)
    (fun j a a' => a' = a.withData g ∧ a.inptr.data = s.inptr.data ∧
      ∃ c, a.inptr.pos = dp + c ∧ c ≤ sizeofDataBlock + sizeofDataObs * j)
    n 0 s (s.withData g) t hstep ⟨rfl, rfl, c0, hpos, by omega⟩ h
  rw [ht', hR]

/-- One iteration of the loop over the variables gives the same result on a file `g`
that holds the same bytes in the entry read and, when the entry is a variable of
interest, in its data block. -/
theorem varBody_sim {env : Env} {f g : List Nat} {t u : State} {k : Nat}
    (hdata : t.inptr.data = f) (he : HasEntry env f k) (h26 : hlenOf env f + 26 ≤ INT_MAX)
    (hk : (k : Int) ≤ INT_MAX)
    (hent : field f (entryPos env f k) sizeofVarInfo = field g (entryPos env f k) sizeofVarInfo)
    (hblk : ¬ Excluded (entry env f k) → 0 ≤ viDataPos (entry env f k) ∧
      field f (viDataPos (entry env f k)).toNat
          (sizeofDataBlock + sizeofDataObs * t.outstruct.NumObs.toNat)
        = field g (viDataPos (entry env f k)).toNat
          (sizeofDataBlock + sizeofDataObs * t.outstruct.NumObs.toNat))
    (h : varBody (hlenOf env f) k t = some u) :
    varBody (hlenOf env f) k (t.withData g) = some (u.withData g) := by
  simp only [varBody, Option.bind_eq_some] at h
  obtain ⟨off, hoff, len, hlen', lengths, hst, s2, hs2, hrest⟩ := h
  obtain ⟨-, hsp, hvi, hl70, -⟩ := viAfter_entry hdata he h26 hk hoff
  have hsd : (fseek t.inptr off).data = f := by rw [fseek_data, hdata]
  have hfs1 : (fseek (t.withData g).inptr off).pos = (fseek t.inptr off).pos := by
    have e : fseek (t.withData g).inptr off = ⟨g, (fseek t.inptr off).pos⟩ :=
      fseek_withData t.inptr g off
    rw [e]
  have hfr1 : fread (t.withData g).vi sizeofVarInfo (fseek (t.withData g).inptr off) =
      ((fread t.vi sizeofVarInfo (fseek t.inptr off)).1,
        ⟨g, (fread t.vi sizeofVarInfo (fseek t.inptr off)).2.pos⟩) := by
    have e : fseek (t.withData g).inptr off = ⟨g, (fseek t.inptr off).pos⟩ :=
      fseek_withData t.inptr g off
    rw [e]
    refine fread_congr ?_
    rw [hsd]
    have : (fseek t.inptr off).pos = entryPos env f k := hsp
    rw [this]
    exact hent
  have hnames := forLoop_map (storeNameChar k (len : Int)) (·.withData g)
    (storeNameChar_withData k (len : Int) g) 32 0
  simp only [varBody, Option.bind_eq_some]
  refine ⟨off, hoff, len, ?_, lengths, hst, s2.withData g, ?_, ?_⟩
  · rw [hfr1]
    exact hlen'
  · rw [hfr1, hfs1]
    have := hnames
      { t with
        inptr := (fread t.vi sizeofVarInfo (fseek t.inptr off)).2
        vi := (fread t.vi sizeofVarInfo (fseek t.inptr off)).1
        log := t.log ++ [Event.fseek off, Event.fread (fseek t.inptr off).pos sizeofVarInfo
          ((fread t.vi sizeofVarInfo (fseek t.inptr off)).2.pos - (fseek t.inptr off).pos)]
        outstruct := { t.outstruct with VarLengths := lengths } }
    rw [hs2] at this
    exact this
  · have hs2' := namesLoop_some 32 hs2
    have hin2 : s2.inptr = (fread t.vi sizeofVarInfo (fseek t.inptr off)).2 := by
      rw [hs2']; rfl
    have hobs2 : s2.outstruct.NumObs = t.outstruct.NumObs := by rw [hs2']; rfl
    have hstr : isStructural (fread t.vi sizeofVarInfo (fseek t.inptr off)).1
        = isStructural (entry env f k) := by
      have : (fread t.vi sizeofVarInfo (fseek t.inptr off)).1 = viAfter t off := rfl
      rw [this, hvi, isStructural_append hl70]
    rw [hfr1]
    split at hrest
    · next hc =>
      simp only [Option.bind_eq_some] at hrest
      obtain ⟨nv, hnv, hloop⟩ := hrest
      rw [if_pos hc]
      simp only [Option.bind_eq_some]
      refine ⟨nv, hnv, ?_⟩
      have := forLoop_map (storeStructural k) (·.withData g) (storeStructural_withData k g)
        s2.outstruct.NumObs.toNat 0
        { s2 with outstruct := { s2.outstruct with NumVars := nv } }
      rw [hloop] at this
      exact this
    · next hc =>
      rw [if_neg hc]
      have hne : ¬ Excluded (entry env f k) := by
        rw [← isStructural_eq_false_iff, ← hstr]
        simpa using hc
      obtain ⟨hdp0, hb⟩ := hblk hne
      have hdp : viDataPos (fread t.vi sizeofVarInfo (fseek t.inptr off)).1
          = viDataPos (entry env f k) := by
        have : (fread t.vi sizeofVarInfo (fseek t.inptr off)).1 = viAfter t off := rfl
        rw [this, hvi, viDataPos_append hl70]
      have hs2d : s2.inptr.data = f := by
        rw [hin2, fread_data, hsd]
      have hfs2 : (fseek (s2.withData g).inptr
          (viDataPos (fread t.vi sizeofVarInfo (fseek t.inptr off)).1)).pos
          = (fseek s2.inptr (viDataPos (fread t.vi sizeofVarInfo (fseek t.inptr off)).1)).pos := by
        have e := fseek_withData s2.inptr g
          (viDataPos (fread t.vi sizeofVarInfo (fseek t.inptr off)).1)
        have e' : (s2.withData g).inptr = ⟨g, s2.inptr.pos⟩ := rfl
        rw [e', e]
      have hpos2 : (fseek s2.inptr
          (viDataPos (fread t.vi sizeofVarInfo (fseek t.inptr off)).1)).pos
          = (viDataPos (entry env f k)).toNat := by
        rw [fseek_pos_of_nonneg (by rw [hdp]; exact hdp0), hdp]
      have hfr2 : fread (s2.withData g).db sizeofDataBlock (fseek (s2.withData g).inptr
            (viDataPos (fread t.vi sizeofVarInfo (fseek t.inptr off)).1)) =
          ((fread s2.db sizeofDataBlock (fseek s2.inptr
              (viDataPos (fread t.vi sizeofVarInfo (fseek t.inptr off)).1))).1,
            ⟨g, (fread s2.db sizeofDataBlock (fseek s2.inptr
              (viDataPos (fread t.vi sizeofVarInfo (fseek t.inptr off)).1))).2.pos⟩) := by
        have e := fseek_withData s2.inptr g
          (viDataPos (fread t.vi sizeofVarInfo (fseek t.inptr off)).1)
        have e' : (s2.withData g).inptr = ⟨g, s2.inptr.pos⟩ := rfl
        rw [e', e]
        refine fread_congr ?_
        rw [fseek_data, hs2d, hpos2]
        have := @field_sub_congr f g (viDataPos (entry env f k)).toNat _ 0 sizeofDataBlock hb
          (by omega)
        simpa using this
      rw [hfr2, hfs2]
      have hle := fread_pos_le s2.db sizeofDataBlock (fseek s2.inptr
          (viDataPos (fread t.vi sizeofVarInfo (fseek t.inptr off)).1))
      rw [hpos2] at hle
      have hsim := @obsLoop_sim k s2.outstruct.NumObs.toNat t.outstruct.NumObs.toNat
        (viDataPos (entry env f k)).toNat
        ((fread s2.db sizeofDataBlock (fseek s2.inptr
              (viDataPos (fread t.vi sizeofVarInfo (fseek t.inptr off)).1))).2.pos
            - (viDataPos (entry env f k)).toNat)
        _ u g ?_ ?_ ?_ ?_ hrest
      · simp only [State.withData] at hsim ⊢
        exact hsim
      · show (fread s2.db sizeofDataBlock (fseek s2.inptr
          (viDataPos (fread t.vi sizeofVarInfo (fseek t.inptr off)).1))).2.pos = _
        omega
      · omega
      · rw [hobs2]
      · show field (fread s2.db sizeofDataBlock (fseek s2.inptr
          (viDataPos (fread t.vi sizeofVarInfo (fseek t.inptr off)).1))).2.data _ _ = _
        rw [fread_data, fseek_data, hs2d]
        exact hb

theorem fgetsChars_take (n : Nat) (l : List Nat) : fgetsChars n (l.take n) = fgetsChars n l := by
  induction n generalizing l with
  | zero => simp [fgetsChars]
  | succ n ih =>
    cases l with
    | nil => simp [fgetsChars]
    | cons b bs =>
      simp only [List.take_succ_cons, fgetsChars, ih]

theorem field_zero (f : List Nat) (n : Nat) : field f 0 n = f.take n := by
  simp [field]

/-- The loop over the variables gives the same result on a file that agrees with `f` on
what is read. -/
theorem varLoop_sim {env : Env} {f g : List Nat} {s : State}
    (h26 : hlenOf env f + 26 ≤ INT_MAX) (hG : globOf env f ≤ INT_MAX)
    (hw : WellPlaced env f) (hag : AgreeOnRead env f g)
    (h : forLoop (varBody (hlenOf env f)) (globOf env f).toNat 0 (startState env f) = some s) :
    forLoop (varBody (hlenOf env f)) (globOf env f).toNat 0 ((startState env f).withData g)
      = some (s.withData g) := by
  have hstep : ∀ j a a' b, 0 ≤ j → j < 0 + (globOf env f).toNat →
      (a' = a.withData g ∧ Keeps (startState env f) a) →
      varBody (hlenOf env f) j a = some b →
      ∃ b', varBody (hlenOf env f) j a' = some b' ∧
        (b' = b.withData g ∧ Keeps (startState env f) b) := by
    intro j a a' b _ hj hR hb
    obtain ⟨rfl, hK⟩ := hR
    have hjG : (j : Int) < globOf env f := by omega
    have hdata : a.inptr.data = f := by rw [hK.data, startState_data]
    have hobs : a.outstruct.NumObs = obsOf env f := hK.obs
    obtain ⟨off, len, -, hv⟩ := varBody_some hb
    refine ⟨b.withData g, ?_, rfl, Keeps.trans hK hv.keeps⟩
    refine varBody_sim hdata (hw.entries j hjG) h26 (by omega) (hag.entries j hjG) ?_ hb
    intro hne
    rw [hobs]
    exact ⟨hw.blocks j hjG hne, hag.blocks j hjG hne⟩
  obtain ⟨t', ht', hR, -⟩ := forLoop_sim (varBody (hlenOf env f))
    (fun _ a a' => a' = a.withData g ∧ Keeps (startState env f) a)
    (globOf env f).toNat 0 (startState env f) ((startState env f).withData g) s hstep
    ⟨rfl, Keeps.refl _⟩ h
  rw [ht', hR]

/-- A successful parse depends only on the bytes it reads: a file that agrees with `f`
on the header, the directory and the data blocks of the variables of interest gives the
very same result, flag and log. -/
theorem read_wf1_agree {env : Env} {infile : String} {r : Run} {f g : List Nat}
    (h : read_wf1 env infile = some r) (hs : r.ret.success = true)
    (hf : env.fopen infile = some f) (hw : WellPlaced env f) (hag : AgreeOnRead env f g) :
    read_wf1 (env.withFile g) infile = some r := by
  obtain ⟨s, hp, hG1, hG2, -, h26, hm, hloop, rfl⟩ := read_wf1_success_of h hs hf
  have htake : g.take 21 = f.take 21 := by
    have := congrArg (List.take 21) hag.header
    simp only [field_zero, List.take_take, sizeofHeader] at this
    simpa using this.symm
  have hchars : fgetsChars 21 g = fgetsChars 21 f := by
    rw [← fgetsChars_take 21 g, htake, fgetsChars_take]
  have hfg : fgets (env.word.take 21 ++ [0]) 22 ⟨g, 0⟩ =
      ((fgets (env.word.take 21 ++ [0]) 22 ⟨f, 0⟩).1,
        ⟨g, (fgets (env.word.take 21 ++ [0]) 22 ⟨f, 0⟩).2.pos⟩) := by
    simp only [fgets, List.drop_zero, hchars]
    split <;> rfl
  have hfr : fread env.vh sizeofHeader ⟨g, 0⟩ =
      ((fread env.vh sizeofHeader ⟨f, 0⟩).1, ⟨g, (fread env.vh sizeofHeader ⟨f, 0⟩).2.pos⟩) :=
    @fread_congr env.vh sizeofHeader ⟨f, 0⟩ g hag.header
  have hword : wordOf (env.withFile g) g = wordOf env f := by
    show (fgets (env.word.take 21 ++ [0]) 22 ⟨g, 0⟩).1 = _
    rw [hfg]
    rfl
  have hhead : headerOf (env.withFile g) g = headerOf env f := by
    show (fread env.vh sizeofHeader ⟨g, 0⟩).1 = _
    rw [hfr]
    rfl
  have hhl : hlenOf (env.withFile g) g = hlenOf env f := by
    unfold hlenOf; rw [hhead]
  have hgl : globOf (env.withFile g) g = globOf env f := by
    unfold globOf; rw [hhead]
  have hob : obsOf (env.withFile g) g = obsOf env f := by
    unfold obsOf; rw [hhead]
  have hstart : startState (env.withFile g) g = (startState env f).withData g := by
    unfold startState startOut startLog
    rw [hhl, hgl, hob]
    show ({ inptr := fseek (fread env.vh sizeofHeader ⟨g, 0⟩).2 (hlenOf env f + 26),
            vi := env.vi, db := env.db, flag := env.flag,
            outstruct := _,
            log := [Event.fopen true,
              Event.fgets 0 (fgets (env.word.take 21 ++ [0]) 22 ⟨g, 0⟩).2.pos, Event.rewind,
              Event.fread 0 sizeofHeader (fread env.vh sizeofHeader ⟨g, 0⟩).2.pos,
              Event.fseek (hlenOf env f + 26)] } : State) = _
    rw [hfr, hfg]
    simp only [State.withData]
    have e := fseek_withData (fread env.vh sizeofHeader ⟨f, 0⟩).2 g (hlenOf env f + 26)
    rw [e]
    rfl
  have hp' : PassesChecks (env.withFile g) infile g :=
    ⟨hp.ext, rfl, by unfold signatureOk; rw [hword]; exact hp.sig⟩
  rw [read_wf1_eq_loop hp' (by rw [hgl]; exact hG1) (by rw [hgl]; exact hG2)
    (by rw [hhl]; exact h26) hm, hhl, hgl, hstart, varLoop_sim h26 hG2 hw hag hloop]
  rfl

theorem field_eq_of_differsOnlyIn {f g : List Nat} {lo hi p n : Nat}
    (hd : DiffersOnlyIn f g lo hi) (ha : Apart lo hi p n) : field f p n = field g p n := by
  apply List.ext_getElem?
  intro k
  unfold field
  rw [List.getElem?_take, List.getElem?_take]
  by_cases hk : k < n
  · rw [if_pos hk, if_pos hk, List.getElem?_drop, List.getElem?_drop]
    refine (hd (p + k) ?_).symm
    unfold Apart at ha
    omega
  · rw [if_neg hk, if_neg hk]

theorem differsOnlyIn_of_take_drop {f g : List Nat} {lo hi : Nat}
    (h1 : g.take lo = f.take lo) (h2 : g.drop hi = f.drop hi) : DiffersOnlyIn f g lo hi := by
  intro p hp
  rcases hp with hp | hp
  · rw [← List.getElem?_take_of_lt hp, h1, List.getElem?_take_of_lt hp]
  · have e : hi + (p - hi) = p := by omega
    have hg := List.getElem?_drop g hi (p - hi)
    have hf := List.getElem?_drop f hi (p - hi)
    rw [e] at hg hf
    rw [← hg, ← hf, h2]

/-! ## The three constants -/

/-- The pattern `STRUCTURAL` is the double -99999: negative, with magnitude
`(2 ^ 52 + fraction) / 2 ^ (1075 - exponent) = 99999`. -/
theorem STRUCTURAL_value :
    signBit STRUCTURAL = 1 ∧ expField STRUCTURAL ≤ 1075 ∧
      2 ^ 52 + fracField STRUCTURAL = 99999 * 2 ^ (1075 - expField STRUCTURAL) := by
  decide

/-- The pattern `NODATA` is the double -100000. -/
theorem NODATA_value :
    signBit NODATA = 1 ∧ expField NODATA ≤ 1075 ∧
      2 ^ 52 + fracField NODATA = 100000 * 2 ^ (1075 - expField NODATA) := by
  decide

/-- The pattern `MISSING` is the double nearest to `10 ^ (-37)`: it is positive and
normal, and with `m = 2 ^ 52 + fraction` and `s = 1075 - exponent`, the distance between
`m / 2 ^ s` and `1 / 10 ^ 37` is at most half a unit in the last place, `1 / 2 ^ (s + 1)`;
that is, `2 * |m * 10 ^ 37 - 2 ^ s| ≤ 10 ^ 37`. -/
theorem MISSING_value :
    signBit MISSING = 0 ∧ 0 < expField MISSING ∧ expField MISSING ≤ 1075 ∧
      2 * ((2 ^ 52 + fracField MISSING) * 10 ^ 37 - 2 ^ (1075 - expField MISSING)) ≤ 10 ^ 37 ∧
      2 * (2 ^ (1075 - expField MISSING) - (2 ^ 52 + fracField MISSING) * 10 ^ 37) ≤ 10 ^ 37 := by
  decide

theorem sentinels_distinct :
    STRUCTURAL ≠ NODATA ∧ isNaN STRUCTURAL = false ∧ isNaN NODATA = false ∧
      dEq STRUCTURAL MISSING = false ∧ dEq NODATA MISSING = false := by
  decide

/-! ## The name table -/

theorem strlen_append_zero {name : List Nat} (rest : List Nat) (h : ∀ b ∈ name, b ≠ 0) :
    strlen (name ++ 0 :: rest) = some name.length := by
  induction name with
  | nil => simp [strlen]
  | cons x xs ih =>
    have hx : x ≠ 0 := h x (List.mem_cons_self _ _)
    have hxs := ih (fun b hb => h b (List.mem_cons_of_mem _ hb))
    simp [strlen, hx, hxs]

theorem field_split (b : List Nat) (o n m : Nat) :
    field b o (n + m) = field b o n ++ field b (o + n) m := by
  unfold field
  rw [List.take_add, List.drop_drop]

/-- Name-table round trip for a terminated name: in a successfully parsed file, if the
32-byte name field of entry `i` holds the `k ≤ 32` non-zero bytes of `name` followed by
zeros, and, when `k = 32`, the byte after the field (the first byte of the history
pointer) is zero, then `VarLengths[i] = k`, the first `k` bytes of slot `i` of the name
table are those of the name, and the others are zero. -/
theorem name_round_trip (env : Env) (infile : String) (r : Run) (f : List Nat)
    (h : read_wf1 env infile = some r) (hs : r.ret.success = true)
    (hf : env.fopen infile = some f)
    (i : Nat) (hi : (i : Int) < r.ret.GlobNumVars) (he : HasEntry env f i)
    (name : List Nat) (hk : name.length ≤ 32) (hnz : ∀ b ∈ name, b ≠ 0)
    (hfield : field (entry env f i) 22 32 = name ++ zeros (32 - name.length))
    (hterm : name.length = 32 → field (entry env f i) 54 1 = [0]) :
    r.ret.VarLengths.mem i = (name.length : Int) ∧
      ∀ j, j < 32 → r.ret.VarNames.mem (32 * i + j) =
        if j < name.length then name.getD j 0 else 0 := by
  obtain ⟨len, hlen, hL, hN, -, -⟩ := success_row h hs hf hi he
  have hsplit : viVarName (entry env f i)
      = field (entry env f i) 22 32 ++ field (entry env f i) 54 16 :=
    field_split (entry env f i) 22 32 16
  have hstr : strlen (viVarName (entry env f i)) = some name.length := by
    rw [hsplit, hfield]
    by_cases hlt : name.length < 32
    · have hz : zeros (32 - name.length) = 0 :: zeros (31 - name.length) := by
        unfold zeros
        have : 32 - name.length = (31 - name.length) + 1 := by omega
        rw [this, List.replicate_succ]
      rw [hz, List.append_assoc, List.cons_append]
      exact strlen_append_zero _ hnz
    · have h32 : name.length = 32 := by omega
      have hz : zeros (32 - name.length) = [] := by
        unfold zeros
        rw [h32]
        rfl
      have h16 : field (entry env f i) 54 16
          = field (entry env f i) 54 1 ++ field (entry env f i) 55 15 :=
        field_split (entry env f i) 54 1 15
      rw [hz, List.append_nil, h16, hterm h32]
      exact strlen_append_zero _ hnz
  have hlen' : len = name.length := by
    rw [hstr] at hlen
    exact (Option.some.inj hlen).symm
  subst hlen'
  refine ⟨hL, fun j hj => ?_⟩
  rw [hN j hj]
  unfold viVarNameAt
  rw [hfield]
  by_cases hjk : j < name.length
  · rw [if_pos hjk, if_pos hjk, List.getD_append _ _ _ _ hjk]
  · rw [if_neg hjk, if_neg hjk]

/-! ## The signature test -/

theorem fgetsChars_eq_take (n : Nat) (l : List Nat) :
    fgetsChars n l = l.take (fgetsChars n l).length ∧ (fgetsChars n l).length ≤ n := by
  induction n generalizing l with
  | zero => simp [fgetsChars]
  | succ n ih =>
    cases l with
    | nil => simp [fgetsChars]
    | cons b bs =>
      simp only [fgetsChars]
      split
      · simp
      · obtain ⟨h1, h2⟩ := ih bs
        refine ⟨?_, by simpa using h2⟩
        simp only [List.length_cons, List.take_succ_cons]
        rw [← h1]

theorem fgetsChars_ne_nil {n : Nat} {l : List Nat} (hl : l ≠ []) : fgetsChars (n + 1) l ≠ [] := by
  cases l with
  | nil => exact absurd rfl hl
  | cons b bs =>
    simp only [fgetsChars]
    split <;> simp

theorem takeWhile_append_zero (a r : List Nat) :
    (a ++ 0 :: r).takeWhile (· ≠ 0) = a.takeWhile (· ≠ 0) := by
  induction a with
  | nil => simp [List.takeWhile]
  | cons x xs ih =>
    have ih' : List.takeWhile (fun x => decide (x ≠ 0)) (xs.append (0 :: r))
        = List.takeWhile (fun x => decide (x ≠ 0)) xs := ih
    simp only [List.cons_append, List.takeWhile]
    rw [ih']

theorem takeWhile_eq_self_of_length {l : List Nat} {p : Nat → Bool}
    (h : l.length ≤ (l.takeWhile p).length) : l.takeWhile p = l := by
  induction l with
  | nil => rfl
  | cons x xs ih =>
    simp only [List.takeWhile] at h ⊢
    cases hp : p x with
    | false => rw [hp] at h; simp at h
    | true =>
      rw [hp] at h
      simp only [List.length_cons, Nat.add_le_add_iff_right] at h
      rw [ih h]

/-- The signature test on a non-empty file: it passes exactly when the first 21 bytes of
the file are the signature. -/
theorem signatureOk_iff (env : Env) {f : List Nat} (hf : f ≠ []) :
    signatureOk env f ↔ f.take 21 = signature := by
  have hsig : signature.takeWhile (· ≠ 0) = signature := by decide
  have hlen : signature.length = 21 := by decide
  have hgot : fgetsChars 21 f ≠ [] := fgetsChars_ne_nil hf
  have hword : wordOf env f =
      fgetsChars 21 f ++ 0 :: (env.word.take 21 ++ [0]).drop ((fgetsChars 21 f).length + 1) := by
    unfold wordOf fgets
    simp only [List.drop_zero, Nat.add_one_sub_one]
    rw [if_neg (by simpa using hgot)]
  unfold signatureOk
  rw [strcmp_eq_zero_iff, hword, takeWhile_append_zero, hsig]
  obtain ⟨h1, h2⟩ := fgetsChars_eq_take 21 f
  constructor
  · intro h
    have hl : ((fgetsChars 21 f).takeWhile (· ≠ 0)).length = 21 := by rw [h, hlen]
    have hfull : (fgetsChars 21 f).takeWhile (· ≠ 0) = fgetsChars 21 f :=
      takeWhile_eq_self_of_length (by omega)
    rw [hfull] at h hl
    rw [hl] at h1
    rw [← h1, h]
  · intro h
    have hg : fgetsChars 21 f = signature := by
      rw [← fgetsChars_take, h]
      decide
    rw [hg, hsig]

/-- A non-empty file that does not start with the signature is rejected right after the
`fgets`: the result has `success = false`, and nothing but the first line of the file
(at most 21 bytes) has been read. -/
theorem read_wf1_wrong_signature (env : Env) (infile : String) (f : List Nat)
    (hx : extensionOk infile) (ho : env.fopen infile = some f) (hf : f ≠ [])
    (hs : f.take 21 ≠ signature) :
    read_wf1 env infile =
      some ⟨{ env.outstruct with success := false }, env.flag,
        [Event.fopen true, Event.fgets 0 (fgets (env.word.take 21 ++ [0]) 22 ⟨f, 0⟩).2.pos,
          Event.stderr Msg.notCompatible]⟩ := by
  obtain ⟨ext, h1, h2⟩ := hx
  have hne : strcmp (fgets (env.word.take 21 ++ [0]) 22 ⟨f, 0⟩).1
      (cstr "New MicroTSP Workfile") ≠ 0 := by
    intro hz
    exact hs ((signatureOk_iff env hf).1 hz)
  simp only [read_wf1, h1, h2, ho, hne, ne_eq, not_true_eq_false, not_false_eq_true,
    if_true, if_false]
  rfl

/-! ## The extension test -/

theorem strrchr_none {l : List Nat} {c : Nat} (h : c ∉ l) : strrchr l c = none := by
  induction l with
  | nil => rfl
  | cons x xs ih =>
    have hx : x ≠ c := fun e => h (e ▸ List.mem_cons_self _ _)
    have hxs : c ∉ xs := fun m => h (List.mem_cons_of_mem _ m)
    simp [strrchr, ih hxs, hx]

theorem strrchr_append {pre tl : List Nat} {c : Nat} (h : c ∉ tl) :
    strrchr (pre ++ c :: tl) c = some (c :: tl) := by
  induction pre with
  | nil => simp [strrchr, strrchr_none h]
  | cons x xs ih => simp [strrchr, ih]

theorem strrchr_some {l ext : List Nat} {c : Nat} (h : strrchr l c = some ext) :
    ∃ pre tl, l = pre ++ ext ∧ ext = c :: tl ∧ c ∉ tl := by
  induction l with
  | nil => simp [strrchr] at h
  | cons x xs ih =>
    simp only [strrchr] at h
    cases hr : strrchr xs c with
    | some r =>
      rw [hr] at h
      simp only [Option.some.injEq] at h
      subst h
      obtain ⟨pre, tl, h1, h2, h3⟩ := ih hr
      exact ⟨x :: pre, tl, by rw [h1]; rfl, h2, h3⟩
    | none =>
      rw [hr] at h
      simp only at h
      split at h
      · next hx =>
        simp only [Option.some.injEq] at h
        subst h
        subst hx
        refine ⟨[], xs, rfl, rfl, ?_⟩
        intro hm
        obtain ⟨pre, tl, hm'⟩ := List.append_of_mem hm
        rw [hm'] at hr
        by_cases hc : x ∈ tl
        · obtain ⟨a, b, hab⟩ := List.append_of_mem hc
          have : strrchr (pre ++ x :: tl) x ≠ none := by
            clear hr hm' hm
            induction pre with
            | nil =>
              simp only [List.nil_append, strrchr]
              cases strrchr tl x <;> simp
            | cons y ys ih2 =>
              simp only [List.cons_append, strrchr]
              cases hq : strrchr (ys ++ x :: tl) x with
              | none => exact absurd hq ih2
              | some q => simp
          exact this hr
        · rw [strrchr_append hc] at hr
          simp at hr
      · simp at h

theorem takeWhile_ne_zero_of_not_mem {l : List Nat} (h : 0 ∉ l) :
    l.takeWhile (· ≠ 0) = l := by
  rw [List.takeWhile_eq_self_iff]
  intro x hx
  have : x ≠ 0 := fun e => h (e ▸ hx)
  simpa using this

/-- The extension test, for a path that contains no zero byte: it passes exactly when
the path ends in ".wf1" (and a path that passes contains a dot). -/
theorem extensionOk_iff (infile : String) (h0 : 0 ∉ cstr infile) :
    extensionOk infile ↔ ∃ pre, cstr infile = pre ++ cstr ".wf1" := by
  have hw : (cstr ".wf1").takeWhile (· ≠ 0) = cstr ".wf1" := by decide
  constructor
  · rintro ⟨ext, h1, h2⟩
    obtain ⟨pre, tl, hp, -, -⟩ := strrchr_some h1
    have hext : 0 ∉ ext := fun m => h0 (by rw [hp]; exact List.mem_append_right _ m)
    rw [strcmp_eq_zero_iff, takeWhile_ne_zero_of_not_mem hext, hw] at h2
    exact ⟨pre, by rw [hp, h2]⟩
  · rintro ⟨pre, hp⟩
    refine ⟨cstr ".wf1", ?_, by decide⟩
    rw [hp]
    exact @strrchr_append pre [119, 102, 49] 46 (by decide)

/-- A path that does not end in ".wf1" but contains a dot is rejected before the file is
opened: the result has `success = false` and the log holds the diagnostic only. -/
theorem read_wf1_wrong_extension (env : Env) (infile : String) (h0 : 0 ∉ cstr infile)
    (hdot : 46 ∈ cstr infile) (hext : ¬ ∃ pre, cstr infile = pre ++ cstr ".wf1") :
    read_wf1 env infile =
      some ⟨{ env.outstruct with success := false }, env.flag, [Event.stderr Msg.cannotHandle]⟩ := by
  cases hs : strrchr (cstr infile) 46 with
  | none =>
    exfalso
    obtain ⟨a, b, hab⟩ := List.append_of_mem hdot
    have : strrchr (cstr infile) 46 ≠ none := by
      rw [hab]
      clear hab hs hext h0 hdot
      induction a with
      | nil =>
        simp only [List.nil_append, strrchr]
        cases strrchr b 46 <;> simp
      | cons y ys ih =>
        simp only [List.cons_append, strrchr]
        cases hq : strrchr (ys ++ 46 :: b) 46 with
        | none => exact absurd hq ih
        | some q => simp
    exact this hs
  | some ext =>
    have hne : strcmp ext (cstr ".wf1") ≠ 0 := by
      intro hz
      exact hext ((extensionOk_iff infile h0).1 ⟨ext, hs, hz⟩)
    simp only [read_wf1, hs, hne, ne_eq, not_false_eq_true, if_true]

/-! ## Runs that are defined -/

theorem forLoop_progress {σ : Type} (body : Nat → σ → Option σ) (P : Nat → σ → Prop) :
    ∀ (n k0 : Nat) (s : σ),
      (∀ k t, k0 ≤ k → k < k0 + n → P k t → ∃ t', body k t = some t' ∧ P (k + 1) t') →
      P k0 s → ∃ s', forLoop body n k0 s = some s' ∧ P (k0 + n) s' := by
  intro n
  induction n with
  | zero =>
    intro k0 s _ h0
    exact ⟨s, rfl, by simpa using h0⟩
  | succ n ih =>
    intro k0 s hstep h0
    obtain ⟨t, hb, hP⟩ := hstep k0 s (le_refl _) (by omega) h0
    obtain ⟨s', hs', hP'⟩ :=
      ih (k0 + 1) t (fun k u hk1 hk2 => hstep k u (by omega) (by omega)) hP
    refine ⟨s', ?_, ?_⟩
    · simp only [forLoop, hb, Option.some_bind]
      exact hs'
    · have e : k0 + 1 + n = k0 + (n + 1) := by omega
      rwa [e] at hP'

theorem cellIndex_eq {M : Int} {i j : Nat} (hM : 0 ≤ M) (hmax : (i : Int) * M + j ≤ INT_MAX) :
    cellIndex M i j = some ((i : Int) * M + j) := by
  have h0 : 0 ≤ (i : Int) * M := Int.mul_nonneg (Int.ofNat_nonneg i) hM
  unfold cellIndex
  rw [i32_of_range (by unfold INT_MIN; omega) (by omega)]
  simp only [Option.some_bind]
  exact i32_of_range (by unfold INT_MIN; omega) hmax

/-- The store of line 156 goes through the index expression. -/
theorem storeStructural_cellIndex (i j : Nat) (s : State) :
    storeStructural i j s = (cellIndex s.outstruct.NumObs i j).bind fun idx =>
      (s.outstruct.DataArray.store idx STRUCTURAL).map fun arr =>
        { s with outstruct := { s.outstruct with DataArray := arr } } := by
  unfold storeStructural cellIndex
  cases i32 ((i : Int) * s.outstruct.NumObs) with
  | none => rfl
  | some a =>
    simp only [Option.some_bind]
    cases i32 (a + (j : Int)) with
    | none => rfl
    | some idx =>
      simp only [Option.some_bind]
      cases s.outstruct.DataArray.store idx STRUCTURAL <;> rfl

/-- The accesses of lines 183-189 are defined only if the index is. -/
theorem readObs_cellIndex {i j : Nat} {s : State}
    (h : cellIndex s.outstruct.NumObs i j = none) : readObs i j s = none := by
  unfold cellIndex at h
  unfold readObs
  cases ha : i32 ((i : Int) * s.outstruct.NumObs) with
  | none => rfl
  | some a =>
    rw [ha] at h
    simp only [Option.some_bind] at h ⊢
    rw [h]
    rfl

theorem Buf.store_of_inside {α : Type} (p : Buf α) {idx : Int} (v : α) (hok : p.ok = true)
    (h0 : 0 ≤ idx) (h1 : idx < (p.cap : Int)) :
    p.store idx v = some { p with mem := fun k => if k = idx.toNat then v else p.mem k } := by
  unfold Buf.store
  rw [if_pos ⟨hok, h0, h1⟩]

theorem storeNameChar_progress {i j : Nat} {l : Int} {s : State}
    (hok : s.outstruct.VarNames.ok = true) (hcap : 32 * i + j < s.outstruct.VarNames.cap)
    (hmax : 32 * (i : Int) + j ≤ INT_MAX) :
    ∃ s', storeNameChar i l j s = some s' := by
  unfold storeNameChar
  rw [i32_of_range (by unfold INT_MIN; omega) (by omega)]
  simp only [Option.some_bind]
  rw [i32_of_range (by unfold INT_MIN; omega) hmax]
  simp only [Option.some_bind]
  rw [Buf.store_of_inside _ _ hok (by omega) (by omega)]
  exact ⟨_, rfl⟩

theorem namesLoop_progress {i : Nat} {l : Int} {s : State}
    (hok : s.outstruct.VarNames.ok = true) (hcap : 32 * i + 32 ≤ s.outstruct.VarNames.cap)
    (hmax : 32 * (i : Int) + 31 ≤ INT_MAX) :
    ∃ s', forLoop (storeNameChar i l) 32 0 s = some s' := by
  obtain ⟨s', h, -⟩ := forLoop_progress (storeNameChar i l)
    (fun _ t => t.outstruct.VarNames.ok = true ∧
      t.outstruct.VarNames.cap = s.outstruct.VarNames.cap) 32 0 s
    (fun j t _ hj hP => by
      obtain ⟨t', ht'⟩ := @storeNameChar_progress i j l t hP.1 (by rw [hP.2]; omega) (by omega)
      obtain ⟨rfl, -, -, -⟩ := storeNameChar_some ht'
      exact ⟨_, ht', hP⟩) ⟨hok, rfl⟩
  exact ⟨s', h⟩

theorem storeStructural_progress {i j : Nat} {s : State}
    (hok : s.outstruct.DataArray.ok = true) (hM : 0 ≤ s.outstruct.NumObs)
    (hcap : (i : Int) * s.outstruct.NumObs + j < (s.outstruct.DataArray.cap : Int))
    (hmax : (i : Int) * s.outstruct.NumObs + j ≤ INT_MAX) :
    ∃ s', storeStructural i j s = some s' := by
  have h0 : 0 ≤ (i : Int) * s.outstruct.NumObs := Int.mul_nonneg (Int.ofNat_nonneg i) hM
  rw [storeStructural_cellIndex, cellIndex_eq hM hmax]
  simp only [Option.some_bind]
  rw [Buf.store_of_inside _ _ hok (by omega) hcap]
  exact ⟨_, rfl⟩

theorem structuralLoop_progress {i : Nat} {s : State} (n : Nat)
    (hok : s.outstruct.DataArray.ok = true) (hM : 0 ≤ s.outstruct.NumObs)
    (hcap : (i : Int) * s.outstruct.NumObs + n ≤ (s.outstruct.DataArray.cap : Int))
    (hmax : (i : Int) * s.outstruct.NumObs + n ≤ INT_MAX + 1) :
    ∃ s', forLoop (storeStructural i) n 0 s = some s' := by
  obtain ⟨s', h, -⟩ := forLoop_progress (storeStructural i)
    (fun _ t => t.outstruct.DataArray.ok = true ∧ t.outstruct.NumObs = s.outstruct.NumObs ∧
      t.outstruct.DataArray.cap = s.outstruct.DataArray.cap) n 0 s
    (fun j t _ hj hP => by
      obtain ⟨h1, h2, h3⟩ := hP
      obtain ⟨t', ht'⟩ := @storeStructural_progress i j t h1 (by rw [h2]; exact hM)
        (by rw [h2, h3]; omega) (by rw [h2]; omega)
      obtain ⟨rfl, -, -, -⟩ := storeStructural_some ht' (by rw [h2]; exact hM)
      exact ⟨_, ht', h1, h2, h3⟩) ⟨hok, rfl, rfl⟩
  exact ⟨s', h⟩

theorem readObs_progress {i j : Nat} {s : State}
    (hok : s.outstruct.DataArray.ok = true) (hM : 0 ≤ s.outstruct.NumObs)
    (hcap : (i : Int) * s.outstruct.NumObs + j < (s.outstruct.DataArray.cap : Int))
    (hmax : (i : Int) * s.outstruct.NumObs + j ≤ INT_MAX) :
    ∃ s', readObs i j s = some s' := by
  have h0 : 0 ≤ (i : Int) * s.outstruct.NumObs := Int.mul_nonneg (Int.ofNat_nonneg i) hM
  have hidx : 0 ≤ (i : Int) * s.outstruct.NumObs + j := by omega
  unfold readObs
  rw [i32_of_range (by unfold INT_MIN; omega) (by omega)]
  simp only [Option.some_bind]
  rw [i32_of_range (by unfold INT_MIN; omega) hmax]
  simp only [Option.some_bind]
  simp only [Buf.load, Buf.store, hok, hidx, hcap, and_self, if_true, Option.some_bind]
  split
  · exact ⟨_, rfl⟩
  · exact ⟨_, rfl⟩

theorem obsLoop_progress {i : Nat} {s : State} (n : Nat)
    (hok : s.outstruct.DataArray.ok = true) (hM : 0 ≤ s.outstruct.NumObs)
    (hcap : (i : Int) * s.outstruct.NumObs + n ≤ (s.outstruct.DataArray.cap : Int))
    (hmax : (i : Int) * s.outstruct.NumObs + n ≤ INT_MAX + 1) :
    ∃ s', forLoop (readObs i) n 0 s = some s' := by
  obtain ⟨s', h, -⟩ := forLoop_progress (readObs i)
    (fun _ t => t.outstruct.DataArray.ok = true ∧ t.outstruct.NumObs = s.outstruct.NumObs ∧
      t.outstruct.DataArray.cap = s.outstruct.DataArray.cap) n 0 s
    (fun j t _ hj hP => by
      obtain ⟨h1, h2, h3⟩ := hP
      obtain ⟨t', ht'⟩ := @readObs_progress i j t h1 (by rw [h2]; exact hM)
        (by rw [h2, h3]; omega) (by rw [h2]; omega)
      obtain ⟨old, rfl, -, -, -⟩ := readObs_some ht' (by rw [h2]; exact hM)
      exact ⟨_, ht', h1, h2, h3⟩) ⟨hok, rfl, rfl⟩
  exact ⟨s', h⟩

theorem bind_progress {α β : Type} {x : Option α} {f : α → Option β}
    (h1 : ∃ a, x = some a) (h2 : ∀ a, x = some a → ∃ b, f a = some b) :
    ∃ b, x.bind f = some b := by
  obtain ⟨a, rfl⟩ := h1
  exact h2 a rfl

/-- One iteration of the loop over the variables is defined as soon as the name found in
`vi` is terminated inside the record, the counter can be decremented, and row `i` of each
of the three tables lies inside its block and can be indexed with an `int`. -/
theorem varBody_progress {hlen : Int} {i : Nat} {s : State} {off : Int} {len : Nat}
    (hoff : dirOffset hlen i = some off)
    (hstr : strlen (viVarName (viAfter s off)) = some len)
    (hLok : s.outstruct.VarLengths.ok = true) (hLcap : i < s.outstruct.VarLengths.cap)
    (hNok : s.outstruct.VarNames.ok = true) (hNcap : 32 * i + 32 ≤ s.outstruct.VarNames.cap)
    (hNmax : 32 * (i : Int) + 31 ≤ INT_MAX)
    (hnv1 : INT_MIN ≤ s.outstruct.NumVars - 1) (hnv2 : s.outstruct.NumVars - 1 ≤ INT_MAX)
    (hD : 0 < s.outstruct.NumObs → s.outstruct.DataArray.ok = true ∧
      (i : Int) * s.outstruct.NumObs + s.outstruct.NumObs ≤ (s.outstruct.DataArray.cap : Int) ∧
      (i : Int) * s.outstruct.NumObs + s.outstruct.NumObs ≤ INT_MAX + 1) :
    ∃ t, varBody hlen i s = some t := by
  unfold varBody
  rw [hoff]
  simp only [Option.some_bind]
  have hstr' : strlen (viVarName (fread s.vi sizeofVarInfo (fseek s.inptr off)).1) = some len :=
    hstr
  rw [hstr']
  simp only [Option.some_bind]
  rw [Buf.store_of_inside _ _ hLok (by omega) (by omega)]
  simp only [Option.some_bind]
  refine bind_progress (namesLoop_progress hNok hNcap hNmax) (fun s2 hs2 => ?_)
  have e2 := namesLoop_some 32 hs2
  subst e2
  have hloops : ∀ (body : Nat → Nat → State → Option State) (u : State) (m : Nat),
      m = s.outstruct.NumObs.toNat →
      u.outstruct.NumObs = s.outstruct.NumObs →
      u.outstruct.DataArray = s.outstruct.DataArray →
      (∀ (n : Nat) (v : State), v.outstruct.DataArray.ok = true → 0 ≤ v.outstruct.NumObs →
        (i : Int) * v.outstruct.NumObs + n ≤ (v.outstruct.DataArray.cap : Int) →
        (i : Int) * v.outstruct.NumObs + n ≤ INT_MAX + 1 →
        ∃ v', forLoop (body i) n 0 v = some v') →
      ∃ t, forLoop (body i) m 0 u = some t := by
    intro body u m hm hM hA hprog
    subst hm
    by_cases hpos : 0 < s.outstruct.NumObs
    · obtain ⟨h1, h2, h3⟩ := hD hpos
      have hn : ((s.outstruct.NumObs.toNat : Nat) : Int) = s.outstruct.NumObs := by omega
      exact hprog _ u (by rw [hA]; exact h1) (by rw [hM]; omega)
        (by rw [hn, hM, hA]; exact h2) (by rw [hn, hM]; exact h3)
    · have h0 : s.outstruct.NumObs.toNat = 0 := by omega
      rw [h0]
      exact ⟨u, rfl⟩
  split
  · have hnv : i32 (s.outstruct.NumVars - 1) = some (s.outstruct.NumVars - 1) :=
      i32_of_range hnv1 hnv2
    simp only [State.setNames, hnv, Option.some_bind]
    refine hloops storeStructural _ _ ?_ ?_ ?_
      (fun n v a b c d => structuralLoop_progress n a b c d)
    · rfl
    · rfl
    · rfl
  · refine hloops readObs _ _ ?_ ?_ ?_ (fun n v a b c d => obsLoop_progress n a b c d)
    · rfl
    · rfl
    · rfl

theorem toSizeT_of_nonneg {x : Int} (h0 : 0 ≤ x) (h1 : x < 18446744073709551616) :
    toSizeT x = x.toNat := by
  unfold toSizeT
  omega

/-- The element counts the three blocks are allocated with, for counts that do not wrap
in `size_t`. -/
theorem startOut_caps {env : Env} {f : List Nat} (hG0 : 0 ≤ globOf env f)
    (hG : globOf env f ≤ INT_MAX) :
    (startOut env f).VarNames.cap = 32 * (globOf env f).toNat ∧
      (startOut env f).VarLengths.cap = (globOf env f).toNat ∧
      (0 ≤ obsOf env f → globOf env f * obsOf env f ≤ INT_MAX + 1 →
        ((startOut env f).DataArray.cap : Int) = globOf env f * obsOf env f) := by
  unfold INT_MAX at hG ⊢
  have e1 := toSizeT_of_nonneg hG0 (by omega)
  refine ⟨?_, ?_, ?_⟩
  · show (1 * toSizeT (globOf env f) % 2 ^ 64 * 32) % 2 ^ 64 = _
    rw [e1]
    omega
  · show (4 * toSizeT (globOf env f) % 2 ^ 64) / 4 = _
    rw [e1]
    omega
  · intro hM hGM
    show ((((8 * toSizeT (globOf env f) % 2 ^ 64) * toSizeT (obsOf env f) % 2 ^ 64) / 8 : Nat) : Int)
      = _
    have hMmax : obsOf env f ≤ INT_MAX := (toSigned32_range _).2
    unfold INT_MAX at hMmax
    rw [e1, toSizeT_of_nonneg hM (by omega)]
    obtain ⟨g, hg⟩ := Int.eq_ofNat_of_zero_le hG0
    obtain ⟨m, hm⟩ := Int.eq_ofNat_of_zero_le hM
    rw [hg, hm] at hGM ⊢
    simp only [Int.toNat_ofNat]
    have hgm : g * m ≤ 2147483648 := by exact_mod_cast hGM
    have hg' : g ≤ 2147483647 := by omega
    have e8 : 8 * g % 2 ^ 64 = 8 * g := Nat.mod_eq_of_lt (by omega)
    rw [e8, Nat.mul_assoc]
    have e9 : 8 * (g * m) % 2 ^ 64 / 8 = g * m := by omega
    rw [e9]
    push_cast
    rfl

/-- The counter of the variables of interest along the loop: each iteration takes at most
one off. -/
theorem varLoop_numVars_bounds {hlen : Int} {n k0 : Nat} {s0 s : State}
    (h : forLoop (varBody hlen) n k0 s0 = some s) :
    s0.outstruct.NumVars - (n : Int) ≤ s.outstruct.NumVars ∧
      s.outstruct.NumVars ≤ s0.outstruct.NumVars := by
  have key := forLoop_inv (varBody hlen)
    (fun k t => s0.outstruct.NumVars + (k0 : Int) - (k : Int) ≤ t.outstruct.NumVars ∧
      t.outstruct.NumVars ≤ s0.outstruct.NumVars) n k0 s0 s ?_ ?_ h
  · obtain ⟨h1, h2⟩ := key
    push_cast at h1
    exact ⟨by omega, h2⟩
  · intro k t t' _ _ hP hb
    obtain ⟨off, len, -, hv⟩ := varBody_some hb
    cases hst : isStructural (viAfter t off) with
    | true =>
      rw [(hv.skipped hst).1]
      push_cast
      omega
    | false =>
      rw [(hv.decoded hst).1]
      push_cast
      omega
  · exact ⟨by omega, le_refl _⟩

/-- The loop over the variables runs to its end on every file that holds its whole
directory with terminated names, whatever lies (or is missing) after the directory,
provided the counts are small enough for the `int` indices and the three blocks were
allocated. -/
theorem varLoop_progress {env : Env} {f : List Nat} (n : Nat)
    (hG : globOf env f ≤ 67108864) (hn : (n : Int) ≤ globOf env f)
    (h26 : hlenOf env f + 26 ≤ INT_MAX)
    (hall : ∀ i, i < n →
      HasEntry env f i ∧ (strlen (viVarName (entry env f i))).isSome = true)
    (hm1 : env.mallocVarNames = true) (hm2 : env.mallocVarLengths = true)
    (hm3 : env.mallocDataArray = true)
    (hGM : globOf env f * obsOf env f ≤ INT_MAX + 1) :
    ∃ s, forLoop (varBody (hlenOf env f)) n 0 (startState env f) = some s := by
  have hG0 : 0 ≤ globOf env f := by omega
  obtain ⟨c1, c2, c3⟩ := @startOut_caps env f hG0 (by unfold INT_MAX; omega)
  refine (forLoop_progress (varBody (hlenOf env f))
    (fun k t => Keeps (startState env f) t ∧ globOf env f - (k : Int) ≤ t.outstruct.NumVars ∧
      t.outstruct.NumVars ≤ globOf env f) n 0 (startState env f) ?_
    ⟨Keeps.refl _, by show globOf env f - ((0 : Nat) : Int) ≤ globOf env f; simp,
      le_refl _⟩).imp fun s hs => hs.1
  · intro k t _ hk hP
    obtain ⟨hK, hN1, hN2⟩ := hP
    have hkn : k < n := by omega
    obtain ⟨he, hterm⟩ := hall k hkn
    have hkG : (k : Int) + 1 ≤ globOf env f := by omega
    have hkmax : (k : Int) ≤ INT_MAX := by unfold INT_MAX; omega
    have hoff := @dirOffset_eq (hlenOf env f) k he.base h26 hkmax
    have hdata : t.inptr.data = f := by rw [hK.data, startState_data]
    obtain ⟨-, -, hvi, hl70, -⟩ := viAfter_entry hdata he h26 hkmax hoff
    obtain ⟨len, hlen⟩ := Option.isSome_iff_exists.1 hterm
    have hstr : strlen (viVarName (viAfter t (hlenOf env f + 26 + 70 * (k : Int)))) = some len := by
      rw [hvi, viVarName_append hl70]
      exact hlen
    have hobs : t.outstruct.NumObs = obsOf env f := hK.obs
    obtain ⟨t', ht'⟩ := varBody_progress hoff hstr
      (by rw [hK.lengthsOk]; exact hm2)
      (by rw [hK.lengthsCap]
          show k < (startOut env f).VarLengths.cap
          rw [c2]; omega)
      (by rw [hK.namesOk]; exact hm1)
      (by rw [hK.namesCap]
          show 32 * k + 32 ≤ (startOut env f).VarNames.cap
          rw [c1]; omega)
      (by unfold INT_MAX; omega)
      (by unfold INT_MIN; omega)
      (by unfold INT_MAX; omega)
      (by
        intro hpos
        rw [hobs] at hpos ⊢
        have hle : ((k : Int) + 1) * obsOf env f ≤ globOf env f * obsOf env f :=
          Int.mul_le_mul_of_nonneg_right hkG (by omega)
        have hexp : ((k : Int) + 1) * obsOf env f = (k : Int) * obsOf env f + obsOf env f := by
          ring
        refine ⟨by rw [hK.arrayOk]; exact hm3, ?_, by omega⟩
        rw [hK.arrayCap]
        show _ ≤ (((startOut env f).DataArray.cap : Nat) : Int)
        rw [c3 (by omega) hGM]
        omega)
    obtain ⟨off', len', -, hv⟩ := varBody_some ht'
    refine ⟨t', ht', Keeps.trans hK hv.keeps, ?_⟩
    cases hst : isStructural (viAfter t off') with
    | true =>
      rw [(hv.skipped hst).1]
      push_cast
      omega
    | false =>
      rw [(hv.decoded hst).1]
      push_cast
      omega

/-- A call returns `success = true` on every file that passes the checks and holds its
whole directory with terminated names, whatever lies (or is missing) after the directory,
provided the counts are small enough for the `int` indices and the three blocks were
allocated. -/
theorem read_wf1_returns {env : Env} {infile : String} {f : List Nat}
    (hp : PassesChecks env infile f)
    (hG0 : 0 ≤ globOf env f) (hG : globOf env f ≤ 67108864)
    (h26 : hlenOf env f + 26 ≤ INT_MAX)
    (hall : ∀ i : Nat, (i : Int) < globOf env f →
      HasEntry env f i ∧ (strlen (viVarName (entry env f i))).isSome = true)
    (hm1 : env.mallocVarNames = true) (hm2 : env.mallocVarLengths = true)
    (hm3 : env.mallocDataArray = true)
    (hGM : globOf env f * obsOf env f ≤ INT_MAX + 1) :
    ∃ r, read_wf1 env infile = some r ∧ r.ret.success = true := by
  obtain ⟨s, hs⟩ := @varLoop_progress env f (globOf env f).toNat hG (by omega) h26
    (fun i hi => hall i (by omega)) hm1 hm2 hm3 hGM
  rw [read_wf1_eq_loop hp (by unfold INT_MIN; omega) (by unfold INT_MAX; omega) h26 hm1, hs]
  exact ⟨_, rfl, rfl⟩

/-! ## Indices of the matrix -/

/-- Every store of a completed loop of lines 154-157 went through a non-null pointer, at
an index that did not overflow and lay inside the block. -/
theorem structuralLoop_index {i : Nat} {s s' : State} (n : Nat)
    (h : forLoop (storeStructural i) n 0 s = some s') (hn : n ≤ s.outstruct.NumObs.toNat)
    (j : Nat) (hj : j < n) :
    s.outstruct.DataArray.ok = true ∧
      i * s.outstruct.NumObs.toNat + j < s.outstruct.DataArray.cap ∧
      (i : Int) * s.outstruct.NumObs + j ≤ INT_MAX := by
  obtain ⟨t, u, h1, h2, -⟩ := forLoop_split (storeStructural i) n 0 j s s' h (by omega) (by omega)
  have ht := structuralLoop_some (j - 0) h1 (by omega)
  have hobs : t.outstruct.NumObs = s.outstruct.NumObs := by rw [ht]; rfl
  have harr : t.outstruct.DataArray.cap = s.outstruct.DataArray.cap := by rw [ht]; rfl
  have hok : t.outstruct.DataArray.ok = s.outstruct.DataArray.ok := by rw [ht]; rfl
  obtain ⟨-, a, b, c⟩ := storeStructural_some h2 (by rw [hobs]; omega)
  rw [hobs] at b c
  exact ⟨by rw [← hok]; exact a, by rw [← harr]; exact b, c⟩

/-- Every cell access of a completed loop of lines 180-191 went through a non-null
pointer, at an index that did not overflow and lay inside the block. -/
theorem obsLoop_index {i : Nat} {s s' : State} (n : Nat)
    (h : forLoop (readObs i) n 0 s = some s') (hn : n ≤ s.outstruct.NumObs.toNat)
    (j : Nat) (hj : j < n) :
    s.outstruct.DataArray.ok = true ∧
      i * s.outstruct.NumObs.toNat + j < s.outstruct.DataArray.cap ∧
      (i : Int) * s.outstruct.NumObs + j ≤ INT_MAX := by
  obtain ⟨t, u, h1, h2, -⟩ := forLoop_split (readObs i) n 0 j s s' h (by omega) (by omega)
  have ht := (obsLoop_some (j - 0) h1 (by omega)).keeps
  obtain ⟨old, -, a, b, c⟩ := readObs_some h2 (by rw [ht.obs]; omega)
  rw [ht.obs] at b c
  exact ⟨by rw [← ht.arrayOk]; exact a, by rw [← ht.arrayCap]; exact b, c⟩

/-- Every cell access of a completed iteration `i` of the loop over the variables: the
matrix pointer is non-null, and for each `j` below `NumObs` the index `i * NumObs + j`
did not overflow and lies inside the block. -/
theorem varBody_index {hlen : Int} {i : Nat} {s t : State} (h : varBody hlen i s = some t)
    (j : Nat) (hj : j < s.outstruct.NumObs.toNat) :
    s.outstruct.DataArray.ok = true ∧
      i * s.outstruct.NumObs.toNat + j < s.outstruct.DataArray.cap ∧
      (i : Int) * s.outstruct.NumObs + j ≤ INT_MAX := by
  simp only [varBody, Option.bind_eq_some] at h
  obtain ⟨off, -, len, -, lengths, hst, s2, hs2, hrest⟩ := h
  obtain ⟨-, -, -, rfl⟩ := Buf.store_eq_some hst
  have hs2' := namesLoop_some 32 hs2
  subst hs2'
  split at hrest
  · simp only [Option.bind_eq_some] at hrest
    obtain ⟨nv, -, hloop⟩ := hrest
    exact structuralLoop_index _ hloop (le_refl _) j hj
  · exact obsLoop_index _ hrest (le_refl _) j hj

/-- Every cell access of a completed loop over the variables was defined. -/
theorem varLoop_index {hlen : Int} {n : Nat} {s0 s : State}
    (h : forLoop (varBody hlen) n 0 s0 = some s) (i j : Nat) (hi : i < n)
    (hj : j < s0.outstruct.NumObs.toNat) :
    s0.outstruct.DataArray.ok = true ∧
      i * s0.outstruct.NumObs.toNat + j < s0.outstruct.DataArray.cap ∧
      (i : Int) * s0.outstruct.NumObs + j ≤ INT_MAX := by
  obtain ⟨t, u, h1, h2, -⟩ := forLoop_split (varBody hlen) n 0 i s0 s h (by omega) (by omega)
  have hK := varLoop_keeps h1
  obtain ⟨a, b, c⟩ := varBody_index h2 j (by rw [hK.obs]; exact hj)
  rw [hK.obs] at b c
  exact ⟨by rw [← hK.arrayOk]; exact a, by rw [← hK.arrayCap]; exact b, c⟩

theorem globOf_le (env : Env) (f : List Nat) : globOf env f ≤ INT_MAX := by
  have h := (toSigned32_range (leNat (field (headerOf env f) 114 4))).2
  have e : globOf env f = toSigned 32 (leNat (field (headerOf env f) 114 4)) - 1 := rfl
  rw [e]
  omega

theorem obsOf_range (env : Env) (f : List Nat) :
    INT_MIN ≤ obsOf env f ∧ obsOf env f ≤ INT_MAX :=
  toSigned32_range (leNat (field (headerOf env f) 140 4))

/-- When the header declares more than `2 ^ 31` cells, the index of the last cell
overflows `int`: a call that got its name table has no defined result. -/
theorem read_wf1_index_overflow {env : Env} {infile : String} {f : List Nat}
    (hp : PassesChecks env infile f) (hm : env.mallocVarNames = true)
    (hG : 0 < globOf env f) (hM : 0 < obsOf env f)
    (hGM : INT_MAX + 1 < globOf env f * obsOf env f) :
    read_wf1 env infile = none := by
  cases h : read_wf1 env infile with
  | none => rfl
  | some r =>
    exfalso
    obtain ⟨-, -, -, -, hc⟩ := read_wf1_after_checks hp h
    rcases hc with ⟨hno, -⟩ | ⟨-, s, hloop, -⟩
    · rw [hm] at hno
      exact absurd hno (by simp)
    · have hobs : (startState env f).outstruct.NumObs = obsOf env f := rfl
      obtain ⟨-, -, c⟩ := varLoop_index hloop ((globOf env f).toNat - 1)
        ((obsOf env f).toNat - 1) (by omega) (by rw [hobs]; omega)
      rw [hobs] at c
      have e1 : (((globOf env f).toNat - 1 : Nat) : Int) = globOf env f - 1 := by omega
      have e2 : (((obsOf env f).toNat - 1 : Nat) : Int) = obsOf env f - 1 := by omega
      rw [e1, e2] at c
      have e3 : (globOf env f - 1) * obsOf env f + (obsOf env f - 1)
          = globOf env f * obsOf env f - 1 := by ring
      rw [e3] at c
      omega

/-! ## The allocations -/

/-- A completed iteration stored the length through a non-null pointer. -/
theorem varBody_lengths_ok {hlen : Int} {i : Nat} {s t : State}
    (h : varBody hlen i s = some t) :
    s.outstruct.VarLengths.ok = true ∧ i < s.outstruct.VarLengths.cap := by
  simp only [varBody, Option.bind_eq_some] at h
  obtain ⟨off, -, len, -, lengths, hst, -⟩ := h
  obtain ⟨hok, h0, hcap, -⟩ := Buf.store_eq_some hst
  exact ⟨hok, by omega⟩

/-- With at least one variable, a null length table, or a null matrix when there is a
cell to write, is dereferenced: a call that got its name table has no defined result. -/
theorem read_wf1_null_pointer {env : Env} {infile : String} {f : List Nat}
    (hp : PassesChecks env infile f) (hm : env.mallocVarNames = true)
    (hG : 0 < globOf env f)
    (hnull : env.mallocVarLengths = false ∨ (env.mallocDataArray = false ∧ 0 < obsOf env f)) :
    read_wf1 env infile = none := by
  cases h : read_wf1 env infile with
  | none => rfl
  | some r =>
    exfalso
    obtain ⟨-, -, -, -, hc⟩ := read_wf1_after_checks hp h
    rcases hc with ⟨hno, -⟩ | ⟨-, s, hloop, -⟩
    · rw [hm] at hno
      exact absurd hno (by simp)
    · rcases hnull with hl | ⟨hd, hM⟩
      · obtain ⟨t, u, h1, h2, -⟩ :=
          forLoop_split _ _ 0 0 _ _ hloop (le_refl _) (by omega)
        have hK := varLoop_keeps h1
        have hok := (varBody_lengths_ok h2).1
        rw [hK.lengthsOk] at hok
        have : (startState env f).outstruct.VarLengths.ok = env.mallocVarLengths := rfl
        rw [this, hl] at hok
        exact absurd hok (by simp)
      · have hobs : (startState env f).outstruct.NumObs = obsOf env f := rfl
        obtain ⟨hok, -, -⟩ := varLoop_index hloop 0 0 (by omega) (by rw [hobs]; omega)
        have : (startState env f).outstruct.DataArray.ok = env.mallocDataArray := rfl
        rw [this, hd] at hok
        exact absurd hok (by simp)

/-- The three pointers of a successful result are the answers of the three `malloc`
calls. -/
theorem success_pointers {env : Env} {infile : String} {r : Run} {f : List Nat}
    (h : read_wf1 env infile = some r) (hs : r.ret.success = true)
    (hf : env.fopen infile = some f) :
    r.ret.VarNames.ok = env.mallocVarNames ∧ r.ret.VarLengths.ok = env.mallocVarLengths ∧
      r.ret.DataArray.ok = env.mallocDataArray := by
  obtain ⟨s, -, -, -, -, -, -, hloop, rfl⟩ := read_wf1_success_of h hs hf
  have hK := varLoop_keeps hloop
  exact ⟨hK.namesOk, hK.lengthsOk, hK.arrayOk⟩

/-- After the checks, `success = false` is returned exactly when the first `malloc`, the
one of the name table, returns the null pointer. -/
theorem after_checks_success {env : Env} {infile : String} {r : Run} {f : List Nat}
    (hp : PassesChecks env infile f) (h : read_wf1 env infile = some r) :
    r.ret.success = env.mallocVarNames := by
  obtain ⟨-, -, -, -, hc⟩ := read_wf1_after_checks hp h
  rcases hc with ⟨h1, h2, -⟩ | ⟨h1, s, -, rfl⟩
  · rw [h1, h2]
  · rw [h1]

/-! ## The claims -/

/-- C1: in a successfully parsed file, for a directory entry `i` below `GlobNumVars` that
lies inside the file and is a variable of interest (nature code 44, name neither "RESID"
nor beginning with "SERIES"), and for `j` below `NumObs`, the cell
`DataArray[i * NumObs + j]` holds the sentinel -100000 when the double stored in the file
at offset `DataPos + 22 + 8 * j` is NaN or equal to 1e-37, and that double otherwise.
Nothing is assumed about the observation count the data block declares. -/
theorem C1_observation_cells (env : Env) (infile : String) (r : Run) (f : List Nat)
    (h : read_wf1 env infile = some r) (hs : r.ret.success = true)
    (hf : env.fopen infile = some f)
    (i j : Nat) (hi : (i : Int) < r.ret.GlobNumVars) (hj : (j : Int) < r.ret.NumObs)
    (he : HasEntry env f i)
    (hnat : viObjNat (entry env f i) = 44)
    (hres : entryName (entry env f i) ≠ cstr "RESID")
    (hser : (entryName (entry env f i)).take 6 ≠ cstr "SERIES")
    (hpos : 0 ≤ viDataPos (entry env f i))
    (hin : obsPos (viDataPos (entry env f i)) j + sizeofDataObs ≤ f.length) :
    r.ret.DataArray.mem (i * r.ret.NumObs.toNat + j) =
      if isNaN (obsAt f (viDataPos (entry env f i)) j)
          || dEq (obsAt f (viDataPos (entry env f i)) j) MISSING
      then NODATA else obsAt f (viDataPos (entry env f i)) j := by
  have hne : isStructural (entry env f i) = false := by
    rw [isStructural_eq_false_iff]
    rintro (h1 | h2 | h3)
    · exact h1 hnat
    · exact hres h2
    · exact hser h3
  obtain ⟨len, -, -, -, -, hcell⟩ := success_row h hs hf hi he
  rw [hcell hne hpos j hj hin, cellValue_eq]
  rfl

/-- C1 on the sample file with two variables: the series "X" has the missing value
and 1.0 as observations, and its block declares five observations. -/
theorem C1_observation_cells_witness :
    read_wf1 (sampleEnv false fileTwoVars) "a.wf1"
        = some (resultOf (sampleEnv false fileTwoVars) "a.wf1") ∧
      (resultOf (sampleEnv false fileTwoVars) "a.wf1").ret.DataArray.mem (0 * 2 + 0) = NODATA ∧
      (resultOf (sampleEnv false fileTwoVars) "a.wf1").ret.DataArray.mem (0 * 2 + 1)
        = 4607182418800017408 :=
  ⟨resultOf_eq (by decide),
    C1_observation_cells (sampleEnv false fileTwoVars) "a.wf1" _ fileTwoVars
      (resultOf_eq (by decide)) (by decide) rfl 0 0 (by decide) (by decide)
      ⟨by decide, by decide⟩ (by decide) (by decide) (by decide) (by decide) (by decide),
    C1_observation_cells (sampleEnv false fileTwoVars) "a.wf1" _ fileTwoVars
      (resultOf_eq (by decide)) (by decide) rfl 0 1 (by decide) (by decide)
      ⟨by decide, by decide⟩ (by decide) (by decide) (by decide) (by decide) (by decide)⟩

/-- C2, counterexample to the claim as stated: the excluded entry 0 declares the data
offset 140, so its data block is the byte range [140, 170), which contains the
observation count of the header.  The two files differ only at offset 140, both parse
successfully, and the results differ (`NumObs` 1 against 2). -/
theorem C2_block_over_header :
    read_wf1 (sampleEnv false fileAlias) "a.wf1"
        = some (resultOf (sampleEnv false fileAlias) "a.wf1") ∧
      read_wf1 (sampleEnv false fileAliasTwo) "a.wf1"
        = some (resultOf (sampleEnv false fileAliasTwo) "a.wf1") ∧
      (resultOf (sampleEnv false fileAlias) "a.wf1").ret.success = true ∧
      (resultOf (sampleEnv false fileAliasTwo) "a.wf1").ret.success = true ∧
      Excluded (entry (sampleEnv false fileAlias) fileAlias 0) ∧
      blockLo (sampleEnv false fileAlias) fileAlias 0 = 140 ∧
      blockHi (sampleEnv false fileAlias) fileAlias 0 = 170 ∧
      DiffersOnlyIn fileAlias fileAliasTwo 140 170 ∧
      (resultOf (sampleEnv false fileAlias) "a.wf1").ret.NumObs = 1 ∧
      (resultOf (sampleEnv false fileAliasTwo) "a.wf1").ret.NumObs = 2 ∧
      resultOf (sampleEnv false fileAlias) "a.wf1"
        ≠ resultOf (sampleEnv false fileAliasTwo) "a.wf1" :=
  ⟨resultOf_eq (by decide), resultOf_eq (by decide), by decide, by decide, by decide,
    by decide, by decide, differsOnlyIn_of_take_drop (by decide) (by decide), by decide,
    by decide, fun h => absurd (congrArg (fun r => r.ret.NumObs) h) (by decide)⟩

/-- C2, amended.  In a successfully parsed file, for a directory entry `i` below
`GlobNumVars` that lies inside the file and is excluded (nature code other than 44, name
"RESID", or name beginning with "SERIES"), every cell `DataArray[i * NumObs + j]`,
`j < NumObs`, equals -99999.  And the whole result (with the flag and the log) is the
same for any file `g` that differs from `f` only in bytes of that entry's data block,
provided the directory lies inside the file, the variables of interest have non-negative
data offsets, and that block meets neither the header, nor a directory entry, nor the
data block of a variable of interest. -/
theorem C2_excluded_row (env : Env) (infile : String) (r : Run) (f : List Nat)
    (h : read_wf1 env infile = some r) (hs : r.ret.success = true)
    (hf : env.fopen infile = some f)
    (i : Nat) (hi : (i : Int) < r.ret.GlobNumVars) (he : HasEntry env f i)
    (hex : Excluded (entry env f i)) :
    (∀ j : Nat, (j : Int) < r.ret.NumObs →
      r.ret.DataArray.mem (i * r.ret.NumObs.toNat + j) = STRUCTURAL) ∧
    ∀ g : List Nat, DiffersOnlyIn f g (blockLo env f i) (blockHi env f i) →
      WellPlaced env f →
      Apart (blockLo env f i) (blockHi env f i) 0 sizeofHeader →
      (∀ k : Nat, (k : Int) < r.ret.GlobNumVars →
        Apart (blockLo env f i) (blockHi env f i) (entryPos env f k) sizeofVarInfo) →
      (∀ k : Nat, (k : Int) < r.ret.GlobNumVars → ¬ Excluded (entry env f k) →
        Apart (blockLo env f i) (blockHi env f i) (blockLo env f k)
          (sizeofDataBlock + sizeofDataObs * r.ret.NumObs.toNat)) →
      read_wf1 (env.withFile g) infile = some r := by
  obtain ⟨hG, hM⟩ := success_counts h hs hf
  constructor
  · obtain ⟨len, -, -, -, hrow, -⟩ := success_row h hs hf hi he
    exact hrow ((isStructural_iff _).2 hex)
  · intro g hd hw ha1 ha2 ha3
    refine read_wf1_agree h hs hf hw ⟨?_, ?_, ?_⟩
    · exact field_eq_of_differsOnlyIn hd ha1
    · intro k hk
      exact field_eq_of_differsOnlyIn hd (ha2 k (by rw [hG]; exact hk))
    · intro k hk hne
      have := ha3 k (by rw [hG]; exact hk) hne
      rw [hM] at this
      exact field_eq_of_differsOnlyIn hd this

/-- C2 on a file whose excluded entry "RESID" has its data block at [324, 362), after
everything that is read: the row is filled with the sentinel, and a file with other
bytes in that block gives the same result. -/
theorem C2_excluded_row_witness :
    (resultOf (sampleEnv false fileSkipped) "a.wf1").ret.DataArray.mem (1 * 2 + 0) = STRUCTURAL ∧
    (resultOf (sampleEnv false fileSkipped) "a.wf1").ret.DataArray.mem (1 * 2 + 1) = STRUCTURAL ∧
    fileSkippedTwo ≠ fileSkipped ∧
    read_wf1 ((sampleEnv false fileSkipped).withFile fileSkippedTwo) "a.wf1"
      = some (resultOf (sampleEnv false fileSkipped) "a.wf1") := by
  have hG : (resultOf (sampleEnv false fileSkipped) "a.wf1").ret.GlobNumVars = 2 := by decide
  have hG' : globOf (sampleEnv false fileSkipped) fileSkipped = 2 := by decide
  have T := C2_excluded_row (sampleEnv false fileSkipped) "a.wf1" _ fileSkipped
    (resultOf_eq (by decide)) (by decide) rfl 1 (by decide) ⟨by decide, by decide⟩ (by decide)
  refine ⟨T.1 0 (by decide), T.1 1 (by decide), by decide, ?_⟩
  refine T.2 fileSkippedTwo (differsOnlyIn_of_take_drop (by decide) (by decide)) ⟨?_, ?_⟩
    (Or.inl (by decide)) ?_ ?_
  · intro k hk
    rw [hG'] at hk
    have hk' : k < 2 := by omega
    interval_cases k
    · exact ⟨by decide, by decide⟩
    · exact ⟨by decide, by decide⟩
  · intro k hk hne
    rw [hG'] at hk
    have hk' : k < 2 := by omega
    interval_cases k
    · decide
    · decide
  · intro k hk
    rw [hG] at hk
    have hk' : k < 2 := by omega
    interval_cases k
    · exact Or.inl (by decide)
    · exact Or.inl (by decide)
  · intro k hk hne
    rw [hG] at hk
    have hk' : k < 2 := by omega
    interval_cases k
    · exact Or.inl (by decide)
    · exact absurd (by decide) hne

/-- C3: in a successfully parsed file whose directory entries below `GlobNumVars` all lie
inside the file, `NumVars` is `GlobNumVars` minus the number of excluded entries (nature
code other than 44, name "RESID", or name beginning with "SERIES"); when no entry is
excluded, `NumVars` equals `GlobNumVars`. -/
theorem C3_interest_count (env : Env) (infile : String) (r : Run) (f : List Nat)
    (h : read_wf1 env infile = some r) (hs : r.ret.success = true)
    (hf : env.fopen infile = some f)
    (hall : ∀ i : Nat, (i : Int) < r.ret.GlobNumVars → HasEntry env f i) :
    r.ret.NumVars = r.ret.GlobNumVars - (excludedCount env f r.ret.GlobNumVars.toNat : Int) ∧
      ((∀ i : Nat, (i : Int) < r.ret.GlobNumVars → ¬ Excluded (entry env f i)) →
        r.ret.NumVars = r.ret.GlobNumVars) := by
  obtain ⟨hG, -⟩ := success_counts h hs hf
  obtain ⟨s, -, -, hG2, -, h26, -, hloop, rfl⟩ := read_wf1_success_of h hs hf
  simp only at hG hall ⊢
  have hn : (((globOf env f).toNat : Nat) : Int) ≤ INT_MAX + 1 := by
    unfold INT_MAX at hG2 ⊢
    omega
  have hnv := varLoop_numVars h26 hn (fun i hi => hall i (by omega)) hloop
  rw [hG]
  refine ⟨hnv, fun hno => ?_⟩
  rw [hnv, excludedCount_eq_zero (fun i hi => hno i (by omega))]
  simp

/-- C3 on the sample file with two variables, one of them "RESID". -/
theorem C3_interest_count_witness :
    (resultOf (sampleEnv false fileTwoVars) "a.wf1").ret.GlobNumVars = 2 ∧
    (resultOf (sampleEnv false fileTwoVars) "a.wf1").ret.NumVars = 2 - 1 :=
  ⟨by decide,
    (C3_interest_count (sampleEnv false fileTwoVars) "a.wf1" _ fileTwoVars
      (resultOf_eq (by decide)) (by decide) rfl
      (fun i hi => by
        have h2 : (resultOf (sampleEnv false fileTwoVars) "a.wf1").ret.GlobNumVars = 2 := by
          decide
        rw [h2] at hi
        have hi' : i < 2 := by omega
        interval_cases i
        · exact ⟨by decide, by decide⟩
        · exact ⟨by decide, by decide⟩)).1⟩

/-- C4, at the failing input: the name field of entry 0 holds 32 non-zero bytes and the
history pointer that follows it is 1.  The parse succeeds, the 32 bytes of the name are
copied, but the length stored is 33, not 32: `strlen` runs on into the history pointer. -/
theorem C4_name_without_terminator :
    read_wf1 (sampleEnv false fileLongName) "a.wf1"
        = some (resultOf (sampleEnv false fileLongName) "a.wf1") ∧
      (resultOf (sampleEnv false fileLongName) "a.wf1").ret.success = true ∧
      field (entry (sampleEnv false fileLongName) fileLongName 0) 22 32 = List.replicate 32 65 ∧
      (resultOf (sampleEnv false fileLongName) "a.wf1").ret.VarLengths.mem 0 = 33 ∧
      (List.range 32).map (resultOf (sampleEnv false fileLongName) "a.wf1").ret.VarNames.mem
        = List.replicate 32 65 :=
  ⟨resultOf_eq (by decide), by decide, by decide, by decide, by decide⟩

/-- C5, at the failing input: an empty file, read while `word` still holds the signature
left by an earlier call.  `fgets` reads nothing and leaves `word` alone, the signature
check passes although the file does not start with the signature, the header is read
(no byte arrives) and, with the counts left in `vh`, the call returns success. -/
theorem C5_empty_file_passes :
    read_wf1 staleEnv "empty.wf1" = some (resultOf staleEnv "empty.wf1") ∧
      staleEnv.fopen "empty.wf1" = some [] ∧
      ([] : List Nat).take 21 ≠ signature ∧
      signatureOk staleEnv [] ∧
      (resultOf staleEnv "empty.wf1").ret.success = true ∧
      (resultOf staleEnv "empty.wf1").log =
        [Event.fopen true, Event.fgets 0 0, Event.rewind, Event.fread 0 146 0,
          Event.fseek 146, Event.fclose] :=
  ⟨resultOf_eq (by decide), rfl, by decide,
    (by decide : strcmp (wordOf staleEnv []) signature = 0), by decide, by decide⟩

/-- C6, at the failing input: a path without any dot.  `strrchr` returns the null
pointer and `strcmp` is called on it: the behaviour is undefined, no result with
`success = false` is returned. -/
theorem C6_path_without_dot (env : Env) : read_wf1 env "workfile" = none := by
  have h : strrchr (cstr "workfile") 46 = none := by decide
  simp only [read_wf1, h]

/-- C7: for a file that passes the extension and signature checks and holds the whole
146-byte header, every result returned has `GlobNumVars = d - 1`, with `d` the 4-byte
little-endian signed integer at offset 114 = 80 + 8 + 26, and `NumObs` equal to the
4-byte little-endian signed integer at offset 140; the header is read as one record of
146 bytes = 80+8+26+4+4+2+2+2+4+8+4+2 starting at offset 0. -/
theorem C7_header_counts (env : Env) (infile : String) (r : Run) (f : List Nat)
    (hp : PassesChecks env infile f) (hlen : sizeofHeader ≤ f.length)
    (h : read_wf1 env infile = some r) :
    r.ret.GlobNumVars = leInt 4 (field f 114 4) - 1 ∧
      r.ret.NumObs = leInt 4 (field f 140 4) ∧
      Event.fread 0 146 146 ∈ r.log ∧
      sizeofHeader = 80 + 8 + 26 + 4 + 4 + 2 + 2 + 2 + 4 + 8 + 4 + 2 ∧
      (114 : Nat) = 80 + 8 + 26 ∧ (140 : Nat) = 114 + 4 + 4 + 2 + 2 + 2 + 4 + 8 := by
  obtain ⟨h1, h2, evs, h3⟩ := after_checks_counts hp h
  refine ⟨?_, ?_, ?_, rfl, rfl, rfl⟩
  · rw [h1]
    unfold globOf hdrNumVarPlusOne
    rw [headerOf_field hlen (by decide)]
  · rw [h2]
    unfold obsOf hdrNumObs
    rw [headerOf_field hlen (by decide)]
  · rw [h3]
    have hin : (⟨f, 0⟩ : FILE).pos + sizeofHeader ≤ (⟨f, 0⟩ : FILE).data.length := by
      simpa using hlen
    have hread : fread env.vh sizeofHeader ⟨f, 0⟩ = _ := fread_inside hin
    have hpos : (fread env.vh sizeofHeader ⟨f, 0⟩).2.pos = 146 := by
      rw [hread]
      rfl
    unfold startLog
    rw [hpos]
    simp [sizeofHeader]

/-- C7 on the sample file with two variables: the header stores 3 and 2. -/
theorem C7_header_counts_witness :
    (resultOf (sampleEnv false fileTwoVars) "a.wf1").ret.GlobNumVars = 3 - 1 ∧
    (resultOf (sampleEnv false fileTwoVars) "a.wf1").ret.NumObs = 2 :=
  have h := C7_header_counts (sampleEnv false fileTwoVars) "a.wf1" _ fileTwoVars
    (passesChecks_of_eval (by decide) rfl (by decide)) (by decide) (resultOf_eq (by decide))
  ⟨h.1, h.2.1⟩

/-- C8, counterexample to the claim as stated: the header stores the size 2^32 + 120.
The call narrows it to 120 and reads the one directory entry at offset 146 (its name "X"
gives the length 1 of row 0), not at the stored size + 26 = 4294967442. -/
theorem C8_wide_header_size :
    read_wf1 (sampleEnv false fileWideHeader) "a.wf1"
        = some (resultOf (sampleEnv false fileWideHeader) "a.wf1") ∧
      (resultOf (sampleEnv false fileWideHeader) "a.wf1").ret.success = true ∧
      (resultOf (sampleEnv false fileWideHeader) "a.wf1").ret.GlobNumVars = 1 ∧
      leInt 8 (field fileWideHeader 80 8) = 4294967416 ∧
      descriptorReads (resultOf (sampleEnv false fileWideHeader) "a.wf1").log = [146] ∧
      (resultOf (sampleEnv false fileWideHeader) "a.wf1").ret.VarLengths.mem 0 = 1 ∧
      descriptorReads (resultOf (sampleEnv false fileWideHeader) "a.wf1").log
        ≠ [(leInt 8 (field fileWideHeader 80 8) + 26 + 70 * 0).toNat] :=
  ⟨resultOf_eq (by decide), by decide, by decide, by decide, by decide, by decide, by decide⟩

/-- C8, amended: `hlen` is the stored header size narrowed to a 32-bit `int`.  In a
successfully parsed file with `0 ≤ hlen + 26`, the reads of directory entries are, in
order, the 70-byte reads at offsets `hlen + 26 + 70 * i` for `i = 0 .. GlobNumVars - 1`;
and for every such `i` whose 70 bytes lie inside the file, row `i` of the result is
decoded from them: the length and bytes of the name, the structural sentinel when the
entry is excluded, and otherwise the observations found at its `DataPos`. -/
theorem C8_directory_walk (env : Env) (infile : String) (r : Run) (f : List Nat)
    (h : read_wf1 env infile = some r) (hs : r.ret.success = true)
    (hf : env.fopen infile = some f) (h0 : 0 ≤ hlenOf env f + 26) :
    hlenOf env f = wrapInt 32 (hdrHeaderSize (headerOf env f)) ∧
    (sizeofHeader ≤ f.length → hdrHeaderSize (headerOf env f) = leInt 8 (field f 80 8)) ∧
    descriptorReads r.log = (List.range r.ret.GlobNumVars.toNat).map (entryPos env f) ∧
    (∀ i : Nat, entryPos env f i = (hlenOf env f + 26 + 70 * (i : Int)).toNat) ∧
    ∀ i : Nat, (i : Int) < r.ret.GlobNumVars → entryPos env f i + sizeofVarInfo ≤ f.length →
      ∃ len : Nat, strlen (viVarName (entry env f i)) = some len ∧
        r.ret.VarLengths.mem i = (len : Int) ∧
        (∀ j, j < 32 → r.ret.VarNames.mem (32 * i + j) =
          if j < len then viVarNameAt (entry env f i) j else 0) ∧
        (isStructural (entry env f i) = true → ∀ j : Nat, (j : Int) < r.ret.NumObs →
          r.ret.DataArray.mem (i * r.ret.NumObs.toNat + j) = STRUCTURAL) ∧
        (isStructural (entry env f i) = false → 0 ≤ viDataPos (entry env f i) →
          ∀ j : Nat, (j : Int) < r.ret.NumObs →
            obsPos (viDataPos (entry env f i)) j + sizeofDataObs ≤ f.length →
            r.ret.DataArray.mem (i * r.ret.NumObs.toNat + j) =
              cellValue (obsAt f (viDataPos (entry env f i)) j)) := by
  refine ⟨rfl, ?_, ?_, fun _ => rfl, ?_⟩
  · intro hlen
    unfold hdrHeaderSize
    rw [headerOf_field hlen (by decide)]
  · obtain ⟨hG, -⟩ := success_counts h hs hf
    obtain ⟨s, -, -, hG2, -, h26, -, hloop, rfl⟩ := read_wf1_success_of h hs hf
    simp only at hG ⊢
    have hn : (((globOf env f).toNat : Nat) : Int) ≤ INT_MAX + 1 := by
      unfold INT_MAX at hG2 ⊢
      omega
    rw [descriptorReads_append, varLoop_descriptorReads h0 h26 hn hloop, hG]
    simp [descriptorReads]
  · intro i hi hin
    exact success_row h hs hf hi ⟨h0, hin⟩

/-- C8 on the sample file with two variables (entries at 146 and 216) and on the file
whose stored header size is 2^32 + 120 (entry at 146). -/
theorem C8_directory_walk_witness :
    descriptorReads (resultOf (sampleEnv false fileTwoVars) "a.wf1").log = [146, 216] ∧
    descriptorReads (resultOf (sampleEnv false fileWideHeader) "a.wf1").log = [146] :=
  ⟨(C8_directory_walk (sampleEnv false fileTwoVars) "a.wf1" _ fileTwoVars
      (resultOf_eq (by decide)) (by decide) rfl (by decide)).2.2.1,
    (C8_directory_walk (sampleEnv false fileWideHeader) "a.wf1" _ fileWideHeader
      (resultOf_eq (by decide)) (by decide) rfl (by decide)).2.2.1⟩

/-- C9, counterexample to the claim as stated: the global flag is already set on entry
(an earlier call warned).  The file has a variable of interest whose data block declares
5 observations while the header declares 2; the call succeeds and emits no diagnostic. -/
theorem C9_flag_set_on_entry :
    read_wf1 (sampleEnv true fileTwoVars) "a.wf1"
        = some (resultOf (sampleEnv true fileTwoVars) "a.wf1") ∧
      (resultOf (sampleEnv true fileTwoVars) "a.wf1").ret.success = true ∧
      ¬ Excluded (entry (sampleEnv true fileTwoVars) fileTwoVars 0) ∧
      dbNumObs (field fileTwoVars
        (viDataPos (entry (sampleEnv true fileTwoVars) fileTwoVars 0)).toNat sizeofDataBlock) = 5 ∧
      (resultOf (sampleEnv true fileTwoVars) "a.wf1").ret.NumObs = 2 ∧
      warnings (resultOf (sampleEnv true fileTwoVars) "a.wf1").log = 0 :=
  ⟨resultOf_eq (by decide), by decide, by decide, by decide, by decide, by decide⟩

/-- C9, amended: take a successful call on a file in which some variable of interest `i`
(entry and block header inside the file) has a data block whose observation count
differs from the global `NumObs`.  If the global flag was clear on entry the call emits
exactly one "Inconsistent number of observation" diagnostic, however many variables
mismatch; if the flag was already set it emits none.  The flag is set after the call,
and the cells of variable `i` are decoded from `NumObs` observations as for any other
variable of interest. -/
theorem C9_mismatch_warning (env : Env) (infile : String) (r : Run) (f : List Nat)
    (h : read_wf1 env infile = some r) (hs : r.ret.success = true)
    (hf : env.fopen infile = some f)
    (i : Nat) (hi : (i : Int) < r.ret.GlobNumVars) (he : HasEntry env f i)
    (hint : ¬ Excluded (entry env f i))
    (hpos : 0 ≤ viDataPos (entry env f i))
    (hblk : (viDataPos (entry env f i)).toNat + sizeofDataBlock ≤ f.length)
    (hmis : dbNumObs (field f (viDataPos (entry env f i)).toNat sizeofDataBlock)
      ≠ r.ret.NumObs) :
    warnings r.log = (if env.flag = true then 0 else 1) ∧ r.flag = true ∧
      ∀ j : Nat, (j : Int) < r.ret.NumObs →
        obsPos (viDataPos (entry env f i)) j + sizeofDataObs ≤ f.length →
        r.ret.DataArray.mem (i * r.ret.NumObs.toNat + j) =
          cellValue (obsAt f (viDataPos (entry env f i)) j) := by
  have hstr : isStructural (entry env f i) = false := (isStructural_eq_false_iff _).2 hint
  obtain ⟨len, -, -, -, -, hcell⟩ := success_row h hs hf hi he
  refine ⟨?_, ?_, fun j hj hin => hcell hstr hpos j hj hin⟩ <;>
  · obtain ⟨hG, hM⟩ := success_counts h hs hf
    obtain ⟨s, -, -, hG2, -, h26, -, hloop, rfl⟩ := read_wf1_success_of h hs hf
    simp only at hi hG hM hmis ⊢
    have hin : i < (globOf env f).toNat := by omega
    obtain ⟨t, u, h1, h2, h3⟩ :=
      forLoop_split _ _ 0 i _ _ hloop (by omega) (by omega)
    obtain ⟨off, len', hoff, hv⟩ := varBody_some h2
    have hK := varLoop_keeps h1
    have hdata : t.inptr.data = f := by rw [hK.data, startState_data]
    have hiMax : (i : Int) ≤ INT_MAX := by omega
    obtain ⟨-, -, hvi, hl70, -⟩ := viAfter_entry hdata he h26 hiMax hoff
    have hst : isStructural (viAfter t off) = false := by
      rw [hvi, isStructural_append hl70]; exact hstr
    have hmm : mismatch t off = true := by
      unfold mismatch
      rw [dbAfter_block hdata he h26 hiMax hoff hpos hblk, hK.obs]
      have : (startState env f).outstruct.NumObs = obsOf env f := rfl
      rw [this, ← hM]
      simpa using hmis
    have hu : u.flag = true := by
      rw [hv.flag_eq, hst, hmm]
      simp
    have hsflag : s.flag = true := varLoop_flag h3 hu
    obtain ⟨hw, -⟩ := varLoop_warnings (warnings_startLog env f) hloop
    first
    | exact hsflag
    | rw [warnings_append, hw, hsflag]
      have : (startState env f).flag = env.flag := rfl
      rw [this]
      cases env.flag <;> simp [warnings]

/-- C9 on the sample file with two variables, whose block declares 5 observations against
2 in the header: one diagnostic with the flag clear on entry, none with the flag set. -/
theorem C9_mismatch_warning_witness :
    warnings (resultOf (sampleEnv false fileTwoVars) "a.wf1").log = 1 ∧
    warnings (resultOf (sampleEnv true fileTwoVars) "a.wf1").log = 0 :=
  ⟨(C9_mismatch_warning (sampleEnv false fileTwoVars) "a.wf1" _ fileTwoVars
      (resultOf_eq (by decide)) (by decide) rfl 0 (by decide) ⟨by decide, by decide⟩
      (by decide) (by decide) (by decide) (by decide)).1,
    (C9_mismatch_warning (sampleEnv true fileTwoVars) "a.wf1" _ fileTwoVars
      (resultOf_eq (by decide)) (by decide) rfl 0 (by decide) ⟨by decide, by decide⟩
      (by decide) (by decide) (by decide) (by decide)).1⟩

/-- C10, counterexample to the claim as stated: the header declares one variable and
zero observations.  The call succeeds, and it has read the directory entry at offset 146
(70 bytes, beyond the end of the header) and tried to read the data-block header of the
variable at offset 216. -/
theorem C10_descriptor_read_without_obs :
    read_wf1 (sampleEnv false fileNoObs) "a.wf1"
        = some (resultOf (sampleEnv false fileNoObs) "a.wf1") ∧
      (resultOf (sampleEnv false fileNoObs) "a.wf1").ret.success = true ∧
      (resultOf (sampleEnv false fileNoObs) "a.wf1").ret.NumObs = 0 ∧
      (resultOf (sampleEnv false fileNoObs) "a.wf1").ret.GlobNumVars = 1 ∧
      Event.fread 146 70 70 ∈ (resultOf (sampleEnv false fileNoObs) "a.wf1").log ∧
      Event.fread 216 22 0 ∈ (resultOf (sampleEnv false fileNoObs) "a.wf1").log ∧
      (resultOf (sampleEnv false fileNoObs) "a.wf1").ret.VarLengths.mem 0 = 1 :=
  ⟨resultOf_eq (by decide), by decide, by decide, by decide, by decide, by decide, by decide⟩

/-- C10, amended.  For a file that passes the extension and signature checks:
(1) if the header gives `GlobNumVars = 0`, `hlen + 26` does not overflow and the
allocation of the (empty) name table returns a non-null pointer, the call returns
`success = true`, writes no matrix cell, and its whole log is the signature read, the
header read, the seek to the directory and the close: nothing is read beyond the header;
(2) if a call succeeds with `NumObs = 0`, it has written no matrix cell and read no
observation, but it has read one directory entry for each of the `GlobNumVars`
variables. -/
theorem C10_empty_boundary (env : Env) (infile : String) (f : List Nat)
    (hp : PassesChecks env infile f) :
    (globOf env f = 0 → hlenOf env f + 26 ≤ INT_MAX → env.mallocVarNames = true →
      ∃ r, read_wf1 env infile = some r ∧ r.ret.success = true ∧ r.ret.GlobNumVars = 0 ∧
        r.ret.DataArray.mem = env.heapDataArray ∧
        r.log = startLog env f ++ [Event.fclose]) ∧
    (∀ r, read_wf1 env infile = some r → r.ret.success = true → r.ret.NumObs = 0 →
      r.ret.DataArray.mem = env.heapDataArray ∧
        (∀ e ∈ r.log, ¬ e.isObsRead) ∧
        (descriptorReads r.log).length = r.ret.GlobNumVars.toNat) := by
  constructor
  · intro hG h26 hm
    have h := read_wf1_eq_loop hp (by rw [hG]; decide) (by rw [hG]; decide) h26 hm
    rw [hG] at h
    simp only [Int.toNat_zero, forLoop, Option.map_some'] at h
    exact ⟨_, h, rfl, hG, rfl, rfl⟩
  · intro r h hs hM
    obtain ⟨-, hM'⟩ := success_counts h hs hp.opened
    obtain ⟨hG, -⟩ := success_counts h hs hp.opened
    obtain ⟨s, -, -, -, -, -, -, hloop, rfl⟩ := read_wf1_success_of h hs hp.opened
    simp only at hM hM' hG ⊢
    have hM0 : (startState env f).outstruct.NumObs.toNat = 0 := by
      show (obsOf env f).toNat = 0
      rw [← hM', hM]
      rfl
    obtain ⟨h1, h2, h3⟩ := varLoop_noObs hM0 hloop
    refine ⟨h1, ?_, ?_⟩
    · intro e he
      rcases List.mem_append.1 he with he | he
      · refine h2 ?_ e he
        intro e' he'
        simp only [startState, startLog, List.mem_cons, List.mem_singleton, List.not_mem_nil,
          or_false] at he'
        rcases he' with rfl | rfl | rfl | rfl | rfl <;>
          simp [Event.isObsRead, sizeofHeader, sizeofDataObs]
      · simp only [List.mem_singleton] at he
        subst he
        simp [Event.isObsRead]
    · rw [descriptorReads_append, List.length_append, h3, hG]
      have : descriptorReads (startState env f).log = [] := descriptorReads_startLog env f
      rw [this]
      simp [descriptorReads]

/-- C10 on a header that declares no variable, and on a file with one variable and no
observation. -/
theorem C10_empty_boundary_witness :
    (∃ r, read_wf1 (sampleEnv false fileNoVars) "a.wf1" = some r ∧ r.ret.success = true ∧
      r.ret.GlobNumVars = 0 ∧
      r.ret.DataArray.mem = (sampleEnv false fileNoVars).heapDataArray ∧
      r.log = startLog (sampleEnv false fileNoVars) fileNoVars ++ [Event.fclose]) ∧
    (descriptorReads (resultOf (sampleEnv false fileNoObs) "a.wf1").log).length
      = (resultOf (sampleEnv false fileNoObs) "a.wf1").ret.GlobNumVars.toNat :=
  ⟨(C10_empty_boundary (sampleEnv false fileNoVars) "a.wf1" fileNoVars
      (passesChecks_of_eval (by decide) rfl (by decide))).1 (by decide) (by decide) rfl,
    ((C10_empty_boundary (sampleEnv false fileNoObs) "a.wf1" fileNoObs
      (passesChecks_of_eval (by decide) rfl (by decide))).2 _
        (resultOf_eq (by decide)) (by decide) (by decide)).2.2⟩

/-- C11, counterexample to the claim as stated.  `fileShortData` passes both checks and
declares one series with two observations, but ends at byte 246, before the last byte
(253) of the second observation: the call returns `success = true`, the read at offset 246
delivers no byte, and cell 1 is left with what the allocated block held.
`fileShortDir` passes both checks and declares two variables, but ends at byte 216,
before directory entry 1 (bytes 216..285): the call returns `success = true`, the read
of entry 1 delivers no byte, and row 1 repeats the name of entry 0. -/
theorem C11_truncated_file_succeeds :
    PassesChecks (sampleEnv false fileShortData) "a.wf1" fileShortData ∧
      read_wf1 (sampleEnv false fileShortData) "a.wf1"
        = some (resultOf (sampleEnv false fileShortData) "a.wf1") ∧
      fileShortData.length = 246 ∧
      (resultOf (sampleEnv false fileShortData) "a.wf1").ret.GlobNumVars = 1 ∧
      (resultOf (sampleEnv false fileShortData) "a.wf1").ret.NumObs = 2 ∧
      ¬ Excluded (entry (sampleEnv false fileShortData) fileShortData 0) ∧
      obsPos (viDataPos (entry (sampleEnv false fileShortData) fileShortData 0)) 1
        + sizeofDataObs = 254 ∧
      (resultOf (sampleEnv false fileShortData) "a.wf1").ret.success = true ∧
      Event.fread 246 8 0 ∈ (resultOf (sampleEnv false fileShortData) "a.wf1").log ∧
      (resultOf (sampleEnv false fileShortData) "a.wf1").ret.DataArray.mem 1
        = (sampleEnv false fileShortData).heapDataArray 1 ∧
      PassesChecks (sampleEnv false fileShortDir) "a.wf1" fileShortDir ∧
      read_wf1 (sampleEnv false fileShortDir) "a.wf1"
        = some (resultOf (sampleEnv false fileShortDir) "a.wf1") ∧
      fileShortDir.length = 216 ∧
      (resultOf (sampleEnv false fileShortDir) "a.wf1").ret.GlobNumVars = 2 ∧
      entryPos (sampleEnv false fileShortDir) fileShortDir 1 + sizeofVarInfo = 286 ∧
      (resultOf (sampleEnv false fileShortDir) "a.wf1").ret.success = true ∧
      Event.fread 216 70 0 ∈ (resultOf (sampleEnv false fileShortDir) "a.wf1").log ∧
      (resultOf (sampleEnv false fileShortDir) "a.wf1").ret.VarLengths.mem 1 = 1 ∧
      (resultOf (sampleEnv false fileShortDir) "a.wf1").ret.VarNames.mem (32 * 1 + 0) = 88 :=
  ⟨passesChecks_of_eval (by decide) rfl (by decide), resultOf_eq (by decide), by decide,
    by decide, by decide, by decide, by decide, by decide, by decide, by decide,
    passesChecks_of_eval (by decide) rfl (by decide), resultOf_eq (by decide), by decide,
    by decide, by decide, by decide, by decide, by decide, by decide⟩

/-- C11, amended: truncation is not detected.  For a file that passes the extension and
signature checks, (1) every result the call returns has `success = true` unless the
allocation of the name table failed: the length of the file plays no part; (2) if the
directory entries below `GlobNumVars` lie inside the file with names terminated inside
the record, `0 ≤ GlobNumVars ≤ 2 ^ 26`, `GlobNumVars * NumObs ≤ 2 ^ 31`, `hlen + 26` fits
an `int` and the three allocations succeed, then the call returns `success = true`,
wherever the file ends after its directory: data blocks that are cut short or missing
are read as short reads. -/
theorem C11_short_reads_are_silent (env : Env) (infile : String) (f : List Nat)
    (hp : PassesChecks env infile f) :
    (∀ r, read_wf1 env infile = some r → r.ret.success = env.mallocVarNames) ∧
    (0 ≤ globOf env f → globOf env f ≤ 67108864 → hlenOf env f + 26 ≤ INT_MAX →
      globOf env f * obsOf env f ≤ INT_MAX + 1 →
      (∀ i : Nat, (i : Int) < globOf env f →
        HasEntry env f i ∧ (strlen (viVarName (entry env f i))).isSome = true) →
      env.mallocVarNames = true → env.mallocVarLengths = true →
      env.mallocDataArray = true →
      ∃ r, read_wf1 env infile = some r ∧ r.ret.success = true) :=
  ⟨fun _ h => after_checks_success hp h,
    fun hG0 hG h26 hGM hall hm1 hm2 hm3 =>
      read_wf1_returns hp hG0 hG h26 hall hm1 hm2 hm3 hGM⟩

/-- C11 on the file that ends inside the data block of its only series. -/
theorem C11_short_reads_are_silent_witness :
    fileShortData.length < obsPos 216 1 + sizeofDataObs ∧
    (resultOf (sampleEnv false fileShortData) "a.wf1").ret.success = true ∧
    ∃ r, read_wf1 (sampleEnv false fileShortData) "a.wf1" = some r ∧ r.ret.success = true :=
  have T := C11_short_reads_are_silent (sampleEnv false fileShortData) "a.wf1" fileShortData
    (passesChecks_of_eval (by decide) rfl (by decide))
  ⟨by decide, T.1 _ (resultOf_eq (by decide)),
    T.2 (by decide) (by decide) (by decide) (by decide)
      (fun i hi => by
        have h1 : globOf (sampleEnv false fileShortData) fileShortData = 1 := by decide
        rw [h1] at hi
        have hi' : i < 1 := by omega
        interval_cases i
        exact ⟨⟨by decide, by decide⟩, by decide⟩) rfl rfl rfl⟩

/-- C12, the behaviour of the code: after the checks the call returns `success = false`
exactly when the first allocation, the name table, fails.  When the name table is
allocated and the allocation of the length table fails, a file with at least one variable
makes the call store through the null pointer (no defined result); so does a failed
allocation of the matrix when there is at least one variable and one observation.  In
the remaining cases the call returns `success = true` with the null pointer in the
result.  No failure of the second or third allocation is ever answered with
`success = false`. -/
theorem C12_unchecked_allocations (env : Env) (infile : String) (f : List Nat)
    (hp : PassesChecks env infile f) :
    (∀ r, read_wf1 env infile = some r → r.ret.success = env.mallocVarNames) ∧
    (env.mallocVarNames = true → env.mallocVarLengths = false → 0 < globOf env f →
      read_wf1 env infile = none) ∧
    (env.mallocVarNames = true → env.mallocDataArray = false → 0 < globOf env f →
      0 < obsOf env f → read_wf1 env infile = none) ∧
    (env.mallocVarNames = true → ∀ r, read_wf1 env infile = some r →
      r.ret.success = true ∧ r.ret.VarLengths.ok = env.mallocVarLengths ∧
        r.ret.DataArray.ok = env.mallocDataArray) := by
  refine ⟨fun _ h => after_checks_success hp h, ?_, ?_, ?_⟩
  · intro hm hl hG
    exact read_wf1_null_pointer hp hm hG (Or.inl hl)
  · intro hm hd hG hM
    exact read_wf1_null_pointer hp hm hG (Or.inr ⟨hd, hM⟩)
  · intro hm r h
    have hs : r.ret.success = true := by rw [after_checks_success hp h, hm]
    obtain ⟨-, h2, h3⟩ := success_pointers h hs hp.opened
    exact ⟨hs, h2, h3⟩

/-- C12 at the failing inputs: the sample file with two variables when the second, or
the third, allocation fails alone (no defined result), and a header without variables
when the second allocation fails alone (`success = true`). -/
theorem C12_unchecked_allocations_witness :
    read_wf1 (mallocEnv true false true fileTwoVars) "a.wf1" = none ∧
    read_wf1 (mallocEnv true true false fileTwoVars) "a.wf1" = none ∧
    (resultOf (mallocEnv true false true fileNoVars) "a.wf1").ret.success = true ∧
    (resultOf (mallocEnv true false true fileNoVars) "a.wf1").ret.VarLengths.ok = false :=
  have T := C12_unchecked_allocations (mallocEnv true false true fileTwoVars) "a.wf1"
    fileTwoVars (passesChecks_of_eval (by decide) rfl (by decide))
  have U := C12_unchecked_allocations (mallocEnv true true false fileTwoVars) "a.wf1"
    fileTwoVars (passesChecks_of_eval (by decide) rfl (by decide))
  have V := (C12_unchecked_allocations (mallocEnv true false true fileNoVars) "a.wf1"
    fileNoVars (passesChecks_of_eval (by decide) rfl (by decide))).2.2.2 rfl _
      (resultOf_eq (by decide))
  ⟨T.2.1 rfl rfl (by decide), U.2.2.1 rfl rfl (by decide) (by decide), V.1, V.2.1⟩

/-- C13, counterexample to the claim as stated: `fileBigMatrix` passes both checks and
declares 2 variables and `2 ^ 31 - 1` observations.  For `i = 1` and `j = 1`, both in
range, the value `i * NumObs + j = 2 ^ 31` does not fit an `int`: the `int` computation
overflows (with wrap-around it would give `-2 ^ 31`), although the matrix is allocated
with `2 ^ 32 - 2` elements; the call has no defined result. -/
theorem C13_index_overflow :
    PassesChecks (sampleEnv false fileBigMatrix) "a.wf1" fileBigMatrix ∧
      globOf (sampleEnv false fileBigMatrix) fileBigMatrix = 2 ∧
      obsOf (sampleEnv false fileBigMatrix) fileBigMatrix = 2147483647 ∧
      cellIndex (obsOf (sampleEnv false fileBigMatrix) fileBigMatrix) 1 1 = none ∧
      INT_MAX < ((1 : Nat) : Int) * obsOf (sampleEnv false fileBigMatrix) fileBigMatrix
        + ((1 : Nat) : Int) ∧
      wrapInt 32 (((1 : Nat) : Int) * obsOf (sampleEnv false fileBigMatrix) fileBigMatrix
        + ((1 : Nat) : Int)) = -2147483648 ∧
      (startOut (sampleEnv false fileBigMatrix) fileBigMatrix).DataArray.cap = 4294967294 ∧
      read_wf1 (sampleEnv false fileBigMatrix) "a.wf1" = none :=
  ⟨passesChecks_of_eval (by decide) rfl (by decide), by decide, by decide, by decide,
    by decide, by decide, by decide,
    read_wf1_index_overflow (passesChecks_of_eval (by decide) rfl (by decide)) rfl
      (by decide) (by decide) (by decide)⟩

/-- C13, amended.  For a file that passes the checks: (1) if the header counts satisfy
`GlobNumVars * NumObs ≤ 2 ^ 31`, then for every `i` below `GlobNumVars` and `j` below
`NumObs` the index `i * NumObs + j` computed in `int` arithmetic equals the mathematical
value and lies in `[0, GlobNumVars * NumObs)`, which is the element count the matrix is
allocated with; distinct pairs give distinct indices, and the accesses of lines 156 and
183-189 at `(i, j)` are defined in every state that holds the allocated matrix; (2) if
both counts are positive and `GlobNumVars * NumObs > 2 ^ 31`, a call that gets its name
table has no defined result: the index of the last cell overflows; (3) so every call
that returns `success = true` with both counts positive has
`GlobNumVars * NumObs ≤ 2 ^ 31`. -/
theorem C13_index_in_bounds (env : Env) (infile : String) (f : List Nat)
    (hp : PassesChecks env infile f) :
    (globOf env f * obsOf env f ≤ INT_MAX + 1 →
      ∀ i j : Nat, (i : Int) < globOf env f → (j : Int) < obsOf env f →
        cellIndex (obsOf env f) i j = some ((i : Int) * obsOf env f + j) ∧
        0 ≤ (i : Int) * obsOf env f + j ∧
        (i : Int) * obsOf env f + j < globOf env f * obsOf env f ∧
        ((startOut env f).DataArray.cap : Int) = globOf env f * obsOf env f ∧
        (∀ i' j' : Nat, (i' : Int) < globOf env f → (j' : Int) < obsOf env f →
          (i : Int) * obsOf env f + j = (i' : Int) * obsOf env f + j' → i = i' ∧ j = j') ∧
        (∀ s : State, s.outstruct.NumObs = obsOf env f → s.outstruct.DataArray.ok = true →
          s.outstruct.DataArray.cap = (startOut env f).DataArray.cap →
          (storeStructural i j s).isSome = true ∧ (readObs i j s).isSome = true)) ∧
    (0 < globOf env f → 0 < obsOf env f → INT_MAX + 1 < globOf env f * obsOf env f →
      env.mallocVarNames = true → read_wf1 env infile = none) ∧
    (∀ r, read_wf1 env infile = some r → r.ret.success = true → 0 < globOf env f →
      0 < obsOf env f → globOf env f * obsOf env f ≤ INT_MAX + 1) := by
  refine ⟨?_, ?_, ?_⟩
  · intro hGM i j hi hj
    have hM : 0 ≤ obsOf env f := by omega
    have hG0 : 0 ≤ globOf env f := by omega
    have hrow : ((i : Int) + 1) * obsOf env f ≤ globOf env f * obsOf env f :=
      Int.mul_le_mul_of_nonneg_right (by omega) hM
    have hexp : ((i : Int) + 1) * obsOf env f = (i : Int) * obsOf env f + obsOf env f := by
      ring
    have h0 : 0 ≤ (i : Int) * obsOf env f := Int.mul_nonneg (Int.ofNat_nonneg i) hM
    have hlt : (i : Int) * obsOf env f + j < globOf env f * obsOf env f := by omega
    have hmax : (i : Int) * obsOf env f + j ≤ INT_MAX := by omega
    have hcap := (startOut_caps hG0 (globOf_le env f)).2.2 hM hGM
    refine ⟨cellIndex_eq hM hmax, by omega, hlt, hcap, ?_, ?_⟩
    · intro i' j' hi' hj' he
      have hii : i = i' := by
        rcases Nat.lt_trichotomy i i' with hlt' | heq | hgt
        · exfalso
          have h1 : ((i : Int) + 1) * obsOf env f ≤ (i' : Int) * obsOf env f :=
            Int.mul_le_mul_of_nonneg_right (by omega) hM
          omega
        · exact heq
        · exfalso
          have h1 : ((i' : Int) + 1) * obsOf env f ≤ (i : Int) * obsOf env f :=
            Int.mul_le_mul_of_nonneg_right (by omega) hM
          have h2 : ((i' : Int) + 1) * obsOf env f
              = (i' : Int) * obsOf env f + obsOf env f := by ring
          omega
      subst hii
      exact ⟨rfl, by omega⟩
    · intro s hN hok hc
      constructor
      · exact Option.isSome_iff_exists.2 (storeStructural_progress hok (by rw [hN]; exact hM)
          (by rw [hN, hc, hcap]; exact hlt) (by rw [hN]; exact hmax))
      · exact Option.isSome_iff_exists.2 (readObs_progress hok (by rw [hN]; exact hM)
          (by rw [hN, hc, hcap]; exact hlt) (by rw [hN]; exact hmax))
  · intro hG hM hGM hm
    exact read_wf1_index_overflow hp hm hG hM hGM
  · intro r h hs hG hM
    by_contra hcon
    have hm : env.mallocVarNames = true := by rw [← after_checks_success hp h, hs]
    have := read_wf1_index_overflow hp hm hG hM (by omega)
    rw [this] at h
    exact absurd h (by simp)

/-- C13 on the sample file with two variables and two observations: the last cell has
index 3 of 4. -/
theorem C13_index_in_bounds_witness :
    cellIndex 2 1 1 = some 3 ∧
    (startOut (sampleEnv false fileTwoVars) fileTwoVars).DataArray.cap = 4 :=
  have T := (C13_index_in_bounds (sampleEnv false fileTwoVars) "a.wf1" fileTwoVars
    (passesChecks_of_eval (by decide) rfl (by decide))).1 (by decide) 1 1 (by decide)
      (by decide)
  ⟨T.1, by decide⟩

/-- C14, counterexample to the claim as stated: `fileNegObs` stores the observation count
-1.  The call returns `success = true` with `NumObs = -1`, whether the allocation of the
matrix (a request of `2 ^ 64 - 8` bytes) is granted or refused.  And on a header that
stores 0 as the variable count plus one, a call whose request of `2 ^ 64 - 32` bytes for
the name table is granted returns `success = true` with `GlobNumVars = NumVars = -1`. -/
theorem C14_negative_observation_count :
    leInt 4 (field fileNegObs 140 4) = -1 ∧
      read_wf1 (mallocEnv true true false fileNegObs) "a.wf1"
        = some (resultOf (mallocEnv true true false fileNegObs) "a.wf1") ∧
      (resultOf (mallocEnv true true false fileNegObs) "a.wf1").ret.success = true ∧
      (resultOf (mallocEnv true true false fileNegObs) "a.wf1").ret.NumObs = -1 ∧
      read_wf1 (mallocEnv true true true fileNegObs) "a.wf1"
        = some (resultOf (mallocEnv true true true fileNegObs) "a.wf1") ∧
      (resultOf (mallocEnv true true true fileNegObs) "a.wf1").ret.success = true ∧
      (resultOf (mallocEnv true true true fileNegObs) "a.wf1").ret.NumObs = -1 ∧
      leInt 4 (field fileMinusOneVars 114 4) = 0 ∧
      read_wf1 (mallocEnv true true true fileMinusOneVars) "a.wf1"
        = some (resultOf (mallocEnv true true true fileMinusOneVars) "a.wf1") ∧
      (resultOf (mallocEnv true true true fileMinusOneVars) "a.wf1").ret.success = true ∧
      (resultOf (mallocEnv true true true fileMinusOneVars) "a.wf1").ret.GlobNumVars = -1 ∧
      (resultOf (mallocEnv true true true fileMinusOneVars) "a.wf1").ret.NumVars = -1 ∧
      (startOut (mallocEnv true true true fileMinusOneVars) fileMinusOneVars).VarNames.cap
        = 2 ^ 64 - 32 :=
  ⟨by decide, resultOf_eq (by decide), by decide, by decide, resultOf_eq (by decide),
    by decide, by decide, by decide, resultOf_eq (by decide), by decide, by decide, by decide,
    by decide⟩

/-- C14, amended: for every input on which the call returns `success = true`,
`NumVars ≤ GlobNumVars`; `NumVars ≥ 0` when `GlobNumVars ≥ 0`, and `NumVars = GlobNumVars`
when `GlobNumVars ≤ 0`; `GlobNumVars` is the stored variable count plus one, minus 1 (so
-1 when the header stores 0), and `NumObs` is the stored observation count, returned as it
is, negative or not. -/
theorem C14_count_invariant (env : Env) (infile : String) (r : Run) (f : List Nat)
    (h : read_wf1 env infile = some r) (hs : r.ret.success = true)
    (hf : env.fopen infile = some f) :
    r.ret.NumVars ≤ r.ret.GlobNumVars ∧
    (0 ≤ r.ret.GlobNumVars → 0 ≤ r.ret.NumVars) ∧
    (r.ret.GlobNumVars ≤ 0 → r.ret.NumVars = r.ret.GlobNumVars) ∧
    r.ret.GlobNumVars = hdrNumVarPlusOne (headerOf env f) - 1 ∧
    r.ret.NumObs = hdrNumObs (headerOf env f) ∧
    INT_MIN ≤ r.ret.NumObs ∧ r.ret.NumObs ≤ INT_MAX := by
  obtain ⟨hG, hM⟩ := success_counts h hs hf
  obtain ⟨s, -, -, -, -, -, -, hloop, rfl⟩ := read_wf1_success_of h hs hf
  simp only at hG hM ⊢
  obtain ⟨h1, h2⟩ := varLoop_numVars_bounds hloop
  have h0 : (startState env f).outstruct.NumVars = globOf env f := rfl
  rw [h0] at h1 h2
  rw [hG, hM]
  have hr := obsOf_range env f
  exact ⟨h2, fun hg => by omega, fun hg => by omega, rfl, rfl, hr.1, hr.2⟩

/-- C14 on the sample file with two variables, one of them excluded, and on the file
that stores the observation count -1. -/
theorem C14_count_invariant_witness :
    (resultOf (sampleEnv false fileTwoVars) "a.wf1").ret.NumVars
      ≤ (resultOf (sampleEnv false fileTwoVars) "a.wf1").ret.GlobNumVars ∧
    0 ≤ (resultOf (sampleEnv false fileTwoVars) "a.wf1").ret.NumVars ∧
    (resultOf (mallocEnv true true false fileNegObs) "a.wf1").ret.NumObs
      = hdrNumObs (headerOf (mallocEnv true true false fileNegObs) fileNegObs) :=
  have T := C14_count_invariant (sampleEnv false fileTwoVars) "a.wf1" _ fileTwoVars
    (resultOf_eq (by decide)) (by decide) rfl
  have U := C14_count_invariant (mallocEnv true true false fileNegObs) "a.wf1" _ fileNegObs
    (resultOf_eq (by decide)) (by decide) rfl
  ⟨T.1, T.2.1 (by decide), U.2.2.2.2.1⟩

end Ereader
